import Mathlib

/-!
# nds_rpc: a JSON-RPC 2.0 client (jsonrpc/)

A shallow embedding of the C++ sources under `jsonrpc/` and theorems about it.

Conventions of the embedding

* A `std::string` is a Lean `String`, one `Char` per C++ `char`; `operator<` on
  `std::string` is the lexicographic order on the characters' codes.
* A `double` is modelled by its exact value (`Double`): a rational, the two
  infinities, NaN and the negative zero.  The code only stores, compares and
  prints doubles, so no rounding of arithmetic is involved; the conversion of a
  32-bit `int` to `double` is exact.
* `int` / `long` counters are `Int`; conversions to `unsigned int` are written
  out as `% 2^32`.
* A function that can throw returns `Except Fault _`.  Besides a thrown
  `jsonrpc::Exception` a `Fault` can be a standard-library exception, C++
  undefined behaviour, or `blocked`: the scripted results of the socket calls
  ran out, so the call has not returned.
* The operating system is a `World`: the results the next `socket`, `connect`,
  `send` and `recv` calls will give, and a log of what has been requested.
* The source position fields of `Exception` (`mFile`, `mLine`), filled in from
  `__FILE__` / `__LINE__`, are not modelled.
-/

namespace jsonrpc

/-! ## except.h -/

/-- The enumeration `Exception::ExceptionCodes`. -/
inductive ExceptionCodes where
  | ECParseError
  | ECInvalidRequest
  | ECMethodNotFound
  | ECInvalidParams
  | ECInternalError
  | ECApplicationError
  | ECAssertionFailed
  | ECNotImplemented
  | ECRTAssertionFailed
  | ECSystemError
  | ECBadCast
  | ECIOError
  | ECTransportError
  | ECActionCanceled
  deriving DecidableEq, Repr

/-- The numeric value of each enumerator. -/
def ExceptionCodes.number : ExceptionCodes → Int
  | .ECParseError => -32700
  | .ECInvalidRequest => -32600
  | .ECMethodNotFound => -32601
  | .ECInvalidParams => -32602
  | .ECInternalError => -32603
  | .ECApplicationError => -32000
  | .ECAssertionFailed => -32001
  | .ECNotImplemented => -32002
  | .ECRTAssertionFailed => -3000
  | .ECSystemError => -3001
  | .ECBadCast => -3002
  | .ECIOError => -3003
  | .ECTransportError => -3004
  | .ECActionCanceled => -3005

/-- The name of the exception class that `ExceptionFactory::create` builds for a code. -/
def ExceptionCodes.typeName : ExceptionCodes → String
  | .ECParseError => "ParseErrorException"
  | .ECInvalidRequest => "InvalidRequestException"
  | .ECMethodNotFound => "MethodNotFoundException"
  | .ECInvalidParams => "InvalidParametersException"
  | .ECInternalError => "InternalErrorException"
  | .ECApplicationError => "ApplicationErrorException"
  | .ECAssertionFailed => "AssertionFailedException"
  | .ECNotImplemented => "NotImplementedException"
  | .ECRTAssertionFailed => "RuntimeAssertionException"
  | .ECSystemError => "SystemErrorException"
  | .ECBadCast => "BadCastException"
  | .ECIOError => "IOErrorException"
  | .ECTransportError => "TransportErrorException"
  | .ECActionCanceled => "ActionCanceledException"

/-- The class `Exception`: code, description and type tag. -/
structure Exception where
  mCode : Int
  mDescription : String
  mType : String
  deriving DecidableEq, Repr

/-- The overloads of `ExceptionFactory::create`: the class is chosen by the code. -/
def ExceptionFactory.create (code : ExceptionCodes) (desc : String) : Exception :=
  { mCode := code.number, mDescription := desc, mType := code.typeName }

/-- What ends a call other than a normal return. -/
inductive Fault where
  /-- A `jsonrpc::Exception` propagates to the caller. -/
  | exn (e : Exception)
  /-- A standard-library exception (such as `std::out_of_range`) propagates. -/
  | stdException (what : String)
  /-- The behaviour is undefined in C++ (a null handle is dereferenced, a buffer over-read). -/
  | undefined
  /-- The scripted socket results are exhausted: the call is still waiting. -/
  | blocked
  deriving DecidableEq, Repr

/-- The statement `JSONRPC_EXCEPT(num, desc)`: throw the exception the factory creates. -/
def JSONRPC_EXCEPT {α : Type} (num : ExceptionCodes) (desc : String) : Except Fault α :=
  .error (.exn (ExceptionFactory.create num desc))

/-- The statement `JSONRPC_ASSERT(a, b)`: throw a runtime assertion failure unless `a`. -/
def JSONRPC_ASSERT (a : Bool) (b : String) : Except Fault Unit :=
  if !a then JSONRPC_EXCEPT .ECRTAssertionFailed b else .ok ()

/-! ## doubles -/

/-- The values of a C++ `double`. -/
inductive Double where
  | nan
  | negInf
  | negZero
  | fin (q : ℚ)
  | posInf
  deriving DecidableEq

/-- Conversion of an `int` to `double` (exact). -/
def Double.ofInt (i : Int) : Double := .fin (i : ℚ)

/-- The rational value of a finite double (both zeros are 0). -/
def Double.mag : Double → ℚ
  | .fin q => q
  | _ => 0

/-- The comparison `x == y` on doubles: NaN equals nothing, the two zeros are equal. -/
def Double.eq : Double → Double → Bool
  | .nan, _ => false
  | _, .nan => false
  | .negInf, .negInf => true
  | .posInf, .posInf => true
  | .negInf, _ => false
  | _, .negInf => false
  | .posInf, _ => false
  | _, .posInf => false
  | a, b => decide (a.mag = b.mag)

/-- The comparison `x < y` on doubles: false whenever an operand is NaN. -/
def Double.lt : Double → Double → Bool
  | .nan, _ => false
  | _, .nan => false
  | .posInf, _ => false
  | _, .negInf => false
  | .negInf, _ => true
  | _, .posInf => true
  | a, b => decide (a.mag < b.mag)

/-! ### `ostream << double` with the default format (`%g`, precision 6) -/

/-- The decimal digits of `n`, left-padded with zeros to at least `w` digits. -/
def zeroPad (w n : Nat) : List Char :=
  List.replicate (w - (Nat.repr n).data.length) '0' ++ (Nat.repr n).data

/-- Removal of the trailing zeros of a digit string. -/
def stripTrailingZeros (cs : List Char) : List Char :=
  (cs.reverse.dropWhile (fun c => c == '0')).reverse

/-- The least `k` from the start value on with `d ≤ n * 10^k` (searched for `fuel` steps). -/
def firstScale (n d : Nat) : Nat → Nat → Nat
  | 0, k => k
  | fuel + 1, k => if d ≤ n * 10 ^ k then k else firstScale n d fuel (k + 1)

/-- The number of decimal digits of `m`, less one. -/
def intLog10 : Nat → Nat → Nat
  | 0, _ => 0
  | fuel + 1, m => if m < 10 then 0 else intLog10 fuel (m / 10) + 1

/-- The decimal exponent of the positive rational `n / d`: the `e` with `10^e ≤ n/d < 10^(e+1)`. -/
def decimalExponent (n d : Nat) : Int :=
  if d ≤ n then (intLog10 (n / d) (n / d) : Int) else -(firstScale n d d 1 : Int)

/-- Rounding of `N / D` to the nearest integer, ties to even. -/
def roundHalfEven (N D : Nat) : Nat :=
  if 2 * (N % D) < D then N / D
  else if D < 2 * (N % D) then N / D + 1
  else if (N / D) % 2 = 0 then N / D else N / D + 1

/-- The six significant digits of `n / d` at decimal exponent `e`: `n/d * 10^(5-e)`, rounded. -/
def significand6 (n d : Nat) (e : Int) : Nat :=
  if e ≤ 5 then roundHalfEven (n * 10 ^ (5 - e).toNat) d
  else roundHalfEven n (d * 10 ^ (e - 5).toNat)

/-- The `%g` conversion with precision 6 of the positive rational `n / d`. -/
def formatPositive (n d : Nat) : String :=
  let e0 := decimalExponent n d
  let m0 := significand6 n d e0
  let m := if m0 = 1000000 then 100000 else m0
  let e := if m0 = 1000000 then e0 + 1 else e0
  if e < -4 ∨ 6 ≤ e then
    let ds := (Nat.repr m).data
    let frac := stripTrailingZeros (ds.drop 1)
    String.mk (ds.take 1 ++ (if frac = [] then [] else '.' :: frac))
      ++ (if e < 0 then "e-" else "e+") ++ String.mk (zeroPad 2 e.natAbs)
  else if 0 ≤ e then
    let scale := 10 ^ (5 - e).toNat
    let frac := stripTrailingZeros (zeroPad (5 - e).toNat (m % scale))
    Nat.repr (m / scale) ++ (if frac = [] then "" else String.mk ('.' :: frac))
  else
    let frac := stripTrailingZeros (List.replicate (-e - 1).toNat '0' ++ zeroPad 6 m)
    "0" ++ String.mk ('.' :: frac)

/-- The text `std::stringstream` produces for `ss << d` with the default flags. -/
def Double.toStream : Double → String
  | .nan => "nan"
  | .posInf => "inf"
  | .negInf => "-inf"
  | .negZero => "-0"
  | .fin q =>
    if q = 0 then "0"
    else if q < 0 then "-" ++ formatPositive q.num.natAbs q.den
    else formatPositive q.num.natAbs q.den

/-! ## value.h, value.cpp -/

/-- The enumeration `ValueType`. -/
inductive ValueType where
  | VTNull
  | VTBool
  | VTNumber
  | VTString
  | VTArray
  | VTObject
  deriving DecidableEq, Repr

/-- The integer value of a `ValueType` enumerator (`VTNull = 0`, then counting up). -/
def ValueType.toNat : ValueType → Nat
  | .VTNull => 0
  | .VTBool => 1
  | .VTNumber => 2
  | .VTString => 3
  | .VTArray => 4
  | .VTObject => 5

/-- The variant `Value`: a handle to a `Null`, `Bool`, `Number`, `String`, `Array`
(a `std::vector<Value>`) or `Object` (a `std::map<std::string, Value>`, held as the
sequence of its entries in iteration order). -/
inductive Value where
  | null
  | bool (b : Bool)
  | number (d : Double)
  | string (s : String)
  | array (xs : List Value)
  | object (ms : List (String × Value))

/-- The payload of an `Object`: the entries of the map in key order. -/
abbrev Object := List (String × Value)

instance : Inhabited Value := ⟨Value.null⟩

/-- The method `Value::getType` (the `mType` of the payload). -/
def Value.getType : Value → ValueType
  | .null => .VTNull
  | .bool _ => .VTBool
  | .number _ => .VTNumber
  | .string _ => .VTString
  | .array _ => .VTArray
  | .object _ => .VTObject

/-- The method `Value::isType`. -/
def Value.isType (v : Value) (t : ValueType) : Bool := decide (t = v.getType)

/-- The order `operator<` of `std::string` on the characters: lexicographic by code. -/
def charsLt : List Char → List Char → Bool
  | [], [] => false
  | [], _ :: _ => true
  | _ :: _, [] => false
  | a :: as, b :: bs =>
    if a.toNat < b.toNat then true
    else if b.toNat < a.toNat then false
    else charsLt as bs

/-- The comparison `a < b` of two `std::string`s. -/
def strLt (a b : String) : Bool := charsLt a.data b.data

/-- The method `Bool::compare`. -/
def Bool.compare (mValue ovalue : Bool) : Int :=
  if mValue = ovalue then 0
  else if (!mValue && ovalue) then -1
  else 1

/-- The method `Number::compare`. -/
def Number.compare (mValue ovalue : Double) : Int :=
  if mValue.eq ovalue then 0
  else if mValue.lt ovalue then -1
  else 1

/-- The method `String::compare`. -/
def String.compare (mValue ovalue : String) : Int :=
  if mValue = ovalue then 0
  else if strLt mValue ovalue then -1
  else 1

mutual
/-- The virtual method `compare` of the payload of `x`, called with a payload of the same
type (`ValueBase::operator==` and `operator<` call it only then; on another type the
`dynamic_cast` in it would throw, a case given the value 1 here). -/
def Value.compare : Value → Value → Int
  | .null, _ => 0
  | .bool a, .bool b => Bool.compare a b
  | .number a, .number b => Number.compare a b
  | .string a, .string b => String.compare a b
  | .array xs, .array ys =>
    if vectorEq xs ys then 0
    else if vectorLess xs ys then -1
    else 1
  | .object xs, .object ys =>
    if mapEq xs ys then 0
    else if mapLess xs ys then -1
    else 1
  | _, _ => 1
termination_by x y => (sizeOf x + sizeOf y, 0)
/-- The operator `ValueBase::operator==`, reached through `operator==` of `Value`. -/
def Value.eq (x y : Value) : Bool :=
  if x.getType = y.getType then decide (Value.compare x y = 0) else false
termination_by (sizeOf x + sizeOf y, 1)
/-- The operator `ValueBase::operator<`, reached through `operator<` of `Value`. -/
def Value.lt (x y : Value) : Bool :=
  if x.getType = y.getType then decide (Value.compare x y = -1)
  else decide (x.getType.toNat < y.getType.toNat)
termination_by (sizeOf x + sizeOf y, 1)
/-- The operator `operator==` of `std::vector<Value>`: equal sizes and `std::equal`. -/
def vectorEq (xs ys : List Value) : Bool :=
  decide (xs.length = ys.length) && vectorEqual xs ys
termination_by (sizeOf xs + sizeOf ys, 1)
/-- The algorithm `std::equal` over two vectors of `Value`, with `operator==` of `Value`. -/
def vectorEqual : List Value → List Value → Bool
  | [], _ => true
  | _ :: _, [] => false
  | x :: xs, y :: ys => Value.eq x y && vectorEqual xs ys
termination_by xs ys => (sizeOf xs + sizeOf ys, 0)
/-- The operator `operator<` of `std::vector<Value>`: `std::lexicographical_compare`
with `operator<` of `Value`. -/
def vectorLess : List Value → List Value → Bool
  | [], [] => false
  | [], _ :: _ => true
  | _ :: _, [] => false
  | x :: xs, y :: ys =>
    if Value.lt x y then true
    else if Value.lt y x then false
    else vectorLess xs ys
termination_by xs ys => (sizeOf xs + sizeOf ys, 0)
/-- The operator `operator==` of `std::map<std::string, Value>`: equal sizes and `std::equal`. -/
def mapEq (xs ys : List (String × Value)) : Bool :=
  decide (xs.length = ys.length) && mapEqual xs ys
termination_by (sizeOf xs + sizeOf ys, 1)
/-- The algorithm `std::equal` over the entries of two maps, with `operator==` of `std::pair`. -/
def mapEqual : List (String × Value) → List (String × Value) → Bool
  | [], _ => true
  | _ :: _, [] => false
  | (k, x) :: xs, (l, y) :: ys => (decide (k = l) && Value.eq x y) && mapEqual xs ys
termination_by xs ys => (sizeOf xs + sizeOf ys, 0)
/-- The operator `operator<` of `std::map<std::string, Value>`:
`std::lexicographical_compare` with `operator<` of `std::pair`. -/
def mapLess : List (String × Value) → List (String × Value) → Bool
  | [], [] => false
  | [], _ :: _ => true
  | _ :: _, [] => false
  | (k, x) :: xs, (l, y) :: ys =>
    if (strLt k l || (!strLt l k && Value.lt x y)) then true
    else if (strLt l k || (!strLt k l && Value.lt y x)) then false
    else mapLess xs ys
termination_by xs ys => (sizeOf xs + sizeOf ys, 0)
end

/-- Replacement of every occurrence of the character `c` by the text `by`:
`boost::replace_all` with a one-character search string. -/
def replace_all (input : List Char) (c : Char) (fmt : List Char) : List Char :=
  input.flatMap (fun x => if x = c then fmt else [x])

/-- The double quote character. -/
def dquote : Char := Char.ofNat 34

/-- The backslash character. -/
def backslash : Char := Char.ofNat 92

/-- The function `String::escapeString`: eight replace-all passes, in the order of the source. -/
def String.escapeString (str : String) : String :=
  let tmp := replace_all str.data dquote [backslash, dquote]
  let tmp := replace_all tmp backslash [backslash, backslash]
  let tmp := replace_all tmp '/' [backslash, '/']
  let tmp := replace_all tmp (Char.ofNat 8) [backslash, 'b']
  let tmp := replace_all tmp (Char.ofNat 12) [backslash, 'f']
  let tmp := replace_all tmp (Char.ofNat 10) [backslash, 'n']
  let tmp := replace_all tmp (Char.ofNat 13) [backslash, 'r']
  let tmp := replace_all tmp (Char.ofNat 9) [backslash, 't']
  String.mk tmp

mutual
/-- The method `Value::jsonString`: the virtual `doJsonString` of the payload. -/
def Value.jsonString : Value → String
  | .null => "null"
  | .bool b => if b then "true" else "false"
  | .number d => d.toStream
  | .string s => "\"" ++ String.escapeString s ++ "\""
  | .array xs => "[" ++ Array.doJsonString.loop true xs ++ "]"
  | .object ms => "\x7b" ++ Object.doJsonString.loop true ms ++ "\x7d"
/-- The loop of `Array::doJsonString`: what is written for the remaining elements. -/
def Array.doJsonString.loop : Bool → List Value → String
  | _, [] => ""
  | first, x :: xs =>
    (if !first then ", " else "") ++ x.jsonString ++ Array.doJsonString.loop false xs
/-- The loop of `Object::doJsonString`: what is written for the remaining entries. -/
def Object.doJsonString.loop : Bool → List (String × Value) → String
  | _, [] => ""
  | first, (k, v) :: ms =>
    (if !first then ", " else "") ++ "\"" ++ String.escapeString k ++ "\""
      ++ ": " ++ v.jsonString ++ Object.doJsonString.loop false ms
end

/-- The method `jsonString` of an `Object` payload. -/
def Object.jsonString (o : Object) : String := (Value.object o).jsonString

/-- The method `std::map::find`, as the value found (`none` for `end()`). -/
def Object.find (o : Object) (key : String) : Option Value :=
  match o with
  | [] => none
  | (k, v) :: rest => if k = key then some v else Object.find rest key

/-- The method `Object::hasKey`. -/
def Object.hasKey (o : Object) (key : String) : Bool :=
  match o.find key with
  | none => false
  | some _ => true

/-- The method `Object::get`. -/
def Object.get (o : Object) (key : String) (dflt : Value) : Value :=
  match o.find key with
  | some v => v
  | none => dflt

/-- The assignment `o[key] = val`: the entry is replaced, or inserted at its place in key order. -/
def Object.assign : Object → String → Value → Object
  | [], key, val => [(key, val)]
  | (k, v) :: rest, key, val =>
    if strLt key k then (key, val) :: (k, v) :: rest
    else if strLt k key then (k, v) :: Object.assign rest key val
    else (k, val) :: rest

/-- The expression `o[key]` (non-const `std::map::operator[]`): the value bound to `key`,
after a default-constructed `Value` (a `Null`) has been inserted when there was none. -/
def Object.subscript (o : Object) (key : String) : Value × Object :=
  match o.find key with
  | some v => (v, o)
  | none => (Value.null, o.assign key Value.null)

/-- The throwing cast `value_cast<Object>(v)`. -/
def value_cast_Object (v : Value) : Except Fault Object :=
  match v with
  | .object ms => .ok ms
  | _ => JSONRPC_EXCEPT .ECBadCast "Failed conversion using value_cast"

/-- The throwing cast `value_cast<Array>(v)`. -/
def value_cast_Array (v : Value) : Except Fault (List Value) :=
  match v with
  | .array xs => .ok xs
  | _ => JSONRPC_EXCEPT .ECBadCast "Failed conversion using value_cast"

/-- The probing cast `value_cast<Object::ptr>(v)`: `none` is the null handle. -/
def value_cast_Object_ptr (v : Value) : Option Object :=
  match v with
  | .object ms => some ms
  | _ => none

/-- The probing cast `value_cast<Array::ptr>(v)`: `none` is the null handle. -/
def value_cast_Array_ptr (v : Value) : Option (List Value) :=
  match v with
  | .array xs => some xs
  | _ => none

/-! ## parse.h, parse.cpp -/

/-- The parsed tree `json::grammar<char>::variant` of the external parser: a `boost::any`
that is empty or holds a `bool`, `int`, `double`, `std::string`, an array or an object of
variants, or a value of some other type. -/
inductive Variant where
  | empty
  | bool (b : Bool)
  | int (i : Int)
  | double (d : Double)
  | string (s : String)
  | array (xs : List Variant)
  | object (ms : List (String × Variant))
  | other

/-- The external function `json::parse` (tinyjson), taken as a parameter. -/
abbrev JsonParse := String → Variant

mutual
/-- The function `constructValue`. -/
def constructValue : Variant → Value
  | .empty => Value.null
  | .bool b => Value.bool b
  | .int i => Value.number (Double.ofInt i)
  | .double d => Value.number d
  | .string s => Value.string s
  | .array a => Value.array (constructValue.arrayLoop a)
  | .object o => Value.object (constructValue.objectLoop o [])
  | .other => Value.null
/-- The loop over the array node: `arr.push_back(constructValue(*it))`. -/
def constructValue.arrayLoop : List Variant → List Value
  | [] => []
  | x :: xs => constructValue x :: constructValue.arrayLoop xs
/-- The loop over the object node: `obj[strName] = constructValue((*it).second)`. -/
def constructValue.objectLoop : List (String × Variant) → Object → Object
  | [], obj => obj
  | (strName, x) :: rest, obj =>
    constructValue.objectLoop rest (obj.assign strName (constructValue x))
end

/-- The function template `parse`. -/
def parse (jsonParse : JsonParse) (text : String) : Except Fault Value :=
  match jsonParse text with
  | .object o => .ok (constructValue (.object o))
  | _ => JSONRPC_EXCEPT .ECParseError "Error parsing json input"

/-! ## methodcall.h, methodcall.cpp -/

/-- The class `MethodCall`. -/
structure MethodCall where
  mName : String
  mParams : Value
  mId : Int

/-- The constructor `MethodCall(name)`, with the static counter `NextMethodId` as explicit
state: the counter is incremented and its new value is the id. -/
def MethodCall.new (name : String) (NextMethodId : Int) : MethodCall × Int :=
  ({ mName := name, mParams := Value.array [], mId := NextMethodId + 1 }, NextMethodId + 1)

/-- The method `MethodCall::getId`. -/
def MethodCall.getId (m : MethodCall) : Int := m.mId

/-- The method `MethodCall::size`; with parameters that are neither an Array nor an Object it
dereferences a null handle. -/
def MethodCall.size (m : MethodCall) : Except Fault Int :=
  if m.mParams.isType .VTArray then
    match value_cast_Array_ptr m.mParams with
    | some a => .ok a.length
    | none => .error .undefined
  else
    match value_cast_Object_ptr m.mParams with
    | some o => .ok o.length
    | none => .error .undefined

/-- The local variable `method` of `MethodCall::jsonString` as it is when the function
renders it. -/
def MethodCall.jsonString.method (m : MethodCall) (notification : Bool) : Except Fault Object := do
  JSONRPC_ASSERT (!decide (m.mName = "")) "Method name not set in MethodCall::jsonString()"
  let method : Object := []
  let method := method.assign "jsonrpc" (Value.string "2.0")
  let method := method.assign "method" (Value.string m.mName)
  let n ← m.size
  let method := if n ≠ 0 then method.assign "params" m.mParams else method
  let method := if !notification then method.assign "id" (Value.number (Double.ofInt m.mId)) else method
  pure method

/-- The method `MethodCall::jsonString`. -/
def MethodCall.jsonString (m : MethodCall) (notification : Bool) : Except Fault String := do
  let method ← MethodCall.jsonString.method m notification
  pure (Object.jsonString method)

/-- The method `MethodCall::addParam(const Value&)`. -/
def MethodCall.addParam (m : MethodCall) (val : Value) : Except Fault MethodCall :=
  match m.mParams with
  | .object o =>
    if o.length ≠ 0 then
      JSONRPC_EXCEPT .ECRTAssertionFailed
        "Attempted to add non named parameter to named parameter method"
    else .ok { m with mParams := Value.array [val] }
  | .array a => .ok { m with mParams := Value.array (a ++ [val]) }
  | _ => .error .undefined

/-- The method `MethodCall::addParam(const std::string&, const Value&)`. -/
def MethodCall.addParamNamed (m : MethodCall) (name : String) (val : Value) :
    Except Fault MethodCall :=
  match m.mParams with
  | .array a =>
    if a.length ≠ 0 then
      JSONRPC_EXCEPT .ECRTAssertionFailed
        "Attempted to add named parameter to parameter list method"
    else .ok { m with mParams := Value.object (Object.assign [] name val) }
  | .object o => .ok { m with mParams := Value.object (Object.assign o name val) }
  | _ => .error .undefined

/-- The method `MethodCall::namedParams`. -/
def MethodCall.namedParams (m : MethodCall) : Bool := m.mParams.isType .VTObject

/-- The method `MethodCall::positionalParams`. -/
def MethodCall.positionalParams (m : MethodCall) : Bool := m.mParams.isType .VTArray

/-- The method `MethodCall::clear`. -/
def MethodCall.clear (m : MethodCall) : MethodCall := { m with mParams := Value.array [] }

/-- The method `MethodCall::getName`. -/
def MethodCall.getName (m : MethodCall) : String := m.mName

/-- The method `MethodCall::setName`. -/
def MethodCall.setName (m : MethodCall) (name : String) : MethodCall := { m with mName := name }

/-- The method `MethodCall::setParam(const Value&)`. -/
def MethodCall.setParam (m : MethodCall) (val : Value) : MethodCall :=
  { m with mParams := Value.array [val] }

/-- The method `MethodCall::setParam(const std::string&, const Value&)`. -/
def MethodCall.setParamNamed (m : MethodCall) (name : String) (val : Value) : MethodCall :=
  { m with mParams := Value.object (Object.assign [] name val) }

/-- The method `MethodCall::getParam(const int)`; an index outside the vector is undefined
behaviour of `std::vector::operator[]`. -/
def MethodCall.getParam (m : MethodCall) (index : Int) : Except Fault Value :=
  if m.mParams.isType .VTObject then .ok Value.null
  else
    match value_cast_Array_ptr m.mParams with
    | none => .error .undefined
    | some a =>
      if 0 ≤ index ∧ index < a.length then .ok (a.getD index.toNat Value.null)
      else .error .undefined

/-- The method `MethodCall::getParam(const std::string&)`: the value, and the call with the
parameters as `operator[]` of the map leaves them. -/
def MethodCall.getParamNamed (m : MethodCall) (name : String) :
    Except Fault (Value × MethodCall) :=
  if m.mParams.isType .VTArray then .ok (Value.null, m)
  else
    match value_cast_Object_ptr m.mParams with
    | none => .error .undefined
    | some o => .ok ((o.subscript name).1, { m with mParams := Value.object (o.subscript name).2 })

/-- The class invariant of `MethodCall`: the parameters are an Array or an Object. -/
def MethodCall.WellShaped (m : MethodCall) : Prop :=
  m.mParams.getType = .VTArray ∨ m.mParams.getType = .VTObject

/-! ## response.h, response.cpp -/

/-- The class `Response`. -/
structure Response where
  mError : Bool
  mValue : Value

/-- The default constructor `Response()`. -/
def Response.new : Response := { mError := false, mValue := Value.null }

/-- The method `Response::isError`. -/
def Response.isError (r : Response) : Bool := r.mError

/-- The method `Response::getResult`. -/
def Response.getResult (r : Response) : Value := r.mValue

/-- The method `Response::setResult`. -/
def Response.setResult (_r : Response) (val : Value) : Response :=
  { mError := false, mValue := val }

/-- The method `Response::setError(const Value&)`. -/
def Response.setError (_r : Response) (val : Value) : Response :=
  { mError := true, mValue := val }

/-! ## tcpipconnection.h, tcpipconnection.cpp -/

/-- The constant `MAXBUFFSIZE`. -/
def MAXBUFFSIZE : Int := 4096

/-- What a `recv` call gives: -1, or the bytes it stored in the buffer. -/
inductive RecvResult where
  | failed
  | bytes (data : String)
  deriving DecidableEq, Repr

/-- A request made to the operating system, or an invocation of the progress callback. -/
inductive Event where
  | socket
  | connect (fd : Int)
  | close (fd : Int)
  | send (fd : Int) (data : String) (size : Int)
  | recv (fd : Int) (size : Int)
  | progress (done total : Nat)
  deriving DecidableEq, Repr

/-- The operating system as the code sees it: the results of the coming `socket`, `connect`,
`send` and `recv` calls in order, the text of `strerror(errno)`, and the requests so far. -/
structure World where
  socketResults : List Int
  connectResults : List Int
  sendResults : List Int
  recvResults : List RecvResult
  errorString : String
  log : List Event
  deriving DecidableEq, Repr

/-- The state of a `TCPIPConnection` that its methods change: the socket handle
(-1 when disconnected). -/
structure TCPIPConnection where
  mSocketfd : Int
  deriving DecidableEq, Repr

/-- A progress callback `boost::function<bool (unsigned int, unsigned int)>`: `none` is the
empty function; a callable answers from the arguments of its earlier invocations within
the operation and the two current arguments. -/
abbrev Callback := Option (List (Nat × Nat) → Nat → Nat → Bool)

/-- Conversion of an `int` or `long` to `unsigned int`. -/
def toUnsigned (x : Int) : Nat := (x % 2 ^ 32).toNat

/-- The method `TCPIPConnection::connect`. -/
def TCPIPConnection.connect (c : TCPIPConnection) (w : World) :
    Except Fault Unit × TCPIPConnection × World :=
  if c.mSocketfd ≠ -1 then (.ok (), c, w)
  else
    match w.socketResults with
    | [] => (.error .blocked, c, w)
    | fd :: socks =>
      let w1 := { w with socketResults := socks, log := w.log ++ [Event.socket] }
      let c1 : TCPIPConnection := { mSocketfd := fd }
      if fd = -1 then
        (JSONRPC_EXCEPT .ECTransportError ("network connection failed: " ++ w.errorString), c1, w1)
      else
        match w1.connectResults with
        | [] => (.error .blocked, c1, { w1 with log := w1.log ++ [Event.connect fd] })
        | r :: conns =>
          let w2 := { w1 with connectResults := conns, log := w1.log ++ [Event.connect fd] }
          if r = -1 then
            (JSONRPC_EXCEPT .ECTransportError ("network connection failed: " ++ w.errorString),
              c1, w2)
          else (.ok (), c1, w2)

/-- The method `TCPIPConnection::disconnect`: the handle is closed (`closesocket` or `close`,
as the platform has it) and reset to -1, whatever it was. -/
def TCPIPConnection.disconnect (c : TCPIPConnection) (w : World) : TCPIPConnection × World :=
  ({ mSocketfd := -1 }, { w with log := w.log ++ [Event.close c.mSocketfd] })

/-- The bytes a `send` of `size` bytes reads from `buff.substr(total, size).c_str()`:
the substring, with its terminating NUL when `size` is one more than its length;
`none` when more than that would be read. -/
def sendBytes (sub : List Char) (size : Int) : Option String :=
  if size ≤ sub.length then some (String.mk sub)
  else if size = sub.length + 1 then some (String.mk (sub ++ [Char.ofNat 0]))
  else none

/-- The loop of `TCPIPConnection::write`, with the history of the callback's invocations.
It runs on the results of the coming `send` calls. -/
def TCPIPConnection.write.loop (fd : Int) (buff : String) (tlen : Int) (callback : Callback)
    (errorString : String) :
    List Int → Int → List (Nat × Nat) → List Event →
      Except Fault Unit × List Int × List Event
  | sends, total, hist, log =>
    if total < tlen then
      let size : Int := if tlen - total > MAXBUFFSIZE then MAXBUFFSIZE else tlen - total
      if total < 0 ∨ (buff.length : Int) < total then
        (.error (.stdException "std::out_of_range"), sends, log)
      else
        match sendBytes ((buff.data.drop total.toNat).take size.toNat) size with
        | none => (.error .undefined, sends, log)
        | some data =>
          match sends with
          | [] => (.error .blocked, [], log ++ [Event.send fd data size])
          | sendlen :: rest =>
            let log1 := log ++ [Event.send fd data size]
            if sendlen = -1 then
              (JSONRPC_EXCEPT .ECTransportError ("network send failed: " ++ errorString),
                rest, log1)
            else
              let total1 := total + sendlen
              match callback with
              | none => TCPIPConnection.write.loop fd buff tlen callback errorString
                          rest total1 hist log1
              | some f =>
                let log2 := log1 ++ [Event.progress (toUnsigned total1) (toUnsigned tlen)]
                if !f hist (toUnsigned total1) (toUnsigned tlen) then
                  (JSONRPC_EXCEPT .ECActionCanceled "write canceled by callback", rest, log2)
                else
                  TCPIPConnection.write.loop fd buff tlen callback errorString rest total1
                    (hist ++ [(toUnsigned total1, toUnsigned tlen)]) log2
    else (.ok (), sends, log)

/-- The method `TCPIPConnection::write(buff, len, callback)`. -/
def TCPIPConnection.write (c : TCPIPConnection) (w : World) (buff : String) (len : Int)
    (callback : Callback) : Except Fault Unit × TCPIPConnection × World :=
  let tlen : Int := if len = 0 then buff.length else len
  match TCPIPConnection.write.loop c.mSocketfd buff tlen callback w.errorString
      w.sendResults 0 [] w.log with
  | (r, sends, log) => (r, c, { w with sendResults := sends, log := log })

/-- The loop of `TCPIPConnection::read`, entered with `numbytes == MAXBUFFSIZE`.
It runs on the results of the coming `recv` calls. -/
def TCPIPConnection.read.loop (fd : Int) (len : Int) (callback : Callback)
    (errorString : String) :
    List RecvResult → Int → String → List (Nat × Nat) → List Event →
      Except Fault String × List RecvResult × List Event
  | recvs, total, out, hist, log =>
    let recvlen : Int :=
      if len - total > MAXBUFFSIZE ∨ len - total ≤ 0 then MAXBUFFSIZE else len - total
    match recvs with
    | [] => (.error .blocked, [], log ++ [Event.recv fd recvlen])
    | .failed :: rest =>
      (JSONRPC_EXCEPT .ECTransportError ("network recv failed: " ++ errorString),
        rest, log ++ [Event.recv fd recvlen])
    | .bytes data :: rest =>
      let log1 := log ++ [Event.recv fd recvlen]
      let numbytes : Int := data.length
      let out1 := out ++ data
      let total1 := total + numbytes
      match callback with
      | none =>
        if numbytes = MAXBUFFSIZE then
          TCPIPConnection.read.loop fd len callback errorString rest total1 out1 hist log1
        else (.ok out1, rest, log1)
      | some f =>
        let log2 := log1 ++ [Event.progress (toUnsigned total1) (toUnsigned len)]
        if !f hist (toUnsigned total1) (toUnsigned len) then
          (JSONRPC_EXCEPT .ECActionCanceled "read canceled by callback", rest, log2)
        else if numbytes = MAXBUFFSIZE then
          TCPIPConnection.read.loop fd len callback errorString rest total1 out1
            (hist ++ [(toUnsigned total1, toUnsigned len)]) log2
        else (.ok out1, rest, log2)

/-- The method `TCPIPConnection::read(len, callback)`. -/
def TCPIPConnection.read (c : TCPIPConnection) (w : World) (len : Int) (callback : Callback) :
    Except Fault String × TCPIPConnection × World :=
  match TCPIPConnection.read.loop c.mSocketfd len callback w.errorString
      w.recvResults 0 "" [] w.log with
  | (r, recvs, log) => (r, c, { w with recvResults := recvs, log := log })

/-- The method `TCPIPConnection::sendRecieve`: a library exception from `write` or `read`
is caught, the connection is disconnected and the exception thrown again (`throw e`, a
copy with the same code, description and type tag). -/
def TCPIPConnection.sendRecieve (c : TCPIPConnection) (w : World) (buff : String) :
    Except Fault String × TCPIPConnection × World :=
  match c.connect w with
  | (.error f, c1, w1) => (.error f, c1, w1)
  | (.ok (), c1, w1) =>
    match c1.write w1 buff 0 none with
    | (.error (.exn e), c2, w2) =>
      let (c3, w3) := c2.disconnect w2
      (.error (.exn e), c3, w3)
    | (.error f, c2, w2) => (.error f, c2, w2)
    | (.ok (), c2, w2) =>
      match c2.read w2 0 none with
      | (.error (.exn e), c3, w3) =>
        let (c4, w4) := c3.disconnect w3
        (.error (.exn e), c4, w4)
      | (.error f, c3, w3) => (.error f, c3, w3)
      | (.ok ret, c3, w3) =>
        let (c4, w4) := c3.disconnect w3
        (.ok ret, c4, w4)

/-! ## requester.h, requester.cpp -/

/-- The first statements of `Requester::call` (requester.cpp lines 17-20): connect, write the
rendered request, read the reply with the callback, disconnect.  The result is the local
variable `ret`. -/
def Requester.call.exchange (mConn : TCPIPConnection) (w : World) (meth : MethodCall)
    (notification : Bool) (callback : Callback) :
    Except Fault String × TCPIPConnection × World :=
  match mConn.connect w with
  | (.error f, c1, w1) => (.error f, c1, w1)
  | (.ok (), c1, w1) =>
    match meth.jsonString notification with
    | .error f => (.error f, c1, w1)
    | .ok text =>
      match c1.write w1 text 0 none with
      | (.error f, c2, w2) => (.error f, c2, w2)
      | (.ok (), c2, w2) =>
        match c2.read w2 0 callback with
        | (.error f, c3, w3) => (.error f, c3, w3)
        | (.ok ret, c3, w3) =>
          let (c4, w4) := c3.disconnect w3
          (.ok ret, c4, w4)

/-- The rest of `Requester::call` (requester.cpp lines 24-56): the checks on the reply `ret`
and the construction of the `Response`. -/
def Requester.call.validate (jsonParse : JsonParse) (ret : String) (meth : MethodCall) :
    Except Fault Response :=
  if ret = "" then JSONRPC_EXCEPT .ECParseError "Server returned an empty response."
  else
    let cast : Except Fault Object :=
      match (parse jsonParse ret >>= value_cast_Object) with
      | .error (.exn ex) =>
        if ex.mType = "BadCastException" then
          JSONRPC_EXCEPT .ECParseError "Server return value is not a JSON Object."
        else .error (.exn ex)
      | r => r
    match cast with
    | .error f => .error f
    | .ok json =>
      let (okVersion, json) :=
        if json.hasKey "jsonrpc" then
          ((json.subscript "jsonrpc").1.eq (Value.string "2.0"), (json.subscript "jsonrpc").2)
        else (false, json)
      if !okVersion then
        JSONRPC_EXCEPT .ECParseError "Server return value has missing or wrong jsonrpc version."
      else
        let (okId, json) :=
          if json.hasKey "id" then
            ((json.subscript "id").1.eq (Value.number (Double.ofInt meth.getId)),
              (json.subscript "id").2)
          else (false, json)
        if !okId then
          JSONRPC_EXCEPT .ECParseError "Return id value does not match requests id."
        else
          let response := Response.new
          if json.hasKey "result" && json.hasKey "error" then
            JSONRPC_EXCEPT .ECParseError "Server response has both result and error members."
          else if json.hasKey "result" then
            .ok (response.setResult (json.subscript "result").1)
          else if json.hasKey "error" then
            .ok (response.setError (json.subscript "error").1)
          else
            JSONRPC_EXCEPT .ECParseError "Server response has neither result or error members."

/-- The method `Requester::call`. -/
def Requester.call (jsonParse : JsonParse) (mConn : TCPIPConnection) (w : World)
    (meth : MethodCall) (notification : Bool) (callback : Callback) :
    Except Fault Response × TCPIPConnection × World :=
  match Requester.call.exchange mConn w meth notification callback with
  | (.error f, c, w1) => (.error f, c, w1)
  | (.ok ret, c, w1) => (Requester.call.validate jsonParse ret meth, c, w1)

/-- The method `Requester::notify`: `call(meth, true, callback)`, the `Response` dropped. -/
def Requester.notify (jsonParse : JsonParse) (mConn : TCPIPConnection) (w : World)
    (meth : MethodCall) (callback : Callback) :
    Except Fault Unit × TCPIPConnection × World :=
  match Requester.call jsonParse mConn w meth true callback with
  | (.error f, c, w1) => (.error f, c, w1)
  | (.ok _, c, w1) => (.ok (), c, w1)

/-- The initial value of the static counter `MethodCall::NextMethodId`. -/
def MethodCall.NextMethodId : Int := 0

/-- The default constructor `MethodCall()`, with the counter as explicit state. -/
def MethodCall.newDefault (NextMethodId : Int) : MethodCall × Int :=
  ({ mName := "", mParams := Value.array [], mId := NextMethodId + 1 }, NextMethodId + 1)

/-- A run of constructions, one after the other: `some name` is `MethodCall(name)`, `none`
is `MethodCall()`.  The result is the calls in the order of construction and the counter
afterwards. -/
def MethodCall.constructAll : List (Option String) → Int → List MethodCall × Int
  | [], next => ([], next)
  | some name :: rest, next =>
    ((MethodCall.new name next).1 :: (MethodCall.constructAll rest (MethodCall.new name next).2).1,
      (MethodCall.constructAll rest (MethodCall.new name next).2).2)
  | none :: rest, next =>
    ((MethodCall.newDefault next).1 :: (MethodCall.constructAll rest (MethodCall.newDefault next).2).1,
      (MethodCall.constructAll rest (MethodCall.newDefault next).2).2)

/-- The largest value of an `int`. -/
def INT_MAX : Int := 2147483647

/-- Whether a double is a NaN. -/
def Double.isNaN : Double → Bool
  | .nan => true
  | _ => false

mutual
/-- Whether no Number in the value, at any depth, is a NaN. -/
def Value.nanFree : Value → Bool
  | .null => true
  | .bool _ => true
  | .number d => !d.isNaN
  | .string _ => true
  | .array xs => Value.nanFree.elements xs
  | .object ms => Value.nanFree.members ms
/-- Whether every element of a vector is free of NaN. -/
def Value.nanFree.elements : List Value → Bool
  | [] => true
  | x :: xs => x.nanFree && Value.nanFree.elements xs
/-- Whether every value bound in a map is free of NaN. -/
def Value.nanFree.members : List (String × Value) → Bool
  | [] => true
  | (_, x) :: ms => x.nanFree && Value.nanFree.members ms
end

/-- The Object built from the empty one by the assignments `o[k] = v` for the bindings
of a list, in the order of the list. -/
def Object.ofBindings (bindings : List (String × Value)) : Object :=
  bindings.foldl (fun o kv => Object.assign o kv.1 kv.2) []

/-- Exactly one of three Booleans is true. -/
def ExactlyOne (p q r : Bool) : Prop :=
  (p = true ∧ q = false ∧ r = false) ∨ (p = false ∧ q = true ∧ r = false)
    ∨ (p = false ∧ q = false ∧ r = true)

/-- The operator `operator<` of `std::pair<const std::string, Value>`, as `mapLess` uses it. -/
def pairLess (k : String) (x : Value) (l : String) (y : Value) : Bool :=
  strLt k l || (!strLt l k && Value.lt x y)

/-- The operator `operator==` of `std::pair<const std::string, Value>`, as `mapEqual` uses it. -/
def pairEq (k : String) (x : Value) (l : String) (y : Value) : Bool :=
  decide (k = l) && Value.eq x y

/-- The four ways in which `<` and `==` compose, for three values. -/
def Value.Transitive (a b c : Value) : Prop :=
  (Value.lt a b = true → Value.lt b c = true → Value.lt a c = true)
  ∧ (Value.lt a b = true → Value.eq b c = true → Value.lt a c = true)
  ∧ (Value.eq a b = true → Value.lt b c = true → Value.lt a c = true)
  ∧ (Value.eq a b = true → Value.eq b c = true → Value.eq a c = true)

/-- The entries of an Object come in strictly ascending key order (as a `std::map` holds them). -/
def Object.Sorted (o : Object) : Prop :=
  List.Pairwise (fun e1 e2 => strLt e1.1 e2.1 = true) o


/-! ## value.h: the casts to the other payload types -/

/-- The throwing cast `value_cast<Null>(v)`; a `Null` carries no payload. -/
def value_cast_Null (v : Value) : Except Fault Unit :=
  match v with
  | .null => .ok ()
  | _ => JSONRPC_EXCEPT .ECBadCast "Failed conversion using value_cast"

/-- The throwing cast `value_cast<Bool>(v)`, as the `getValue()` of the Bool returned. -/
def value_cast_Bool (v : Value) : Except Fault Bool :=
  match v with
  | .bool b => .ok b
  | _ => JSONRPC_EXCEPT .ECBadCast "Failed conversion using value_cast"

/-- The throwing cast `value_cast<Number>(v)`, as the `getValue()` of the Number returned. -/
def value_cast_Number (v : Value) : Except Fault Double :=
  match v with
  | .number d => .ok d
  | _ => JSONRPC_EXCEPT .ECBadCast "Failed conversion using value_cast"

/-- The throwing cast `value_cast<String>(v)`, as the `getValue()` of the String returned. -/
def value_cast_String (v : Value) : Except Fault String :=
  match v with
  | .string s => .ok s
  | _ => JSONRPC_EXCEPT .ECBadCast "Failed conversion using value_cast"

/-- The probing cast `value_cast<Null::ptr>(v)`: `none` is the null handle. -/
def value_cast_Null_ptr (v : Value) : Option Unit :=
  match v with
  | .null => some ()
  | _ => none

/-- The probing cast `value_cast<Bool::ptr>(v)`: `none` is the null handle. -/
def value_cast_Bool_ptr (v : Value) : Option Bool :=
  match v with
  | .bool b => some b
  | _ => none

/-- The probing cast `value_cast<Number::ptr>(v)`: `none` is the null handle. -/
def value_cast_Number_ptr (v : Value) : Option Double :=
  match v with
  | .number d => some d
  | _ => none

/-- The probing cast `value_cast<String::ptr>(v)`: `none` is the null handle. -/
def value_cast_String_ptr (v : Value) : Option String :=
  match v with
  | .string s => some s
  | _ => none

/-- The probing cast in the words of the specification: given what the throwing cast does,
the null handle on a mismatch instead of the failure, and a handle to the payload otherwise. -/
def value_cast_ptr_spec {α : Type} (throwing : Except Fault α) : Option α :=
  match throwing with
  | .ok payload => some payload
  | .error _ => none

/-- The failure of a throwing cast: the `BadCastException` with code -3002. -/
def BadCast : Fault :=
  .exn (Exception.mk (-3002) "Failed conversion using value_cast" "BadCastException")

/-! ## Characters and their images under `String::escapeString` -/

/-- What the eight passes of `String::escapeString` make of one character. -/
def String.escapeString.image (x : Char) : List Char :=
  if x = dquote then [backslash, backslash, dquote]
  else if x = backslash then [backslash, backslash]
  else if x = '/' then [backslash, '/']
  else if x = Char.ofNat 8 then [backslash, 'b']
  else if x = Char.ofNat 12 then [backslash, 'f']
  else if x = Char.ofNat 10 then [backslash, 'n']
  else if x = Char.ofNat 13 then [backslash, 'r']
  else if x = Char.ofNat 9 then [backslash, 't']
  else [x]

/-- The image of one character in the words of the specification: a double quote maps to
backslash and double quote, a backslash to two backslashes, a slash to backslash and slash,
backspace, form-feed, newline, carriage-return and tab to their two-character escapes, and
every other character to itself. -/
def String.escapeString.image_spec (x : Char) : List Char :=
  if x = dquote then [backslash, dquote]
  else if x = backslash then [backslash, backslash]
  else if x = '/' then [backslash, '/']
  else if x = Char.ofNat 8 then [backslash, 'b']
  else if x = Char.ofNat 12 then [backslash, 'f']
  else if x = Char.ofNat 10 then [backslash, 'n']
  else if x = Char.ofNat 13 then [backslash, 'r']
  else if x = Char.ofNat 9 then [backslash, 't']
  else [x]

/-- The text of one member of an Object as `Object::doJsonString` writes it. -/
def Object.doJsonString.member (e : String × Value) : String :=
  "\"" ++ String.escapeString e.1 ++ "\"" ++ ": " ++ e.2.jsonString

/-- The content round trip of one Object through a parser: `parse` of its text succeeds
and yields a Value equal to it under `==`. -/
def RoundTrips (jsonParse : JsonParse) (o : Object) : Prop :=
  ∃ v, parse jsonParse (Object.jsonString o) = .ok v ∧ Value.eq v (Value.object o) = true

/-! ## Values whose maps are in key order -/

mutual
/-- Every Object in the value, at any depth, holds its entries in ascending key order,
as a `std::map` does. -/
def Value.Ordered : Value → Prop
  | .array xs => Value.Ordered.elements xs
  | .object ms => Object.Sorted ms ∧ Value.Ordered.members ms
  | _ => True
/-- Every element of a vector is ordered. -/
def Value.Ordered.elements : List Value → Prop
  | [] => True
  | x :: xs => x.Ordered ∧ Value.Ordered.elements xs
/-- Every value bound in a map is ordered. -/
def Value.Ordered.members : List (String × Value) → Prop
  | [] => True
  | (_, x) :: ms => x.Ordered ∧ Value.Ordered.members ms
end

/-! ## Runs of `write` and `read` -/

/-- The size of the `send` request of `write` when `total` of `tlen` bytes have been sent. -/
def TCPIPConnection.write.size (tlen total : Int) : Int :=
  if tlen - total > MAXBUFFSIZE then MAXBUFFSIZE else tlen - total

/-- The size of the `recv` request of `read` when `total` bytes have been read. -/
def TCPIPConnection.read.recvlen (len total : Int) : Int :=
  if len - total > MAXBUFFSIZE ∨ len - total ≤ 0 then MAXBUFFSIZE else len - total

/-- The arguments of the invocations of the callback over a run, in the words of the
specification: after each chunk, the bytes transferred so far and the total length. -/
def progressReports (tlen : Int) : Int → List Int → List (Nat × Nat)
  | _, [] => []
  | total, n :: rest =>
    (toUnsigned (total + n), toUnsigned tlen) :: progressReports tlen (total + n) rest

/-- Whether the callback, when there is one, returns true on each of the invocations that
follow the given chunks. -/
def Callback.accepts (callback : Callback) (tlen : Int) :
    Int → List (Nat × Nat) → List Int → Bool
  | _, _, [] => true
  | total, hist, n :: rest =>
    match callback with
    | none => true
    | some f =>
      f hist (toUnsigned (total + n)) (toUnsigned tlen)
        && Callback.accepts callback tlen (total + n)
            (hist ++ [(toUnsigned (total + n), toUnsigned tlen)]) rest

/-- The invocations the callback has answered after the given chunks. -/
def Callback.history (callback : Callback) (tlen : Int) (total : Int)
    (hist : List (Nat × Nat)) (amounts : List Int) : List (Nat × Nat) :=
  match callback with
  | none => hist
  | some _ => hist ++ progressReports tlen total amounts

/-- The events of a run of `write` in the words of the specification: for each result of
`send` in order, the request to send the bytes from the first byte not yet accepted, at
most 4096 of them, and, unless the `send` failed, one invocation of the callback, when
one is supplied, with the bytes sent so far and the total length. -/
def writeTrace (fd : Int) (buff : String) (tlen : Int) (hasCallback : Bool) :
    Int → List Int → List Event
  | _, [] => []
  | total, sendlen :: rest =>
    Event.send fd
        (String.mk ((buff.data.drop total.toNat).take
          (TCPIPConnection.write.size tlen total).toNat))
        (TCPIPConnection.write.size tlen total) ::
      (if sendlen = -1 then []
        else
          (if hasCallback then
            [Event.progress (toUnsigned (total + sendlen)) (toUnsigned tlen)] else [])
          ++ writeTrace fd buff tlen hasCallback (total + sendlen) rest)

/-- The results of `send` on which the loop of `write` goes on: none is a failure and
each comes while bytes remain to be sent. -/
def TCPIPConnection.write.proceeds (tlen : Int) : Int → List Int → Bool
  | _, [] => true
  | total, sendlen :: rest =>
    decide (total < tlen) && decide (0 ≤ sendlen)
      && TCPIPConnection.write.proceeds tlen (total + sendlen) rest

/-- The results of `send` consumed by a run in which each `send` accepts at least one
byte and at most the bytes requested. -/
def TCPIPConnection.write.accepted (tlen : Int) : Int → List Int → Bool
  | _, [] => true
  | total, sendlen :: rest =>
    decide (total < tlen) && decide (1 ≤ sendlen)
      && decide (sendlen ≤ TCPIPConnection.write.size tlen total)
      && TCPIPConnection.write.accepted tlen (total + sendlen) rest

/-- The coming results of `send` let a `write` of `tlen` bytes complete: as long as bytes
remain there is a result, and it accepts at least one byte and at most the bytes
requested. -/
def TCPIPConnection.write.sendsSucceed (tlen : Int) : Int → List Int → Bool
  | total, [] => decide (tlen ≤ total)
  | total, sendlen :: rest =>
    if total < tlen then
      decide (1 ≤ sendlen) && decide (sendlen ≤ TCPIPConnection.write.size tlen total)
        && TCPIPConnection.write.sendsSucceed tlen (total + sendlen) rest
    else true

/-- The bytes the socket accepts over a run of `write`: of each request, as many bytes as
the `send` reports. -/
def TCPIPConnection.write.acceptedBytes (buff : String) (tlen : Int) :
    Int → List Int → List Char
  | _, [] => []
  | total, sendlen :: rest =>
    (((buff.data.drop total.toNat).take (TCPIPConnection.write.size tlen total).toNat).take
        sendlen.toNat)
      ++ TCPIPConnection.write.acceptedBytes buff tlen (total + sendlen) rest

/-- The sizes of the `send` requests among some events. -/
def sendSizes : List Event → List Int
  | [] => []
  | Event.send _ _ size :: rest => size :: sendSizes rest
  | _ :: rest => sendSizes rest

/-- The sizes of the `recv` requests among some events. -/
def recvSizes : List Event → List Int
  | [] => []
  | Event.recv _ size :: rest => size :: recvSizes rest
  | _ :: rest => recvSizes rest

/-- The arguments of the invocations of the callback among some events. -/
def progressEvents : List Event → List (Nat × Nat)
  | [] => []
  | Event.progress done total :: rest => (done, total) :: progressEvents rest
  | _ :: rest => progressEvents rest

/-- The events of a run of `read` in the words of the specification: for each result of
`recv` in order, the request, and, unless the `recv` failed, one invocation of the
callback, when one is supplied, with the bytes read so far and the length asked for. -/
def readTrace (fd : Int) (len : Int) (hasCallback : Bool) :
    Int → List RecvResult → List Event
  | _, [] => []
  | total, .failed :: _ => [Event.recv fd (TCPIPConnection.read.recvlen len total)]
  | total, .bytes data :: rest =>
    Event.recv fd (TCPIPConnection.read.recvlen len total) ::
      ((if hasCallback then
          [Event.progress (toUnsigned (total + data.length)) (toUnsigned len)] else [])
        ++ readTrace fd len hasCallback (total + data.length) rest)

/-- The lengths of chunks, as `recv` reports them. -/
def chunkLengths (chunks : List String) : List Int :=
  chunks.map (fun data => (data.length : Int))

/-- The chunks as results of `recv`. -/
def chunkResults (chunks : List String) : List RecvResult :=
  chunks.map RecvResult.bytes

/-- The chunks appended in order. -/
def chunkConcat (chunks : List String) : String :=
  chunks.foldl (fun out data => out ++ data) ""

/-- The callback never cancels: there is none, or it returns true whatever it is given. -/
def Callback.neverCancels (callback : Callback) : Prop :=
  ∀ f, callback = some f → ∀ hist done total, f hist done total = true

/-! ## Sequences of calls on a `MethodCall` -/

/-- A call of a member function of `MethodCall` that can change the parameters or the
name. -/
inductive MethodCall.Op where
  | addParam (val : Value)
  | addParamNamed (name : String) (val : Value)
  | setParam (val : Value)
  | setParamNamed (name : String) (val : Value)
  | clear
  | getParam (index : Int)
  | getParamNamed (name : String)
  | setName (name : String)

/-- The `MethodCall` after a call of a member function: what the function leaves when it
returns, the `MethodCall` as it was when the function throws a library exception (each
throws before it changes anything), and `none` when the call has undefined behaviour. -/
def MethodCall.apply (m : MethodCall) : MethodCall.Op → Option MethodCall
  | .addParam val =>
    match m.addParam val with
    | .ok m1 => some m1
    | .error (.exn _) => some m
    | .error _ => none
  | .addParamNamed name val =>
    match m.addParamNamed name val with
    | .ok m1 => some m1
    | .error (.exn _) => some m
    | .error _ => none
  | .setParam val => some (m.setParam val)
  | .setParamNamed name val => some (m.setParamNamed name val)
  | .clear => some m.clear
  | .getParam index =>
    match m.getParam index with
    | .ok _ => some m
    | .error (.exn _) => some m
    | .error _ => none
  | .getParamNamed name =>
    match m.getParamNamed name with
    | .ok (_, m1) => some m1
    | .error (.exn _) => some m
    | .error _ => none
  | .setName name => some (m.setName name)

/-- The `MethodCall` after a sequence of calls, `none` once a call has undefined
behaviour. -/
def MethodCall.run (m : MethodCall) : List MethodCall.Op → Option MethodCall
  | [] => some m
  | op :: ops =>
    match m.apply op with
    | some m1 => MethodCall.run m1 ops
    | none => none

/-- The passes of `String::escapeString` in the words of the specification: the
characters replaced and their replacements, in the listed order. -/
def String.escapeString.passes : List (Char × List Char) :=
  [(dquote, [backslash, dquote]), (backslash, [backslash, backslash]),
    ('/', [backslash, '/']), (Char.ofNat 8, [backslash, 'b']),
    (Char.ofNat 12, [backslash, 'f']), (Char.ofNat 10, [backslash, 'n']),
    (Char.ofNat 13, [backslash, 'r']), (Char.ofNat 9, [backslash, 't'])]

/-- Sequential replace-all passes over the whole string, each on the output of the one
before. -/
def String.escapeString_spec (str : String) : String :=
  String.mk (String.escapeString.passes.foldl
    (fun tmp pass => replace_all tmp pass.1 pass.2) str.data)

/-! ## JSON texts and the trees they denote -/

/-- The opening brace. -/
def lbrace : Char := Char.ofNat 123

/-- The closing brace. -/
def rbrace : Char := Char.ofNat 125

/-- The value of a text of decimal digits read after the digits of value `acc`; `none`
when a character is not a digit. -/
def digitsValue.loop : Nat → List Char → Option Nat
  | acc, [] => some acc
  | acc, c :: cs =>
    if 48 ≤ c.toNat ∧ c.toNat ≤ 57 then digitsValue.loop (acc * 10 + (c.toNat - 48)) cs
    else none

/-- The value of a non-empty text of decimal digits. -/
def digitsValue (cs : List Char) : Option Nat :=
  if cs = [] then none else digitsValue.loop 0 cs

/-- The integer part of a JSON number: `0`, or digits the first of which is not `0`. -/
def jsonIntPart (cs : List Char) : Option Nat :=
  match cs with
  | [] => none
  | c :: rest => if c = '0' ∧ rest ≠ [] then none else digitsValue (c :: rest)

/-- Modelled from the spec: the external parser `json::parse` reads a JSON number written
without fraction and exponent as an integral node; this is the integer such a text
denotes (an optional minus sign and an integer part), `none` for any other text. -/
def jsonInt (t : List Char) : Option Int :=
  match t with
  | '-' :: r => (jsonIntPart r).map (fun n => -(n : Int))
  | r => (jsonIntPart r).map (fun n => (n : Int))

/-- The exponent part of a JSON number, from its `e` on: `e`, an optional sign, digits;
the empty text is the exponent 0. -/
def jsonExponent (ex : List Char) : Option Int :=
  match ex with
  | [] => some 0
  | _ :: '+' :: ds => (digitsValue ds).map (fun n => (n : Int))
  | _ :: '-' :: ds => (digitsValue ds).map (fun n => -(n : Int))
  | _ :: ds => (digitsValue ds).map (fun n => (n : Int))

/-- Modelled from the spec: the external parser `json::parse` reads a JSON number written
with a fraction or an exponent as a floating node; this is the rational such a text
denotes (an optional minus sign, an integer part, an optional `.` with digits, an optional
exponent, at least one of the two being there), `none` for any other text. -/
def jsonReal (t : List Char) : Option ℚ :=
  let neg : Bool := t.head? == some '-'
  let u := if neg then t.drop 1 else t
  let mant := u.takeWhile (fun c => c != 'e' && c != 'E')
  let ex := u.dropWhile (fun c => c != 'e' && c != 'E')
  let ip := mant.takeWhile (fun c => c != '.')
  let fr := mant.dropWhile (fun c => c != '.')
  if fr = [] ∧ ex = [] then none
  else
    match jsonIntPart ip, (if fr = [] then some 0 else digitsValue (fr.drop 1)),
        jsonExponent ex with
    | some i, some f, some e =>
      let k := (fr.drop 1).length
      let m : Int := ((i * 10 ^ k + f : Nat) : Int)
      let q : ℚ :=
        if 0 ≤ e then mkRat (m * 10 ^ e.toNat) (10 ^ k) else mkRat m (10 ^ (k + (-e).toNat))
      some (if neg then -q else q)
    | _, _, _ => none

/-- Modelled from the spec: how a JSON text writes one character of a string, as the
external parser `json::parse` reads it: a character other than the double quote and the
backslash stands for itself, and the two-character escapes stand for the double quote, the
backslash, the slash, backspace, form-feed, newline, carriage-return and tab. -/
def JsonChar (c : Char) (r : List Char) : Prop :=
  (c ≠ dquote ∧ c ≠ backslash ∧ r = [c])
  ∨ (c = dquote ∧ r = [backslash, dquote])
  ∨ (c = backslash ∧ r = [backslash, backslash])
  ∨ (c = '/' ∧ r = [backslash, '/'])
  ∨ (c = Char.ofNat 8 ∧ r = [backslash, 'b'])
  ∨ (c = Char.ofNat 12 ∧ r = [backslash, 'f'])
  ∨ (c = Char.ofNat 10 ∧ r = [backslash, 'n'])
  ∨ (c = Char.ofNat 13 ∧ r = [backslash, 'r'])
  ∨ (c = Char.ofNat 9 ∧ r = [backslash, 't'])

/-- Modelled from the spec: the text between the quotes of a JSON string that stands for
the given characters. -/
def JsonStringBody : List Char → List Char → Prop
  | [], body => body = []
  | c :: cs, body => ∃ r rest, JsonChar c r ∧ body = r ++ rest ∧ JsonStringBody cs rest

mutual
/-- Modelled from the spec: the external parser `json::parse` (tinyjson, not among the
sources) is a generic JSON-text-to-tree parser whose tree tells null, boolean, number,
string, ordered list and keyed map apart. `JsonText node t` says that `t` is a JSON text,
in the layout with one space after each comma and each colon, that denotes the tree
`node`: `null` for the empty node, `true` and `false`, a number without fraction and
exponent for an integral node, a number with one for a floating node, a quoted string, the
elements of a list between brackets, the members of a map, each a quoted key and a value,
between braces. -/
def JsonText : Variant → List Char → Prop
  | .empty, t => t = ['n', 'u', 'l', 'l']
  | .bool b, t => t = if b then ['t', 'r', 'u', 'e'] else ['f', 'a', 'l', 's', 'e']
  | .int i, t => jsonInt t = some i
  | .double d, t => ∃ q, jsonReal t = some q ∧ d = Double.fin q
  | .string s, t => ∃ body, t = dquote :: (body ++ [dquote]) ∧ JsonStringBody s.data body
  | .array xs, t => ∃ body, t = '[' :: (body ++ [']']) ∧ JsonText.elements true xs body
  | .object ms, t => ∃ body, t = lbrace :: (body ++ [rbrace]) ∧ JsonText.members true ms body
  | .other, _ => False
/-- The texts of the elements of a list, a comma and a space before each but the first. -/
def JsonText.elements : Bool → List Variant → List Char → Prop
  | _, [], t => t = []
  | first, x :: xs, t =>
    ∃ t1 t2, t = (if first then [] else [',', ' ']) ++ t1 ++ t2
      ∧ JsonText x t1 ∧ JsonText.elements false xs t2
/-- The texts of the members of a map, a comma and a space before each but the first: the
quoted key, a colon, a space and the text of the value. -/
def JsonText.members : Bool → List (String × Variant) → List Char → Prop
  | _, [], t => t = []
  | first, (k, x) :: ms, t =>
    ∃ kb t1 t2,
      t = (if first then [] else [',', ' ']) ++ dquote :: (kb ++ dquote :: ':' :: ' ' :: t1)
          ++ t2
      ∧ JsonStringBody k.data kb ∧ JsonText x t1 ∧ JsonText.members false ms t2
end

/-- Whether the text written for a Number is a JSON number that denotes its value. -/
def Double.printsExactly (d : Double) : Bool :=
  match d with
  | .nan => false
  | .posInf => false
  | .negInf => false
  | _ =>
    match jsonInt d.toStream.data with
    | some i => decide ((i : ℚ) = d.mag)
    | none =>
      match jsonReal d.toStream.data with
      | some q => decide (q = d.mag)
      | none => false

/-- The node that the text written for a Number denotes. -/
def Double.toNode (d : Double) : Variant :=
  match jsonInt d.toStream.data with
  | some i => .int i
  | none =>
    match jsonReal d.toStream.data with
    | some q => .double (.fin q)
    | none => .other

/-- Whether `String::escapeString` writes each character of the string the way a JSON text
does: no character is the double quote. -/
def String.jsonPlain (s : String) : Bool :=
  s.data.all (fun c => c != dquote)

mutual
/-- Whether every Number in the value is written as a JSON number that denotes it, and
every String and every key is written the way a JSON text writes it. -/
def Value.plain : Value → Bool
  | .null => true
  | .bool _ => true
  | .number d => d.printsExactly
  | .string s => String.jsonPlain s
  | .array xs => Value.plain.elements xs
  | .object ms => Value.plain.members ms
/-- Whether every element of a vector is plain. -/
def Value.plain.elements : List Value → Bool
  | [] => true
  | x :: xs => x.plain && Value.plain.elements xs
/-- Whether every key and every value bound in a map is plain. -/
def Value.plain.members : List (String × Value) → Bool
  | [] => true
  | (k, x) :: ms => String.jsonPlain k && x.plain && Value.plain.members ms
end

mutual
/-- The tree that mirrors a value: the node of its kind with the same content, the node
of a Number being the one its text denotes. -/
def Value.toNode : Value → Variant
  | .null => .empty
  | .bool b => .bool b
  | .number d => d.toNode
  | .string s => .string s
  | .array xs => .array (Value.toNode.elements xs)
  | .object ms => .object (Value.toNode.members ms)
/-- The nodes of the elements of a vector. -/
def Value.toNode.elements : List Value → List Variant
  | [] => []
  | x :: xs => x.toNode :: Value.toNode.elements xs
/-- The entries of the node of a map. -/
def Value.toNode.members : List (String × Value) → List (String × Variant)
  | [] => []
  | (k, x) :: ms => (k, x.toNode) :: Value.toNode.members ms
end
/-! ## Sample inputs -/

/-- The first call made in a process: `MethodCall("system.echo")`, which gets id 1. -/
def sampleCall : MethodCall := (MethodCall.new "system.echo" 0).1

/-- A disconnected connection. -/
def sampleConn : TCPIPConnection := { mSocketfd := -1 }

/-- A world in which `socket` gives handle 3, `connect` succeeds, one `send` accepts
`sent` bytes and one `recv` delivers `reply`. -/
def sampleWorld (sent : Int) (reply : String) : World :=
  { socketResults := [3], connectResults := [0], sendResults := [sent],
    recvResults := [RecvResult.bytes reply], errorString := "Connection reset by peer", log := [] }

/-- The world `sampleWorld sent reply` after the exchange of `request` against `reply`. -/
def sampleWorldAfter (request : String) (sent : Int) : World :=
  { socketResults := [], connectResults := [], sendResults := [],
    recvResults := [], errorString := "Connection reset by peer",
    log := [Event.socket, Event.connect 3, Event.send 3 request sent, Event.recv 3 4096,
      Event.close 3] }

/-- The request text of `sampleCall` as a normal call. -/
def sampleRequest : String := "\x7b\"id\": 1, \"jsonrpc\": \"2.0\", \"method\": \"system.echo\"\x7d"

/-- The request text of `sampleCall` as a notification. -/
def sampleNotification : String := "\x7b\"jsonrpc\": \"2.0\", \"method\": \"system.echo\"\x7d"

/-- A stand-in for the external parser on the reply texts used below. -/
def sampleParse : JsonParse := fun text =>
  if text = "\x7b\"jsonrpc\":\"2.0\",\"id\":1,\"result\":true\x7d" then
    Variant.object [("id", .int 1), ("jsonrpc", .string "2.0"), ("result", .bool true)]
  else if text = "\x7b\"jsonrpc\":\"2.0\",\"id\":1,\"error\":\x7b\"code\":-32601,\"message\":\"no\"\x7d\x7d" then
    Variant.object [("error", .object [("code", .int (-32601)), ("message", .string "no")]),
      ("id", .int 1), ("jsonrpc", .string "2.0")]
  else if text = "\x7b\"jsonrpc\":\"2.0\",\"result\":true\x7d" then
    Variant.object [("jsonrpc", .string "2.0"), ("result", .bool true)]
  else if text = "\x7b\"jsonrpc\":\"2.0\",\"id\":\"1\",\"result\":true\x7d" then
    Variant.object [("id", .string "1"), ("jsonrpc", .string "2.0"), ("result", .bool true)]
  else if text = "\x7b\"jsonrpc\":\"2.0\",\"id\":1,\"result\":true,\"error\":null\x7d" then
    Variant.object [("error", .empty), ("id", .int 1), ("jsonrpc", .string "2.0"),
      ("result", .bool true)]
  else if text = "\x7b\"jsonrpc\":2.0,\"id\":1,\"result\":true\x7d" then
    Variant.object [("id", .int 1), ("jsonrpc", .double (.fin 2)), ("result", .bool true)]
  else if text = "[1]" then Variant.array [.int 1]
  else Variant.empty

/-- A world in which the connection is made and the first `send` fails. -/
def sendFailsWorld : World :=
  { socketResults := [3], connectResults := [0], sendResults := [-1],
    recvResults := [], errorString := "Connection reset by peer", log := [] }

/-- A world in which the connection is made, the request is sent and the `recv` fails. -/
def recvFailsWorld : World :=
  { socketResults := [3], connectResults := [0], sendResults := [52],
    recvResults := [RecvResult.failed], errorString := "Connection reset by peer", log := [] }

/-- The scenario `MethodCall("system.echo").addParam(String("test")).addParam(Number(42))`,
constructed when the counter `NextMethodId` has the given value. -/
def echoCall (NextMethodId : Int) : Except Fault MethodCall := do
  let m := (MethodCall.new "system.echo" NextMethodId).1
  let m ← m.addParam (Value.string "test")
  m.addParam (Value.number (Double.ofInt 42))

/-- The call `echoCall 0` builds: the first call of a process, with id 1. -/
def sampleEcho : MethodCall :=
  { mName := "system.echo",
    mParams := Value.array [Value.string "test", Value.number (Double.ofInt 42)],
    mId := 1 }

/-- The Array `[2, 0]`. -/
def sampleArrayA : Value :=
  Value.array [Value.number (Double.ofInt 2), Value.number (Double.ofInt 0)]

/-- The Array `[NaN, 1]`. -/
def sampleArrayB : Value :=
  Value.array [Value.number Double.nan, Value.number (Double.ofInt 1)]

/-- The Array `[1, 2]`. -/
def sampleArrayC : Value :=
  Value.array [Value.number (Double.ofInt 1), Value.number (Double.ofInt 2)]

/-- The Array `[1, 2, 3]`. -/
def sampleArrayD : Value :=
  Value.array [Value.number (Double.ofInt 1), Value.number (Double.ofInt 2),
    Value.number (Double.ofInt 3)]

/-- Three bindings with distinct keys, not in key order. -/
def sampleBindings : List (String × Value) :=
  [("test", Value.array [Value.number (Double.ofInt 5), Value.bool true, Value.null]),
    ("second", Value.string "string"), ("third", Value.number (Double.ofInt 24))]

/-- The bindings of `sampleBindings` in another order. -/
def sampleBindingsPermuted : List (String × Value) :=
  [("third", Value.number (Double.ofInt 24)),
    ("test", Value.array [Value.number (Double.ofInt 5), Value.bool true, Value.null]),
    ("second", Value.string "string")]


/-- The Object of the scenario that holds only the key `second`. -/
def sampleDict : Object := Object.ofBindings [("second", Value.string "string")]

/-- The Object with the one member `a`, bound to the Number 1234567. -/
def sampleObjectP : Object := [("a", Value.number (Double.ofInt 1234567))]

/-- The Object with the one member `a`, bound to the Number 1234570. -/
def sampleObjectQ : Object := [("a", Value.number (Double.ofInt 1234570))]

/-- The bindings of the keyed node for a text like
`\x7b "Hello" : [ "abc", 1, true, null ], "id" : 7 \x7d`. -/
def sampleNodeBindings : List (String × Variant) :=
  [("Hello", .array [.string "abc", .int 1, .bool true, .empty]), ("id", .int 7)]

/-- The children of an ordered node. -/
def sampleNodeChildren : List Variant := [.string "abc", .int 1, .bool true, .empty]

/-- A connection whose handle is 3. -/
def connectedConn : TCPIPConnection := { mSocketfd := 3 }

/-- The Object with the one member `a`, bound to the Number NaN. -/
def nanObject : Object := [("a", Value.number Double.nan)]

/-- A chunk of 4096 bytes. -/
def fullChunk : String := String.mk (List.replicate 4096 'x')

/-- A world in which a connected peer delivers a chunk of 4096 bytes and then the
five bytes `hello`. -/
def overflowWorld : World :=
  { socketResults := [], connectResults := [], sendResults := [],
    recvResults := [RecvResult.bytes fullChunk, RecvResult.bytes "hello"],
    errorString := "Connection reset by peer", log := [] }

/-- A world in which the coming `send` calls accept 3, 4 and 3 bytes. -/
def chunkedSendsWorld : World :=
  { socketResults := [], connectResults := [], sendResults := [3, 4, 3, 9],
    recvResults := [], errorString := "Connection reset by peer", log := [] }

/-- A callback that cancels on its second invocation. -/
def cancelSecond : Callback := some (fun hist _ _ => decide (hist.length < 1))

/-- A callback that never cancels. -/
def neverCancel : Callback := some (fun _ _ _ => true)

/-- A world in which `socket` gives handle 3 and the `connect` fails. -/
def connectFailsWorld : World :=
  { socketResults := [3], connectResults := [-1], sendResults := [], recvResults := [],
    errorString := "Connection refused", log := [] }

/-- A call with the named parameter `a` bound to 1. -/
def namedCall : MethodCall :=
  { mName := "system.echo",
    mParams := Value.object [("a", Value.number (Double.ofInt 1))], mId := 1 }

/-- A sequence of calls: a positional parameter, a named one (refused), a clear, a named
parameter, a lookup of a missing name, a new name. -/
def sampleOps : List MethodCall.Op :=
  [.addParam (Value.string "test"), .addParamNamed "a" (Value.bool true), .clear,
    .addParamNamed "a" (Value.bool true), .getParamNamed "b", .setName "system.ping"]

/-- The call that `sampleOps` makes of `MethodCall("system.echo")` with id 1. -/
def sampleOpsResult : MethodCall :=
  MethodCall.mk "system.ping" (Value.object [("a", Value.bool true), ("b", Value.null)]) 1

/-- The Object with the one member `a`, bound to the Number 1. -/
def sampleObjectOne : Object := [("a", Value.number (Double.ofInt 1))]

/-- The tree a JSON parser makes of the text of `sampleObjectOne`. -/
def sampleObjectOneNode : Variant := .object [("a", .int 1)]

/-- The Object with the one member `a`, bound to the Number positive infinity. -/
def infObject : Object := [("a", Value.number Double.posInf)]

/-- The Object with the one member `a`, bound to the String of one double quote. -/
def quoteObject : Object := [("a", Value.string (String.mk [dquote]))]
/-! ## Lemmas on strings, objects and the comparison of values -/

theorem charsLt_irrefl (a : List Char) : charsLt a a = false := by
  induction a with
  | nil => rfl
  | cons x xs ih => simp [charsLt, ih]

theorem charsLt_connex : ∀ (a b : List Char), charsLt a b = false → charsLt b a = false → a = b
  | [], [], _, _ => rfl
  | [], _ :: _, h, _ => by simp [charsLt] at h
  | _ :: _, [], _, h => by simp [charsLt] at h
  | x :: xs, y :: ys, h1, h2 => by
    rcases Nat.lt_trichotomy x.toNat y.toNat with hlt | heq | hgt
    · simp [charsLt, hlt] at h1
    · have hxy : x = y := by
        rw [← Char.ofNat_toNat x, ← Char.ofNat_toNat y, heq]
      subst hxy
      simp [charsLt] at h1 h2
      rw [charsLt_connex xs ys h1 h2]
    · simp [charsLt, hgt] at h2

theorem strLt_irrefl (a : String) : strLt a a = false := charsLt_irrefl a.data

theorem strLt_connex (a b : String) (h1 : strLt a b = false) (h2 : strLt b a = false) :
    a = b :=
  String.ext (charsLt_connex a.data b.data h1 h2)

theorem strLt_ne {a b : String} (h : strLt a b = true) : a ≠ b := by
  intro hab
  subst hab
  rw [strLt_irrefl] at h
  exact Bool.noConfusion h

/-- Lookup after `o[key] = val`: the new value at `key`, the old binding elsewhere. -/
theorem Object.find_assign (o : Object) (key : String) (val : Value) (k : String) :
    Object.find (Object.assign o key val) k = if key = k then some val else Object.find o k := by
  induction o with
  | nil => simp [Object.assign, Object.find]
  | cons e rest ih =>
    obtain ⟨k0, v0⟩ := e
    by_cases h1 : strLt key k0 = true
    · simp [Object.assign, h1, Object.find]
    · by_cases h2 : strLt k0 key = true
      · have hne : k0 ≠ key := strLt_ne h2
        simp only [Object.assign, h1, h2, Object.find, ih]
        by_cases hk : k0 = k
        · subst hk
          simp [Ne.symm hne]
        · simp [hk]
      · have hk0 : key = k0 := strLt_connex key k0 (by simpa using h1) (by simpa using h2)
        subst hk0
        simp only [Object.assign, h1, Object.find]
        by_cases hk : key = k <;> simp [hk]

theorem Object.hasKey_eq_true_iff (o : Object) (key : String) :
    Object.hasKey o key = true ↔ ∃ v, Object.find o key = some v := by
  unfold Object.hasKey
  cases h : Object.find o key <;> simp

theorem Object.hasKey_eq_false_iff (o : Object) (key : String) :
    Object.hasKey o key = false ↔ Object.find o key = none := by
  unfold Object.hasKey
  cases h : Object.find o key <;> simp

theorem Object.subscript_of_find {o : Object} {key : String} {v : Value}
    (h : Object.find o key = some v) : Object.subscript o key = (v, o) := by
  simp [Object.subscript, h]

/-- Equality with a String value: only the same String is equal. -/
theorem Value.eq_string_iff (v : Value) (s : String) :
    Value.eq v (Value.string s) = true ↔ v = Value.string s := by
  unfold Value.eq
  cases v <;> simp [Value.getType, Value.compare, String.compare]
  rename_i t
  by_cases h : t = s
  · simp [h]
  · simp [h]
    split <;> simp

/-- Equality with a Number value: only a Number with an equal double is equal. -/
theorem Value.eq_number_iff (v : Value) (d : Double) :
    Value.eq v (Value.number d) = true ↔ ∃ x, v = Value.number x ∧ Double.eq x d = true := by
  unfold Value.eq
  cases v <;> simp [Value.getType, Value.compare, Number.compare]
  rename_i x
  by_cases h : Double.eq x d = true
  · simp [h]
  · simp [h]
    split <;> simp

/-! ## Lemmas on the checks of `Requester::call` -/

/-- The checks of `call` on a non-empty reply that decodes to the Object `o`, with the
version and id checks written as Booleans. -/
theorem Requester.call.validate_object (jsonParse : JsonParse) (ret : String) (meth : MethodCall)
    (o : Object) (h1 : ret ≠ "") (h2 : parse jsonParse ret = .ok (Value.object o)) :
    Requester.call.validate jsonParse ret meth =
      if (Object.get o "jsonrpc" Value.null).eq (Value.string "2.0") = false
          ∨ Object.hasKey o "jsonrpc" = false then
        JSONRPC_EXCEPT .ECParseError "Server return value has missing or wrong jsonrpc version."
      else if (Object.get o "id" Value.null).eq (Value.number (Double.ofInt meth.mId)) = false
          ∨ Object.hasKey o "id" = false then
        JSONRPC_EXCEPT .ECParseError "Return id value does not match requests id."
      else if Object.hasKey o "result" && Object.hasKey o "error" then
        JSONRPC_EXCEPT .ECParseError "Server response has both result and error members."
      else if Object.hasKey o "result" then
        .ok { mError := false, mValue := Object.get o "result" Value.null }
      else if Object.hasKey o "error" then
        .ok { mError := true, mValue := Object.get o "error" Value.null }
      else
        JSONRPC_EXCEPT .ECParseError "Server response has neither result or error members." := by
  have hsub : ∀ key, Object.hasKey o key = true →
      Object.subscript o key = (Object.get o key Value.null, o) := by
    intro key hk
    obtain ⟨v, hv⟩ := (Object.hasKey_eq_true_iff o key).1 hk
    simp [Object.subscript, Object.get, hv]
  unfold Requester.call.validate
  simp only [h1, if_false, h2, bind, Except.bind, value_cast_Object]
  cases hv : Object.hasKey o "jsonrpc"
  · simp
  · cases hve : (Object.get o "jsonrpc" Value.null).eq (Value.string "2.0")
    · simp [hsub _ hv, hve]
    · cases hi : Object.hasKey o "id"
      · simp [hsub _ hv, hve, hi]
      · cases hie : (Object.get o "id" Value.null).eq (Value.number (Double.ofInt meth.mId))
        · simp [hsub _ hv, hve, hsub _ hi, hi, MethodCall.getId, hie]
        · cases hr : Object.hasKey o "result" <;> cases he : Object.hasKey o "error" <;>
            simp [hsub _ hv, hve, hsub _ hi, hi, MethodCall.getId, hie, hr, he, Response.new,
              Response.setResult, Response.setError, hsub]

/-- Once the exchange has returned the reply `ret`, `call` is the checks on `ret`. -/
theorem Requester.call_of_exchange (jsonParse : JsonParse) (mConn : TCPIPConnection)
    (w : World) (meth : MethodCall) (notification : Bool) (callback : Callback)
    (ret : String) (c' : TCPIPConnection) (w' : World)
    (hx : Requester.call.exchange mConn w meth notification callback = (.ok ret, c', w')) :
    Requester.call jsonParse mConn w meth notification callback =
      (Requester.call.validate jsonParse ret meth, c', w') := by
  unfold Requester.call
  rw [hx]

/-- The checks of `call` on a reply whose version and id are right: only the
`result` / `error` members decide. -/
theorem Requester.call.validate_members (jsonParse : JsonParse) (ret : String)
    (meth : MethodCall) (o : Object) (h1 : ret ≠ "")
    (h2 : parse jsonParse ret = .ok (Value.object o))
    (hv : Object.find o "jsonrpc" = some (Value.string "2.0"))
    (hid : ∃ d, Object.find o "id" = some (Value.number d)
      ∧ Double.eq d (Double.ofInt meth.getId) = true) :
    Requester.call.validate jsonParse ret meth =
      if Object.hasKey o "result" && Object.hasKey o "error" then
        JSONRPC_EXCEPT .ECParseError "Server response has both result and error members."
      else if Object.hasKey o "result" then
        .ok { mError := false, mValue := Object.get o "result" Value.null }
      else if Object.hasKey o "error" then
        .ok { mError := true, mValue := Object.get o "error" Value.null }
      else
        JSONRPC_EXCEPT .ECParseError "Server response has neither result or error members." := by
  obtain ⟨d, hd, hde⟩ := hid
  rw [Requester.call.validate_object jsonParse ret meth o h1 h2]
  have hget : Object.get o "jsonrpc" Value.null = Value.string "2.0" := by
    simp [Object.get, hv]
  have hhas : Object.hasKey o "jsonrpc" = true :=
    (Object.hasKey_eq_true_iff o "jsonrpc").2 ⟨_, hv⟩
  have hve : (Value.string "2.0").eq (Value.string "2.0") = true :=
    (Value.eq_string_iff _ _).2 rfl
  have hgetid : Object.get o "id" Value.null = Value.number d := by
    simp [Object.get, hd]
  have hhasid : Object.hasKey o "id" = true :=
    (Object.hasKey_eq_true_iff o "id").2 ⟨_, hd⟩
  have hide : (Value.number d).eq (Value.number (Double.ofInt meth.mId)) = true :=
    (Value.eq_number_iff _ _).2 ⟨d, rfl, hde⟩
  rw [hget, hve, hhas, hgetid, hide, hhasid]
  simp

/-- The function `parse` returns an Object value, or throws the parse error. -/
theorem parse_cases (jsonParse : JsonParse) (text : String) :
    parse jsonParse text
        = .error (.exn (Exception.mk (-32700) "Error parsing json input" "ParseErrorException"))
      ∨ ∃ o, parse jsonParse text = .ok (Value.object o) := by
  unfold parse
  cases jsonParse text <;>
    simp [JSONRPC_EXCEPT, ExceptionFactory.create, ExceptionCodes.number,
      ExceptionCodes.typeName, constructValue]

/-- Every failure of the checks of `call` is a `ParseErrorException` with code -32700. -/
theorem Requester.call.validate_error (jsonParse : JsonParse) (ret : String)
    (meth : MethodCall) (f : Fault)
    (h : Requester.call.validate jsonParse ret meth = .error f) :
    ∃ msg, f = .exn (Exception.mk (-32700) msg "ParseErrorException") := by
  by_cases h1 : ret = ""
  · subst h1
    simp [Requester.call.validate, JSONRPC_EXCEPT, ExceptionFactory.create,
      ExceptionCodes.number, ExceptionCodes.typeName] at h
    exact ⟨_, h.symm⟩
  · rcases parse_cases jsonParse ret with hp | ⟨o, hp⟩
    · unfold Requester.call.validate at h
      simp [h1, hp, bind, Except.bind] at h
      exact ⟨_, h.symm⟩
    · rw [Requester.call.validate_object jsonParse ret meth o h1 hp] at h
      simp only [JSONRPC_EXCEPT, ExceptionFactory.create, ExceptionCodes.number,
        ExceptionCodes.typeName] at h
      split at h
      · exact ⟨_, (Except.error.inj h).symm⟩
      · split at h
        · exact ⟨_, (Except.error.inj h).symm⟩
        · split at h
          · exact ⟨_, (Except.error.inj h).symm⟩
          · split at h
            · exact Except.noConfusion h
            · split at h
              · exact Except.noConfusion h
              · exact ⟨_, (Except.error.inj h).symm⟩

/-- The checks of `call` accept a reply exactly when it is non-empty and decodes to an
Object with `jsonrpc` the String "2.0", `id` a Number equal to the request's id, and
exactly one of `result` and `error`. -/
theorem Requester.call.validate_ok_iff (jsonParse : JsonParse) (ret : String)
    (meth : MethodCall) :
    (∃ r, Requester.call.validate jsonParse ret meth = .ok r) ↔
      (ret ≠ "" ∧ ∃ o d, parse jsonParse ret = .ok (Value.object o)
        ∧ Object.find o "jsonrpc" = some (Value.string "2.0")
        ∧ Object.find o "id" = some (Value.number d)
        ∧ Double.eq d (Double.ofInt meth.getId) = true
        ∧ Object.hasKey o "result" ≠ Object.hasKey o "error") := by
  constructor
  · rintro ⟨r, hr⟩
    have h1 : ret ≠ "" := by
      intro h
      subst h
      simp [Requester.call.validate, JSONRPC_EXCEPT] at hr
    refine ⟨h1, ?_⟩
    rcases parse_cases jsonParse ret with hp | ⟨o, hp⟩
    · unfold Requester.call.validate at hr
      simp [h1, hp, bind, Except.bind] at hr
    · rw [Requester.call.validate_object jsonParse ret meth o h1 hp] at hr
      simp only [JSONRPC_EXCEPT] at hr
      split at hr
      · exact Except.noConfusion hr
      · rename_i hver
        split at hr
        · exact Except.noConfusion hr
        · rename_i hidc
          simp only [not_or, Bool.not_eq_false] at hver hidc
          obtain ⟨v, hv⟩ := (Object.hasKey_eq_true_iff o "jsonrpc").1 hver.2
          obtain ⟨i, hi⟩ := (Object.hasKey_eq_true_iff o "id").1 hidc.2
          have hgv : Object.get o "jsonrpc" Value.null = v := by simp [Object.get, hv]
          have hgi : Object.get o "id" Value.null = i := by simp [Object.get, hi]
          have hv2 := (Value.eq_string_iff _ _).1 (hgv ▸ hver.1)
          obtain ⟨d, hd, hde⟩ := (Value.eq_number_iff _ _).1 (hgi ▸ hidc.1)
          refine ⟨o, d, hp, by rw [hv, hv2], by rw [hi, hd], hde, ?_⟩
          cases hres : Object.hasKey o "result" <;> cases herr : Object.hasKey o "error" <;>
            simp [hres, herr] at hr ⊢
  · rintro ⟨h1, o, d, hp, hv, hi, hde, hone⟩
    rw [Requester.call.validate_members jsonParse ret meth o h1 hp hv ⟨d, hi, hde⟩]
    cases hres : Object.hasKey o "result" <;> cases herr : Object.hasKey o "error" <;>
      simp [hres, herr] at hone ⊢

/-- A request rendered as a notification has no `id` member. -/
theorem MethodCall.jsonString.method_notification_no_id (m : MethodCall) (method : Object)
    (h : MethodCall.jsonString.method m true = .ok method) :
    Object.hasKey method "id" = false := by
  unfold MethodCall.jsonString.method at h
  simp only [bind, Except.bind, JSONRPC_ASSERT] at h
  split at h
  · exact Except.noConfusion h
  · split at h
    · exact Except.noConfusion h
    · simp only [pure, Except.pure, Bool.not_true, Bool.false_eq_true, if_false] at h
      have h' := Except.ok.inj h
      subst h'
      rw [Object.hasKey_eq_false_iff]
      split <;> simp [Object.find_assign, Object.find]

/-- When the exchange of `call` returns a reply, the request was rendered. -/
theorem Requester.call.exchange_rendered (mConn : TCPIPConnection) (w : World)
    (meth : MethodCall) (notification : Bool) (callback : Callback) (ret : String)
    (c' : TCPIPConnection) (w' : World)
    (hx : Requester.call.exchange mConn w meth notification callback = (.ok ret, c', w')) :
    ∃ method, MethodCall.jsonString.method meth notification = .ok method
      ∧ meth.jsonString notification = .ok (Object.jsonString method) := by
  unfold Requester.call.exchange at hx
  split at hx
  · simp at hx
  · cases hj : MethodCall.jsonString.method meth notification with
    | error f => simp [MethodCall.jsonString, hj, bind, Except.bind] at hx
    | ok method => exact ⟨method, rfl, by simp [MethodCall.jsonString, hj, bind, Except.bind, pure, Except.pure]⟩

/-- The Object that `MethodCall::jsonString` renders, for a call with a name and `n`
parameters: the members in key order. -/
theorem MethodCall.jsonString.method_eq (m : MethodCall) (notification : Bool) (n : Int)
    (hname : m.mName ≠ "") (hn : m.size = .ok n) :
    MethodCall.jsonString.method m notification = .ok
      ((if notification then [] else [("id", Value.number (Double.ofInt m.getId))])
        ++ [("jsonrpc", Value.string "2.0"), ("method", Value.string m.mName)]
        ++ (if n ≠ 0 then [("params", m.mParams)] else [])) := by
  have e1 : strLt "method" "jsonrpc" = false := by decide
  have e2 : strLt "jsonrpc" "method" = true := by decide
  have e3 : strLt "params" "jsonrpc" = false := by decide
  have e4 : strLt "jsonrpc" "params" = true := by decide
  have e5 : strLt "params" "method" = false := by decide
  have e6 : strLt "method" "params" = true := by decide
  have e7 : strLt "id" "jsonrpc" = true := by decide
  unfold MethodCall.jsonString.method
  simp only [JSONRPC_ASSERT, hname, decide_False, Bool.not_false, Bool.not_true, bind,
    Except.bind, hn, pure, Except.pure, Bool.false_eq_true, if_false]
  cases notification <;> by_cases h0 : n = 0 <;>
    simp [h0, Object.assign, e1, e2, e3, e4, e5, e6, e7, MethodCall.getId]

/-! ## Lemmas on the stream format of small integers -/

theorem intLog10_upper : ∀ (fuel m : Nat), m ≤ fuel → m < 10 ^ (intLog10 fuel m + 1)
  | 0, m, h => by
    have : m = 0 := Nat.le_zero.mp h
    subst this
    simp [intLog10]
  | fuel + 1, m, h => by
    unfold intLog10
    by_cases hm : m < 10
    · simp [hm]
    · simp only [hm, if_false]
      have ih := intLog10_upper fuel (m / 10) (by omega)
      rw [Nat.pow_succ]
      omega

theorem intLog10_lower : ∀ (fuel m : Nat), 0 < m → m ≤ fuel → 10 ^ intLog10 fuel m ≤ m
  | 0, m, h0, h => by omega
  | fuel + 1, m, h0, h => by
    unfold intLog10
    by_cases hm : m < 10
    · simp [hm]
      omega
    · simp only [hm, if_false]
      have ih := intLog10_lower fuel (m / 10) (by omega) (by omega)
      rw [Nat.pow_succ]
      omega

theorem stripTrailingZeros_replicate (j : Nat) :
    stripTrailingZeros (List.replicate j '0') = [] := by
  unfold stripTrailingZeros
  rw [List.reverse_replicate]
  have : List.dropWhile (fun c => c == '0') (List.replicate j '0') = [] := by
    induction j with
    | zero => rfl
    | succ j ih => simp [List.replicate_succ, List.dropWhile, ih]
  rw [this]
  rfl

theorem zeroPad_zero (w : Nat) : zeroPad w 0 = List.replicate (w - 1 + 1) '0' := by
  unfold zeroPad
  have : (Nat.repr 0).data = ['0'] := by decide
  rw [this, List.replicate_succ']
  rfl

/-- An integer between 1 and 999999 is written as its decimal numeral. -/
theorem formatPositive_small (k : Nat) (h0 : 0 < k) (h1 : k < 1000000) :
    formatPositive k 1 = Nat.repr k := by
  have hup := intLog10_upper k k (Nat.le_refl k)
  have hlo := intLog10_lower k k h0 (Nat.le_refl k)
  have hL : intLog10 k k < 6 := by
    have : 10 ^ intLog10 k k < 10 ^ 6 := lt_of_le_of_lt hlo (by simpa using h1)
    exact (Nat.pow_lt_pow_iff_right (by decide)).1 this
  generalize hLdef : intLog10 k k = L at hup hlo hL
  have hexp : decimalExponent k 1 = (L : Int) := by
    unfold decimalExponent
    have : 1 ≤ k := h0
    simp [this, hLdef]
  have hsig : significand6 k 1 (L : Int) = k * 10 ^ (5 - L) := by
    unfold significand6 roundHalfEven
    have : (L : Int) ≤ 5 := by omega
    have h5 : ((5 : Int) - (L : Int)).toNat = 5 - L := by omega
    simp [this, h5, Nat.mod_one]
  have hm0 : k * 10 ^ (5 - L) < 1000000 := by
    have h6 : (10 : Nat) ^ (L + 1) * 10 ^ (5 - L) = 1000000 := by
      rw [← Nat.pow_add]
      have : L + 1 + (5 - L) = 6 := by omega
      rw [this]
    have hpos : 0 < 10 ^ (5 - L) := Nat.pow_pos (by decide)
    calc k * 10 ^ (5 - L) < 10 ^ (L + 1) * 10 ^ (5 - L) := Nat.mul_lt_mul_of_pos_right hup hpos
      _ = 1000000 := h6
  unfold formatPositive
  simp only [hexp, hsig]
  have hne : k * 10 ^ (5 - L) ≠ 1000000 := Nat.ne_of_lt hm0
  have hnot : ¬ ((L : Int) < -4 ∨ (6 : Int) ≤ (L : Int)) := by omega
  have hnn : (0 : Int) ≤ (L : Int) := by omega
  have h5 : ((5 : Int) - (L : Int)).toNat = 5 - L := by omega
  have hpos : 0 < 10 ^ (5 - L) := Nat.pow_pos (by decide)
  simp only [hne, if_false, hnot, hnn, if_true, h5, Nat.mul_mod_left,
    Nat.mul_div_cancel _ hpos, zeroPad_zero, stripTrailingZeros_replicate]
  simp

theorem Double.toStream_ofInt_small (i : Int) (h0 : 0 < i) (h1 : i < 1000000) :
    (Double.ofInt i).toStream = Nat.repr i.toNat := by
  unfold Double.ofInt Double.toStream
  have hq0 : ((i : ℚ) = 0) = False := by
    simp
    omega
  have hq1 : ((i : ℚ) < 0) = False := by
    simp
    omega
  simp only [hq0, hq1, if_false, Rat.intCast_num, Rat.intCast_den]
  have : i.natAbs = i.toNat := by omega
  rw [this]
  exact formatPositive_small i.toNat (by omega) (by omega)

/-! ## Lemmas on the id counter -/

/-- The ids given by a run of constructions: the i-th call gets the counter plus i + 1. -/
theorem MethodCall.constructAll_ids : ∀ (names : List (Option String)) (next : Int),
    (MethodCall.constructAll names next).2 = next + names.length
    ∧ (MethodCall.constructAll names next).1.length = names.length
    ∧ ∀ (i : Nat) (m : MethodCall), (MethodCall.constructAll names next).1.get? i = some m →
        m.mId = next + i + 1
  | [], next => by simp [MethodCall.constructAll]
  | some name :: rest, next => by
    obtain ⟨h1, h2, h3⟩ := MethodCall.constructAll_ids rest (next + 1)
    refine ⟨?_, ?_, ?_⟩
    · simp only [MethodCall.constructAll, MethodCall.new, h1, List.length_cons]
      push_cast
      ring
    · simp [MethodCall.constructAll, MethodCall.new, h2]
    · intro i m hm
      cases i with
      | zero =>
        simp [MethodCall.constructAll, MethodCall.new] at hm
        subst hm
        simp
      | succ i =>
        simp only [MethodCall.constructAll, MethodCall.new, List.get?_cons_succ] at hm
        rw [h3 i m hm]
        push_cast
        ring
  | none :: rest, next => by
    obtain ⟨h1, h2, h3⟩ := MethodCall.constructAll_ids rest (next + 1)
    refine ⟨?_, ?_, ?_⟩
    · simp only [MethodCall.constructAll, MethodCall.newDefault, h1, List.length_cons]
      push_cast
      ring
    · simp [MethodCall.constructAll, MethodCall.newDefault, h2]
    · intro i m hm
      cases i with
      | zero =>
        simp [MethodCall.constructAll, MethodCall.newDefault] at hm
        subst hm
        simp
      | succ i =>
        simp only [MethodCall.constructAll, MethodCall.newDefault, List.get?_cons_succ] at hm
        rw [h3 i m hm]
        push_cast
        ring

/-! ## Lemmas on `operator==` and `operator<` of values -/

theorem Value.eq_def (x y : Value) :
    Value.eq x y = if x.getType = y.getType then decide (Value.compare x y = 0) else false := by
  rw [Value.eq]

theorem Value.lt_def (x y : Value) :
    Value.lt x y = if x.getType = y.getType then decide (Value.compare x y = -1)
      else decide (x.getType.toNat < y.getType.toNat) := by
  rw [Value.lt]

theorem vectorEq_nil_nil : vectorEq [] [] = true := by
  simp [vectorEq, vectorEqual]

theorem vectorEq_nil_cons (y : Value) (ys : List Value) : vectorEq [] (y :: ys) = false := by
  simp [vectorEq]

theorem vectorEq_cons_nil (x : Value) (xs : List Value) : vectorEq (x :: xs) [] = false := by
  simp [vectorEq]

theorem vectorEq_cons_cons (x y : Value) (xs ys : List Value) :
    vectorEq (x :: xs) (y :: ys) = (Value.eq x y && vectorEq xs ys) := by
  simp only [vectorEq, vectorEqual, List.length_cons, add_left_inj]
  cases Value.eq x y <;> simp

theorem mapEq_nil_nil : mapEq [] [] = true := by
  simp [mapEq, mapEqual]

theorem mapEq_nil_cons (e : String × Value) (ys : List (String × Value)) :
    mapEq [] (e :: ys) = false := by
  simp [mapEq]

theorem mapEq_cons_nil (e : String × Value) (xs : List (String × Value)) :
    mapEq (e :: xs) [] = false := by
  simp [mapEq]

theorem mapEq_cons_cons (k l : String) (x y : Value) (xs ys : List (String × Value)) :
    mapEq ((k, x) :: xs) ((l, y) :: ys) = ((decide (k = l) && Value.eq x y) && mapEq xs ys) := by
  simp only [mapEq, mapEqual, List.length_cons, add_left_inj]
  cases (decide (k = l) && Value.eq x y) <;> simp

theorem vectorLess_cons_cons (x y : Value) (xs ys : List Value) :
    vectorLess (x :: xs) (y :: ys)
      = if Value.lt x y then true else if Value.lt y x then false else vectorLess xs ys := by
  rw [vectorLess]

theorem mapLess_cons_cons (k l : String) (x y : Value) (xs ys : List (String × Value)) :
    mapLess ((k, x) :: xs) ((l, y) :: ys)
      = if (strLt k l || (!strLt l k && Value.lt x y)) then true
        else if (strLt l k || (!strLt k l && Value.lt y x)) then false
        else mapLess xs ys := by
  rw [mapLess]

/-- A value that is less than another is not equal to it. -/
theorem Value.eq_false_of_lt {x y : Value} (h : Value.lt x y = true) : Value.eq x y = false := by
  rw [Value.lt_def] at h
  rw [Value.eq_def]
  by_cases ht : x.getType = y.getType
  · simp only [ht, if_true, decide_eq_true_eq] at h ⊢
    simp [h]
  · simp [ht]

/-! ### Doubles -/

theorem Double.lt_self (a : Double) : Double.lt a a = false := by
  cases a <;> simp [Double.lt, Double.mag]

theorem Double.eq_self_of_not_nan (a : Double) (ha : a.isNaN = false) : Double.eq a a = true := by
  cases a <;> simp [Double.eq, Double.mag, Double.isNaN] at ha ⊢

theorem Double.eq_symm (a b : Double) : Double.eq a b = Double.eq b a := by
  cases a <;> cases b <;> simp [Double.eq, Double.mag, eq_comm]

/-- Two doubles that are not NaN are in exactly one of the relations `<`, `==`, `>`. -/
theorem Double.three_way (a b : Double) (ha : a.isNaN = false) (hb : b.isNaN = false) :
    (Double.lt a b = true ∧ Double.eq a b = false ∧ Double.lt b a = false)
    ∨ (Double.lt a b = false ∧ Double.eq a b = true ∧ Double.lt b a = false)
    ∨ (Double.lt a b = false ∧ Double.eq a b = false ∧ Double.lt b a = true) := by
  cases a <;> cases b <;> simp [Double.eq, Double.lt, Double.mag, Double.isNaN] at ha hb ⊢
  all_goals first
    | (rename_i p; rcases lt_trichotomy p 0 with h | h | h
       · left; exact ⟨h, ne_of_lt h, le_of_lt h⟩
       · right; left; exact ⟨le_of_eq h.symm, h, le_of_eq h⟩
       · right; right; exact ⟨le_of_lt h, ne_of_gt h, h⟩)
    | (rename_i p; rcases lt_trichotomy 0 p with h | h | h
       · left; exact ⟨h, ne_of_lt h, le_of_lt h⟩
       · right; left; exact ⟨le_of_eq h.symm, h, le_of_eq h⟩
       · right; right; exact ⟨le_of_lt h, ne_of_gt h, h⟩)
    | (rename_i p q; rcases lt_trichotomy p q with h | h | h
       · left; exact ⟨h, ne_of_lt h, le_of_lt h⟩
       · right; left; exact ⟨le_of_eq h.symm, h, le_of_eq h⟩
       · right; right; exact ⟨le_of_lt h, ne_of_gt h, h⟩)

theorem Double.lt_trans (a b c : Double) (h1 : Double.lt a b = true)
    (h2 : Double.lt b c = true) : Double.lt a c = true := by
  cases a <;> cases b <;> cases c <;>
    simp [Double.lt, Double.mag] at h1 h2 ⊢ <;> linarith

theorem Double.lt_of_lt_of_eq (a b c : Double) (h1 : Double.lt a b = true)
    (h2 : Double.eq b c = true) : Double.lt a c = true := by
  cases a <;> cases b <;> cases c <;>
    simp [Double.lt, Double.eq, Double.mag] at h1 h2 ⊢ <;> linarith

theorem Double.lt_of_eq_of_lt (a b c : Double) (h1 : Double.eq a b = true)
    (h2 : Double.lt b c = true) : Double.lt a c = true := by
  cases a <;> cases b <;> cases c <;>
    simp [Double.lt, Double.eq, Double.mag] at h1 h2 ⊢ <;> linarith

theorem Double.eq_trans (a b c : Double) (h1 : Double.eq a b = true)
    (h2 : Double.eq b c = true) : Double.eq a c = true := by
  cases a <;> cases b <;> cases c <;>
    simp [Double.eq, Double.mag] at h1 h2 ⊢ <;> linarith

/-! ### Strings -/

theorem charsLt_asymm : ∀ (a b : List Char), charsLt a b = true → charsLt b a = false
  | [], [], h => by simp [charsLt] at h
  | [], _ :: _, _ => by simp [charsLt]
  | _ :: _, [], h => by simp [charsLt] at h
  | x :: xs, y :: ys, h => by
    rcases Nat.lt_trichotomy x.toNat y.toNat with hlt | heq | hgt
    · have : ¬ y.toNat < x.toNat := by omega
      simp [charsLt, hlt, this]
    · simp only [charsLt, heq, Nat.lt_irrefl, if_false] at h ⊢
      exact charsLt_asymm xs ys h
    · have : ¬ x.toNat < y.toNat := by omega
      simp [charsLt, hgt, this] at h

theorem charsLt_trans : ∀ (a b c : List Char), charsLt a b = true → charsLt b c = true →
    charsLt a c = true
  | [], [], _, h, _ => by simp [charsLt] at h
  | [], _ :: _, [], _, h => by simp [charsLt] at h
  | [], _ :: _, _ :: _, _, _ => by simp [charsLt]
  | _ :: _, [], _, h, _ => by simp [charsLt] at h
  | _ :: _, _ :: _, [], _, h => by simp [charsLt] at h
  | x :: xs, y :: ys, z :: zs, h1, h2 => by
    simp only [charsLt] at h1 h2 ⊢
    by_cases hxy : x.toNat < y.toNat
    · by_cases hyz : y.toNat < z.toNat
      · have : x.toNat < z.toNat := by omega
        simp [this]
      · by_cases hzy : z.toNat < y.toNat
        · simp [hyz, hzy] at h2
        · have : x.toNat < z.toNat := by omega
          simp [this]
    · by_cases hyx : y.toNat < x.toNat
      · simp [hxy, hyx] at h1
      · simp only [hxy, hyx, if_false] at h1
        by_cases hyz : y.toNat < z.toNat
        · have : x.toNat < z.toNat := by omega
          simp [this]
        · by_cases hzy : z.toNat < y.toNat
          · simp [hyz, hzy] at h2
          · simp only [hyz, hzy, if_false] at h2
            have e1 : ¬ x.toNat < z.toNat := by omega
            have e2 : ¬ z.toNat < x.toNat := by omega
            simp only [e1, e2, if_false]
            exact charsLt_trans xs ys zs h1 h2

theorem strLt_asymm {a b : String} (h : strLt a b = true) : strLt b a = false :=
  charsLt_asymm a.data b.data h

theorem strLt_trans {a b c : String} (h1 : strLt a b = true) (h2 : strLt b c = true) :
    strLt a c = true :=
  charsLt_trans a.data b.data c.data h1 h2

/-- Two strings are in exactly one of the relations `<`, `=`, `>`. -/
theorem strLt_trichotomy (a b : String) :
    (strLt a b = true ∧ a ≠ b ∧ strLt b a = false)
    ∨ (strLt a b = false ∧ a = b ∧ strLt b a = false)
    ∨ (strLt a b = false ∧ a ≠ b ∧ strLt b a = true) := by
  cases h1 : strLt a b
  · cases h2 : strLt b a
    · exact Or.inr (Or.inl ⟨rfl, strLt_connex a b h1 h2, rfl⟩)
    · exact Or.inr (Or.inr ⟨rfl, (strLt_ne h2).symm, rfl⟩)
  · exact Or.inl ⟨rfl, strLt_ne h1, strLt_asymm h1⟩

/-! ### Values of one variant, values of two variants -/

theorem Value.eq_of_type_ne {x y : Value} (h : x.getType ≠ y.getType) :
    Value.eq x y = false := by
  simp [Value.eq_def, h]

theorem Value.lt_of_type_ne {x y : Value} (h : x.getType ≠ y.getType) :
    Value.lt x y = decide (x.getType.toNat < y.getType.toNat) := by
  simp [Value.lt_def, h]

theorem ValueType.toNat_injective {s t : ValueType} (h : s.toNat = t.toNat) : s = t := by
  cases s <;> cases t <;> simp [ValueType.toNat] at h ⊢

theorem Value.eq_null_null : Value.eq Value.null Value.null = true := by
  simp [Value.eq_def, Value.compare]

theorem Value.lt_null_null : Value.lt Value.null Value.null = false := by
  simp [Value.lt_def, Value.compare]

theorem Value.eq_bool_bool (a b : Bool) :
    Value.eq (Value.bool a) (Value.bool b) = decide (a = b) := by
  cases a <;> cases b <;> simp [Value.eq_def, Value.compare, Value.getType, Bool.compare]

theorem Value.lt_bool_bool (a b : Bool) :
    Value.lt (Value.bool a) (Value.bool b) = (!a && b) := by
  cases a <;> cases b <;> simp [Value.lt_def, Value.compare, Value.getType, Bool.compare]

theorem Value.eq_number_number (a b : Double) :
    Value.eq (Value.number a) (Value.number b) = Double.eq a b := by
  simp only [Value.eq_def, Value.compare, Value.getType, Number.compare, if_true]
  cases Double.eq a b <;> cases Double.lt a b <;> simp

theorem Value.lt_number_number (a b : Double) :
    Value.lt (Value.number a) (Value.number b) = (!Double.eq a b && Double.lt a b) := by
  simp only [Value.lt_def, Value.compare, Value.getType, Number.compare, if_true]
  cases Double.eq a b <;> cases Double.lt a b <;> simp

theorem Value.eq_string_string (a b : String) :
    Value.eq (Value.string a) (Value.string b) = decide (a = b) := by
  simp only [Value.eq_def, Value.compare, Value.getType, String.compare, if_true]
  by_cases h : a = b <;> cases strLt a b <;> simp [h]

theorem Value.lt_string_string (a b : String) :
    Value.lt (Value.string a) (Value.string b) = strLt a b := by
  simp only [Value.lt_def, Value.compare, Value.getType, String.compare, if_true]
  by_cases h : a = b
  · subst h
    simp [strLt_irrefl]
  · cases strLt a b <;> simp [h]

theorem Value.eq_array_array (xs ys : List Value) :
    Value.eq (Value.array xs) (Value.array ys) = vectorEq xs ys := by
  simp only [Value.eq_def, Value.compare, Value.getType, if_true]
  cases vectorEq xs ys <;> cases vectorLess xs ys <;> simp

theorem Value.eq_object_object (xs ys : List (String × Value)) :
    Value.eq (Value.object xs) (Value.object ys) = mapEq xs ys := by
  simp only [Value.eq_def, Value.compare, Value.getType, if_true]
  cases mapEq xs ys <;> cases mapLess xs ys <;> simp

/-- A vector that is less than another is not equal to it. -/
theorem vectorEq_false_of_vectorLess : ∀ (xs ys : List Value), vectorLess xs ys = true →
    vectorEq xs ys = false
  | [], [], h => by simp [vectorLess] at h
  | [], _ :: _, _ => vectorEq_nil_cons _ _
  | _ :: _, [], h => by simp [vectorLess] at h
  | x :: xs, y :: ys, h => by
    rw [vectorLess_cons_cons] at h
    rw [vectorEq_cons_cons]
    by_cases hxy : Value.lt x y = true
    · simp [Value.eq_false_of_lt hxy]
    · by_cases hyx : Value.lt y x = true
      · simp [hxy, hyx] at h
      · simp only [hxy, hyx, if_false] at h
        simp [vectorEq_false_of_vectorLess xs ys h]

/-- A map that is less than another is not equal to it. -/
theorem mapEq_false_of_mapLess : ∀ (xs ys : List (String × Value)), mapLess xs ys = true →
    mapEq xs ys = false
  | [], [], h => by simp [mapLess] at h
  | [], _ :: _, _ => mapEq_nil_cons _ _
  | _ :: _, [], h => by simp [mapLess] at h
  | (k, x) :: xs, (l, y) :: ys, h => by
    rw [mapLess_cons_cons] at h
    rw [mapEq_cons_cons]
    by_cases h1 : (strLt k l || (!strLt l k && Value.lt x y)) = true
    · have : (decide (k = l) && Value.eq x y) = false := by
        simp only [Bool.or_eq_true, Bool.and_eq_true] at h1
        rcases h1 with hk | hv
        · simp [strLt_ne hk]
        · have := Value.eq_false_of_lt hv.2
          simp [this]
      simp [this]
    · by_cases h2 : (strLt l k || (!strLt k l && Value.lt y x)) = true
      · simp [h1, h2] at h
      · simp only [h1, h2, if_false] at h
        simp [mapEq_false_of_mapLess xs ys h]

theorem Value.lt_array_array (xs ys : List Value) :
    Value.lt (Value.array xs) (Value.array ys) = vectorLess xs ys := by
  simp only [Value.lt_def, Value.compare, Value.getType, if_true]
  cases h : vectorLess xs ys
  · cases vectorEq xs ys <;> simp
  · simp [vectorEq_false_of_vectorLess xs ys h]

theorem Value.lt_object_object (xs ys : List (String × Value)) :
    Value.lt (Value.object xs) (Value.object ys) = mapLess xs ys := by
  simp only [Value.lt_def, Value.compare, Value.getType, if_true]
  cases h : mapLess xs ys
  · cases mapEq xs ys <;> simp
  · simp [mapEq_false_of_mapLess xs ys h]

/-! ### Reflexivity, irreflexivity, trichotomy -/

mutual
theorem Value.lt_irrefl : ∀ v : Value, Value.lt v v = false
  | .null => Value.lt_null_null
  | .bool b => by rw [Value.lt_bool_bool]; cases b <;> rfl
  | .number d => by rw [Value.lt_number_number, Double.lt_self]; simp
  | .string s => by rw [Value.lt_string_string, strLt_irrefl]
  | .array xs => by rw [Value.lt_array_array]; exact vectorLess_irrefl xs
  | .object ms => by rw [Value.lt_object_object]; exact mapLess_irrefl ms
theorem vectorLess_irrefl : ∀ xs : List Value, vectorLess xs xs = false
  | [] => by simp [vectorLess]
  | x :: xs => by
    rw [vectorLess_cons_cons, Value.lt_irrefl x]
    simpa using vectorLess_irrefl xs
theorem mapLess_irrefl : ∀ ms : List (String × Value), mapLess ms ms = false
  | [] => by simp [mapLess]
  | (k, x) :: ms => by
    rw [mapLess_cons_cons, Value.lt_irrefl x, strLt_irrefl]
    simpa using mapLess_irrefl ms
end

mutual
theorem Value.eq_refl : ∀ v : Value, v.nanFree = true → Value.eq v v = true
  | .null, _ => Value.eq_null_null
  | .bool b, _ => by simp [Value.eq_bool_bool]
  | .number d, h => by
    rw [Value.eq_number_number]
    exact Double.eq_self_of_not_nan d (by simpa [Value.nanFree] using h)
  | .string s, _ => by simp [Value.eq_string_string]
  | .array xs, h => by
    rw [Value.eq_array_array]
    exact vectorEq_refl xs (by simpa [Value.nanFree] using h)
  | .object ms, h => by
    rw [Value.eq_object_object]
    exact mapEq_refl ms (by simpa [Value.nanFree] using h)
theorem vectorEq_refl : ∀ xs : List Value, Value.nanFree.elements xs = true →
    vectorEq xs xs = true
  | [], _ => vectorEq_nil_nil
  | x :: xs, h => by
    simp only [Value.nanFree.elements, Bool.and_eq_true] at h
    rw [vectorEq_cons_cons, Value.eq_refl x h.1, vectorEq_refl xs h.2]
    rfl
theorem mapEq_refl : ∀ ms : List (String × Value), Value.nanFree.members ms = true →
    mapEq ms ms = true
  | [], _ => mapEq_nil_nil
  | (k, x) :: ms, h => by
    simp only [Value.nanFree.members, Bool.and_eq_true] at h
    rw [mapEq_cons_cons, Value.eq_refl x h.1, mapEq_refl ms h.2]
    simp
end

theorem ExactlyOne.of_lt {p q r : Bool} (hp : p = true) (hq : q = false) (hr : r = false) :
    ExactlyOne p q r := Or.inl ⟨hp, hq, hr⟩

theorem ExactlyOne.of_eq {p q r : Bool} (hp : p = false) (hq : q = true) (hr : r = false) :
    ExactlyOne p q r := Or.inr (Or.inl ⟨hp, hq, hr⟩)

theorem ExactlyOne.of_gt {p q r : Bool} (hp : p = false) (hq : q = false) (hr : r = true) :
    ExactlyOne p q r := Or.inr (Or.inr ⟨hp, hq, hr⟩)

/-- Values of two different variants are ordered by the rank of the variant. -/
theorem Value.trichotomy_of_type_ne {a b : Value} (h : a.getType ≠ b.getType) :
    ExactlyOne (Value.lt a b) (Value.eq a b) (Value.lt b a) := by
  rw [Value.lt_of_type_ne h, Value.lt_of_type_ne (Ne.symm h), Value.eq_of_type_ne h]
  have hne : a.getType.toNat ≠ b.getType.toNat := fun e => h (ValueType.toNat_injective e)
  rcases Nat.lt_or_gt_of_ne hne with hlt | hgt
  · exact ExactlyOne.of_lt (by simpa using hlt) rfl (by simp; omega)
  · exact ExactlyOne.of_gt (by simp; omega) rfl (by simpa using hgt)

mutual
theorem Value.trichotomy : ∀ a b : Value, a.nanFree = true → b.nanFree = true →
    ExactlyOne (Value.lt a b) (Value.eq a b) (Value.lt b a)
  | .null, b, ha, hb => by
    cases b
    case null => exact ExactlyOne.of_eq Value.lt_null_null Value.eq_null_null Value.lt_null_null
    all_goals exact Value.trichotomy_of_type_ne (by simp [Value.getType])
  | .bool p, b, ha, hb => by
    cases b
    case bool q =>
      rw [Value.lt_bool_bool, Value.eq_bool_bool, Value.lt_bool_bool]
      cases p <;> cases q <;> simp [ExactlyOne]
    all_goals exact Value.trichotomy_of_type_ne (by simp [Value.getType])
  | .number p, b, ha, hb => by
    cases b
    case number q =>
      rw [Value.lt_number_number, Value.eq_number_number, Value.lt_number_number]
      have hp : p.isNaN = false := by simpa [Value.nanFree] using ha
      have hq : q.isNaN = false := by simpa [Value.nanFree] using hb
      rcases Double.three_way p q hp hq with ⟨h1, h2, h3⟩ | ⟨h1, h2, h3⟩ | ⟨h1, h2, h3⟩ <;>
        simp [ExactlyOne, h1, h2, h3, Double.eq_symm q p]
    all_goals exact Value.trichotomy_of_type_ne (by simp [Value.getType])
  | .string p, b, ha, hb => by
    cases b
    case string q =>
      rw [Value.lt_string_string, Value.eq_string_string, Value.lt_string_string]
      rcases strLt_trichotomy p q with ⟨h1, h2, h3⟩ | ⟨h1, h2, h3⟩ | ⟨h1, h2, h3⟩ <;>
        simp [ExactlyOne, h1, h2, h3, strLt_irrefl]
    all_goals exact Value.trichotomy_of_type_ne (by simp [Value.getType])
  | .array xs, b, ha, hb => by
    cases b
    case array ys =>
      rw [Value.lt_array_array, Value.eq_array_array, Value.lt_array_array]
      exact vector_trichotomy xs ys (by simpa [Value.nanFree] using ha)
        (by simpa [Value.nanFree] using hb)
    all_goals exact Value.trichotomy_of_type_ne (by simp [Value.getType])
  | .object xs, b, ha, hb => by
    cases b
    case object ys =>
      rw [Value.lt_object_object, Value.eq_object_object, Value.lt_object_object]
      exact map_trichotomy xs ys (by simpa [Value.nanFree] using ha)
        (by simpa [Value.nanFree] using hb)
    all_goals exact Value.trichotomy_of_type_ne (by simp [Value.getType])
theorem vector_trichotomy : ∀ xs ys : List Value, Value.nanFree.elements xs = true →
    Value.nanFree.elements ys = true →
    ExactlyOne (vectorLess xs ys) (vectorEq xs ys) (vectorLess ys xs)
  | [], [], _, _ => by simp [ExactlyOne, vectorLess, vectorEq_nil_nil]
  | [], _ :: _, _, _ => by simp [ExactlyOne, vectorLess, vectorEq_nil_cons]
  | _ :: _, [], _, _ => by simp [ExactlyOne, vectorLess, vectorEq_cons_nil]
  | x :: xs, y :: ys, hx, hy => by
    simp only [Value.nanFree.elements, Bool.and_eq_true] at hx hy
    rw [vectorLess_cons_cons, vectorEq_cons_cons, vectorLess_cons_cons]
    rcases Value.trichotomy x y hx.1 hy.1 with ⟨h1, h2, h3⟩ | ⟨h1, h2, h3⟩ | ⟨h1, h2, h3⟩
    · simp [ExactlyOne, h1, h2, h3]
    · simpa [h1, h2, h3] using vector_trichotomy xs ys hx.2 hy.2
    · simp [ExactlyOne, h1, h2, h3]
theorem map_trichotomy : ∀ xs ys : List (String × Value), Value.nanFree.members xs = true →
    Value.nanFree.members ys = true →
    ExactlyOne (mapLess xs ys) (mapEq xs ys) (mapLess ys xs)
  | [], [], _, _ => by simp [ExactlyOne, mapLess, mapEq_nil_nil]
  | [], _ :: _, _, _ => by simp [ExactlyOne, mapLess, mapEq_nil_cons]
  | _ :: _, [], _, _ => by simp [ExactlyOne, mapLess, mapEq_cons_nil]
  | (k, x) :: xs, (l, y) :: ys, hx, hy => by
    simp only [Value.nanFree.members, Bool.and_eq_true] at hx hy
    rw [mapLess_cons_cons, mapEq_cons_cons, mapLess_cons_cons]
    rcases strLt_trichotomy k l with ⟨k1, k2, k3⟩ | ⟨k1, k2, k3⟩ | ⟨k1, k2, k3⟩
    · simp [ExactlyOne, k1, k2, k3]
    · subst k2
      rcases Value.trichotomy x y hx.1 hy.1 with ⟨h1, h2, h3⟩ | ⟨h1, h2, h3⟩ | ⟨h1, h2, h3⟩
      · simp [ExactlyOne, strLt_irrefl, h1, h2, h3]
      · simpa [strLt_irrefl, h1, h2, h3] using map_trichotomy xs ys hx.2 hy.2
      · simp [ExactlyOne, strLt_irrefl, h1, h2, h3]
    · simp [ExactlyOne, k1, k2, k3]
end

/-! ### Transitivity -/

theorem Value.type_eq_of_eq {a b : Value} (h : Value.eq a b = true) : a.getType = b.getType := by
  by_contra hne
  rw [Value.eq_of_type_ne hne] at h
  exact Bool.noConfusion h

theorem Value.rank_le_of_lt {a b : Value} (h : Value.lt a b = true) :
    a.getType.toNat ≤ b.getType.toNat := by
  by_cases ht : a.getType = b.getType
  · rw [ht]
  · rw [Value.lt_of_type_ne ht] at h
    exact Nat.le_of_lt (by simpa using h)

theorem Value.lt_of_rank_lt {a b : Value} (h : a.getType.toNat < b.getType.toNat) :
    Value.lt a b = true := by
  have ht : a.getType ≠ b.getType := by
    intro e
    rw [e] at h
    exact Nat.lt_irrefl _ h
  rw [Value.lt_of_type_ne ht]
  simpa using h

/-- Three values that are not all of one variant compose by the rank of their variants. -/
theorem Value.transitive_of_types (a b c : Value)
    (h : ¬ (a.getType = b.getType ∧ b.getType = c.getType)) : Value.Transitive a b c := by
  refine ⟨?_, ?_, ?_, ?_⟩
  · intro h1 h2
    have r1 := Value.rank_le_of_lt h1
    have r2 := Value.rank_le_of_lt h2
    by_cases hac : a.getType.toNat < c.getType.toNat
    · exact Value.lt_of_rank_lt hac
    · have e1 : a.getType.toNat = b.getType.toNat := by omega
      have e2 : b.getType.toNat = c.getType.toNat := by omega
      exact absurd ⟨ValueType.toNat_injective e1, ValueType.toNat_injective e2⟩ h
  · intro h1 h2
    have r1 := Value.rank_le_of_lt h1
    have t2 := Value.type_eq_of_eq h2
    by_cases hab : a.getType.toNat < b.getType.toNat
    · exact Value.lt_of_rank_lt (by rw [← t2]; exact hab)
    · have e1 : a.getType.toNat = b.getType.toNat := by omega
      exact absurd ⟨ValueType.toNat_injective e1, t2⟩ h
  · intro h1 h2
    have t1 := Value.type_eq_of_eq h1
    have r2 := Value.rank_le_of_lt h2
    by_cases hbc : b.getType.toNat < c.getType.toNat
    · exact Value.lt_of_rank_lt (by rw [t1]; exact hbc)
    · have e2 : b.getType.toNat = c.getType.toNat := by omega
      exact absurd ⟨t1, ValueType.toNat_injective e2⟩ h
  · intro h1 h2
    exact absurd ⟨Value.type_eq_of_eq h1, Value.type_eq_of_eq h2⟩ h

theorem pair_trichotomy (k l : String) (x y : Value)
    (h : ExactlyOne (Value.lt x y) (Value.eq x y) (Value.lt y x)) :
    ExactlyOne (pairLess k x l y) (pairEq k x l y) (pairLess l y k x) := by
  unfold pairLess pairEq
  rcases strLt_trichotomy k l with ⟨k1, k2, k3⟩ | ⟨k1, k2, k3⟩ | ⟨k1, k2, k3⟩
  · simp [ExactlyOne, k1, k2, k3]
  · subst k2
    rcases h with ⟨h1, h2, h3⟩ | ⟨h1, h2, h3⟩ | ⟨h1, h2, h3⟩ <;>
      simp [ExactlyOne, strLt_irrefl, h1, h2, h3]
  · simp [ExactlyOne, k1, k2, k3]

theorem pair_transitive (k l m : String) (x y z : Value) (h : Value.Transitive x y z) :
    (pairLess k x l y = true → pairLess l y m z = true → pairLess k x m z = true)
    ∧ (pairLess k x l y = true → pairEq l y m z = true → pairLess k x m z = true)
    ∧ (pairEq k x l y = true → pairLess l y m z = true → pairLess k x m z = true)
    ∧ (pairEq k x l y = true → pairEq l y m z = true → pairEq k x m z = true) := by
  obtain ⟨t1, t2, t3, t4⟩ := h
  unfold pairLess pairEq
  rcases strLt_trichotomy k l with ⟨a1, a2, a3⟩ | ⟨a1, a2, a3⟩ | ⟨a1, a2, a3⟩
  · rcases strLt_trichotomy l m with ⟨b1, b2, b3⟩ | ⟨b1, b2, b3⟩ | ⟨b1, b2, b3⟩
    · have c1 := strLt_trans a1 b1
      simp [a1, a2, a3, b1, b2, b3, c1]
    · subst b2
      simp [a1, a2, a3, strLt_irrefl]
    · simp [a1, a2, a3, b1, b2, b3]
  · subst a2
    rcases strLt_trichotomy k m with ⟨b1, b2, b3⟩ | ⟨b1, b2, b3⟩ | ⟨b1, b2, b3⟩
    · simp [strLt_irrefl, b1, b2, b3]
    · subst b2
      simp only [strLt_irrefl, Bool.false_or, Bool.not_false, Bool.true_and, decide_True]
      exact ⟨t1, t2, t3, t4⟩
    · simp [strLt_irrefl, b1, b2, b3]
  · simp [a1, a2, a3]

mutual
theorem Value.transitive : ∀ a b c : Value, a.nanFree = true → b.nanFree = true →
    c.nanFree = true → Value.Transitive a b c
  | .null, b, c, ha, hb, hc => by
    cases b <;> cases c
    case null.null =>
      simp [Value.Transitive, Value.lt_null_null, Value.eq_null_null]
    all_goals exact Value.transitive_of_types _ _ _ (by simp [Value.getType])
  | .bool p, b, c, ha, hb, hc => by
    cases b <;> cases c
    case bool.bool q r =>
      simp only [Value.Transitive, Value.lt_bool_bool, Value.eq_bool_bool]
      cases p <;> cases q <;> cases r <;> simp
    all_goals exact Value.transitive_of_types _ _ _ (by simp [Value.getType])
  | .number p, b, c, ha, hb, hc => by
    cases b <;> cases c
    case number.number q r =>
      simp only [Value.Transitive, Value.lt_number_number, Value.eq_number_number,
        Bool.and_eq_true, Bool.not_eq_true']
      refine ⟨?_, ?_, ?_, ?_⟩
      · intro h1 h2
        have h3 := Double.lt_trans p q r h1.2 h2.2
        rcases Double.three_way p r (by simpa [Value.nanFree] using ha)
          (by simpa [Value.nanFree] using hc) with ⟨e1, e2, e3⟩ | ⟨e1, e2, e3⟩ | ⟨e1, e2, e3⟩ <;>
          simp [e1, e2] at h3 ⊢
      · intro h1 h2
        have h3 := Double.lt_of_lt_of_eq p q r h1.2 h2
        rcases Double.three_way p r (by simpa [Value.nanFree] using ha)
          (by simpa [Value.nanFree] using hc) with ⟨e1, e2, e3⟩ | ⟨e1, e2, e3⟩ | ⟨e1, e2, e3⟩ <;>
          simp [e1, e2] at h3 ⊢
      · intro h1 h2
        have h3 := Double.lt_of_eq_of_lt p q r h1 h2.2
        rcases Double.three_way p r (by simpa [Value.nanFree] using ha)
          (by simpa [Value.nanFree] using hc) with ⟨e1, e2, e3⟩ | ⟨e1, e2, e3⟩ | ⟨e1, e2, e3⟩ <;>
          simp [e1, e2] at h3 ⊢
      · exact Double.eq_trans p q r
    all_goals exact Value.transitive_of_types _ _ _ (by simp [Value.getType])
  | .string p, b, c, ha, hb, hc => by
    cases b <;> cases c
    case string.string q r =>
      simp only [Value.Transitive, Value.lt_string_string, Value.eq_string_string,
        decide_eq_true_eq]
      refine ⟨fun h1 h2 => strLt_trans h1 h2, ?_, ?_, ?_⟩
      · intro h1 h2
        subst h2
        exact h1
      · intro h1 h2
        subst h1
        exact h2
      · intro h1 h2
        rw [h1, h2]
    all_goals exact Value.transitive_of_types _ _ _ (by simp [Value.getType])
  | .array xs, b, c, ha, hb, hc => by
    cases b <;> cases c
    case array.array ys zs =>
      simp only [Value.Transitive, Value.lt_array_array, Value.eq_array_array]
      exact vector_transitive xs ys zs (by simpa [Value.nanFree] using ha)
        (by simpa [Value.nanFree] using hb) (by simpa [Value.nanFree] using hc)
    all_goals exact Value.transitive_of_types _ _ _ (by simp [Value.getType])
  | .object xs, b, c, ha, hb, hc => by
    cases b <;> cases c
    case object.object ys zs =>
      simp only [Value.Transitive, Value.lt_object_object, Value.eq_object_object]
      exact map_transitive xs ys zs (by simpa [Value.nanFree] using ha)
        (by simpa [Value.nanFree] using hb) (by simpa [Value.nanFree] using hc)
    all_goals exact Value.transitive_of_types _ _ _ (by simp [Value.getType])
theorem vector_transitive : ∀ xs ys zs : List Value, Value.nanFree.elements xs = true →
    Value.nanFree.elements ys = true → Value.nanFree.elements zs = true →
    (vectorLess xs ys = true → vectorLess ys zs = true → vectorLess xs zs = true)
    ∧ (vectorLess xs ys = true → vectorEq ys zs = true → vectorLess xs zs = true)
    ∧ (vectorEq xs ys = true → vectorLess ys zs = true → vectorLess xs zs = true)
    ∧ (vectorEq xs ys = true → vectorEq ys zs = true → vectorEq xs zs = true)
  | [], [], [], _, _, _ => by simp [vectorLess]
  | [], [], _ :: _, _, _, _ => by simp [vectorLess, vectorEq_nil_cons]
  | [], _ :: _, [], _, _, _ => by simp [vectorLess, vectorEq_nil_cons, vectorEq_cons_nil]
  | [], _ :: _, _ :: _, _, _, _ => by simp [vectorLess, vectorEq_nil_cons]
  | _ :: _, [], [], _, _, _ => by simp [vectorLess, vectorEq_cons_nil]
  | _ :: _, [], _ :: _, _, _, _ => by simp [vectorLess, vectorEq_cons_nil, vectorEq_nil_cons]
  | _ :: _, _ :: _, [], _, _, _ => by simp [vectorLess, vectorEq_cons_nil]
  | x :: xs, y :: ys, z :: zs, hx, hy, hz => by
    simp only [Value.nanFree.elements, Bool.and_eq_true] at hx hy hz
    obtain ⟨t1, t2, t3, t4⟩ := Value.transitive x y z hx.1 hy.1 hz.1
    obtain ⟨r1, r2, r3, r4⟩ := vector_transitive xs ys zs hx.2 hy.2 hz.2
    simp only [vectorLess_cons_cons, vectorEq_cons_cons]
    rcases Value.trichotomy x y hx.1 hy.1 with ⟨a1, a2, a3⟩ | ⟨a1, a2, a3⟩ | ⟨a1, a2, a3⟩
    · rcases Value.trichotomy y z hy.1 hz.1 with ⟨b1, b2, b3⟩ | ⟨b1, b2, b3⟩ | ⟨b1, b2, b3⟩
      · simp [a1, a2, a3, b1, b2, b3, t1 a1 b1]
      · simp [a1, a2, a3, b1, b2, b3, t2 a1 b2]
      · simp [a1, a2, a3, b1, b2, b3]
    · rcases Value.trichotomy y z hy.1 hz.1 with ⟨b1, b2, b3⟩ | ⟨b1, b2, b3⟩ | ⟨b1, b2, b3⟩
      · simp [a1, a2, a3, b1, b2, b3, t3 a2 b1]
      · have c2 := t4 a2 b2
        rcases Value.trichotomy x z hx.1 hz.1 with ⟨c1, c2', c3⟩ | ⟨c1, c2', c3⟩ | ⟨c1, c2', c3⟩
        · rw [c2] at c2'
          exact Bool.noConfusion c2'
        · simp only [a1, a2, a3, b1, b2, b3, c1, c2, c3, Bool.true_and, Bool.false_eq_true,
            if_false]
          exact ⟨r1, r2, r3, r4⟩
        · rw [c2] at c2'
          exact Bool.noConfusion c2'
      · simp [a1, a2, a3, b1, b2, b3]
    · simp [a1, a2, a3]
theorem map_transitive : ∀ xs ys zs : List (String × Value), Value.nanFree.members xs = true →
    Value.nanFree.members ys = true → Value.nanFree.members zs = true →
    (mapLess xs ys = true → mapLess ys zs = true → mapLess xs zs = true)
    ∧ (mapLess xs ys = true → mapEq ys zs = true → mapLess xs zs = true)
    ∧ (mapEq xs ys = true → mapLess ys zs = true → mapLess xs zs = true)
    ∧ (mapEq xs ys = true → mapEq ys zs = true → mapEq xs zs = true)
  | [], [], [], _, _, _ => by simp [mapLess]
  | [], [], _ :: _, _, _, _ => by simp [mapLess, mapEq_nil_cons]
  | [], _ :: _, [], _, _, _ => by simp [mapLess, mapEq_nil_cons, mapEq_cons_nil]
  | [], _ :: _, _ :: _, _, _, _ => by simp [mapLess, mapEq_nil_cons]
  | _ :: _, [], [], _, _, _ => by simp [mapLess, mapEq_cons_nil]
  | _ :: _, [], _ :: _, _, _, _ => by simp [mapLess, mapEq_cons_nil, mapEq_nil_cons]
  | _ :: _, _ :: _, [], _, _, _ => by simp [mapLess, mapEq_cons_nil]
  | (k, x) :: xs, (l, y) :: ys, (m, z) :: zs, hx, hy, hz => by
    simp only [Value.nanFree.members, Bool.and_eq_true] at hx hy hz
    obtain ⟨t1, t2, t3, t4⟩ :=
      pair_transitive k l m x y z (Value.transitive x y z hx.1 hy.1 hz.1)
    obtain ⟨r1, r2, r3, r4⟩ := map_transitive xs ys zs hx.2 hy.2 hz.2
    have hxy := pair_trichotomy k l x y (Value.trichotomy x y hx.1 hy.1)
    have hyz := pair_trichotomy l m y z (Value.trichotomy y z hy.1 hz.1)
    have hxz := pair_trichotomy k m x z (Value.trichotomy x z hx.1 hz.1)
    simp only [mapLess_cons_cons, mapEq_cons_cons]
    change (((if pairLess k x l y = true then true
          else if pairLess l y k x = true then false else mapLess xs ys) = true →
        (if pairLess l y m z = true then true
          else if pairLess m z l y = true then false else mapLess ys zs) = true →
        (if pairLess k x m z = true then true
          else if pairLess m z k x = true then false else mapLess xs zs) = true)
      ∧ ((if pairLess k x l y = true then true
          else if pairLess l y k x = true then false else mapLess xs ys) = true →
        (pairEq l y m z && mapEq ys zs) = true →
        (if pairLess k x m z = true then true
          else if pairLess m z k x = true then false else mapLess xs zs) = true)
      ∧ ((pairEq k x l y && mapEq xs ys) = true →
        (if pairLess l y m z = true then true
          else if pairLess m z l y = true then false else mapLess ys zs) = true →
        (if pairLess k x m z = true then true
          else if pairLess m z k x = true then false else mapLess xs zs) = true)
      ∧ ((pairEq k x l y && mapEq xs ys) = true → (pairEq l y m z && mapEq ys zs) = true →
        (pairEq k x m z && mapEq xs zs) = true))
    rcases hxy with ⟨a1, a2, a3⟩ | ⟨a1, a2, a3⟩ | ⟨a1, a2, a3⟩
    · rcases hyz with ⟨b1, b2, b3⟩ | ⟨b1, b2, b3⟩ | ⟨b1, b2, b3⟩
      · simp [a1, a2, a3, b1, b2, b3, t1 a1 b1]
      · simp [a1, a2, a3, b1, b2, b3, t2 a1 b2]
      · simp [a1, a2, a3, b1, b2, b3]
    · rcases hyz with ⟨b1, b2, b3⟩ | ⟨b1, b2, b3⟩ | ⟨b1, b2, b3⟩
      · simp [a1, a2, a3, b1, b2, b3, t3 a2 b1]
      · have c2 := t4 a2 b2
        rcases hxz with ⟨c1, c2', c3⟩ | ⟨c1, c2', c3⟩ | ⟨c1, c2', c3⟩
        · rw [c2] at c2'
          exact Bool.noConfusion c2'
        · simp only [a1, a2, a3, b1, b2, b3, c1, c2, c3, Bool.true_and, Bool.false_eq_true,
            if_false]
          exact ⟨r1, r2, r3, r4⟩
        · rw [c2] at c2'
          exact Bool.noConfusion c2'
      · simp [a1, a2, a3, b1, b2, b3]
    · simp [a1, a2, a3]
end

/-! ### Vectors by index -/

theorem vectorEq_iff_index : ∀ (a b : List Value),
    vectorEq a b = true ↔ (a.length = b.length
      ∧ ∀ j, j < a.length → Value.eq (a.getD j Value.null) (b.getD j Value.null) = true)
  | [], [] => by simp [vectorEq_nil_nil]
  | [], _ :: _ => by simp [vectorEq_nil_cons]
  | _ :: _, [] => by simp [vectorEq_cons_nil]
  | x :: xs, y :: ys => by
    rw [vectorEq_cons_cons, Bool.and_eq_true, vectorEq_iff_index xs ys]
    constructor
    · rintro ⟨h0, hl, hj⟩
      refine ⟨by simp [hl], ?_⟩
      intro j hjlt
      cases j with
      | zero => simpa using h0
      | succ j => simpa using hj j (by simpa using hjlt)
    · rintro ⟨hl, hj⟩
      refine ⟨by simpa using hj 0 (by simp), by simpa using hl, ?_⟩
      intro j hjlt
      simpa using hj (j + 1) (by simpa using hjlt)

/-- The lexicographic order by index, for vectors without NaN: a first index with a smaller
element after equal ones, or a proper prefix. -/
theorem vectorLess_iff_index : ∀ (a b : List Value), Value.nanFree.elements a = true →
    Value.nanFree.elements b = true →
    (vectorLess a b = true ↔
      ((∃ i, i < a.length ∧ i < b.length
          ∧ (∀ j, j < i → Value.eq (a.getD j Value.null) (b.getD j Value.null) = true)
          ∧ Value.lt (a.getD i Value.null) (b.getD i Value.null) = true)
        ∨ (a.length < b.length
          ∧ ∀ j, j < a.length → Value.eq (a.getD j Value.null) (b.getD j Value.null) = true)))
  | [], [], _, _ => by simp [vectorLess]
  | [], _ :: _, _, _ => by simp [vectorLess]
  | _ :: _, [], _, _ => by simp [vectorLess]
  | x :: xs, y :: ys, ha, hb => by
    simp only [Value.nanFree.elements, Bool.and_eq_true] at ha hb
    have ih := vectorLess_iff_index xs ys ha.2 hb.2
    rw [vectorLess_cons_cons]
    rcases Value.trichotomy x y ha.1 hb.1 with ⟨h1, h2, h3⟩ | ⟨h1, h2, h3⟩ | ⟨h1, h2, h3⟩
    · simp only [h1, if_true, true_iff]
      exact Or.inl ⟨0, by simp, by simp, by simp, by simpa using h1⟩
    · simp only [h1, h3, Bool.false_eq_true, if_false]
      rw [ih]
      constructor
      · rintro (⟨i, hia, hib, hj, hlt⟩ | ⟨hl, hj⟩)
        · refine Or.inl ⟨i + 1, by simpa using hia, by simpa using hib, ?_, by simpa using hlt⟩
          intro j hjlt
          cases j with
          | zero => simpa using h2
          | succ j => simpa using hj j (by omega)
        · refine Or.inr ⟨by simpa using hl, ?_⟩
          intro j hjlt
          cases j with
          | zero => simpa using h2
          | succ j => simpa using hj j (by simpa using hjlt)
      · rintro (⟨i, hia, hib, hj, hlt⟩ | ⟨hl, hj⟩)
        · cases i with
          | zero =>
            simp only [List.getD_cons_zero] at hlt
            rw [h1] at hlt
            exact Bool.noConfusion hlt
          | succ i =>
            refine Or.inl ⟨i, by simpa using hia, by simpa using hib, ?_, by simpa using hlt⟩
            intro j hjlt
            simpa using hj (j + 1) (by omega)
        · refine Or.inr ⟨by simpa using hl, ?_⟩
          intro j hjlt
          simpa using hj (j + 1) (by simpa using hjlt)
    · simp only [h1, h3, Bool.false_eq_true, if_false, if_true, false_iff]
      rintro (⟨i, hia, hib, hj, hlt⟩ | ⟨hl, hj⟩)
      · cases i with
        | zero =>
          simp only [List.getD_cons_zero] at hlt
          rw [h1] at hlt
          exact Bool.noConfusion hlt
        | succ i =>
          have := hj 0 (by omega)
          simp only [List.getD_cons_zero] at this
          rw [h2] at this
          exact Bool.noConfusion this
      · have := hj 0 (by simp)
        simp only [List.getD_cons_zero] at this
        rw [h2] at this
        exact Bool.noConfusion this

/-! ### Objects built by assignment -/

theorem Object.assign_cons (k0 : String) (v0 : Value) (rest : Object) (k : String)
    (v : Value) :
    Object.assign ((k0, v0) :: rest) k v =
      if strLt k k0 = true then (k, v) :: (k0, v0) :: rest
      else if strLt k0 k = true then (k0, v0) :: Object.assign rest k v
      else (k0, v) :: rest := by
  rw [Object.assign]

theorem Object.mem_assign : ∀ (o : Object) (k : String) (v : Value) (e : String × Value),
    e ∈ Object.assign o k v → e = (k, v) ∨ e ∈ o
  | [], k, v, e, h => by
    simp [Object.assign] at h
    exact Or.inl h
  | (k0, v0) :: rest, k, v, e, h => by
    rw [Object.assign_cons] at h
    by_cases h1 : strLt k k0 = true
    · rw [if_pos h1] at h
      exact List.mem_cons.1 h
    · rw [if_neg h1] at h
      by_cases h2 : strLt k0 k = true
      · rw [if_pos h2] at h
        rcases List.mem_cons.1 h with h' | h'
        · exact Or.inr (h' ▸ List.mem_cons_self _ _)
        · rcases Object.mem_assign rest k v e h' with h'' | h''
          · exact Or.inl h''
          · exact Or.inr (List.mem_cons_of_mem _ h'')
      · rw [if_neg h2] at h
        have hk : k = k0 := strLt_connex k k0 (by simpa using h1) (by simpa using h2)
        rcases List.mem_cons.1 h with h' | h'
        · exact Or.inl (by rw [h', hk])
        · exact Or.inr (List.mem_cons_of_mem _ h')

theorem Object.sorted_assign : ∀ (o : Object) (k : String) (v : Value), Object.Sorted o →
    Object.Sorted (Object.assign o k v)
  | [], k, v, _ => by simp [Object.assign, Object.Sorted]
  | (k0, v0) :: rest, k, v, h => by
    unfold Object.Sorted at h ⊢
    rw [List.pairwise_cons] at h
    rw [Object.assign_cons]
    by_cases h1 : strLt k k0 = true
    · rw [if_pos h1, List.pairwise_cons, List.pairwise_cons]
      refine ⟨?_, h.1, h.2⟩
      intro e he
      rcases List.mem_cons.1 he with he | he
      · rw [he]
        exact h1
      · exact strLt_trans h1 (h.1 e he)
    · rw [if_neg h1]
      by_cases h2 : strLt k0 k = true
      · rw [if_pos h2, List.pairwise_cons]
        refine ⟨?_, Object.sorted_assign rest k v h.2⟩
        intro e he
        rcases Object.mem_assign rest k v e he with he | he
        · rw [he]
          exact h2
        · exact h.1 e he
      · rw [if_neg h2, List.pairwise_cons]
        exact ⟨h.1, h.2⟩

theorem Object.perm_assign : ∀ (o : Object) (k : String) (v : Value),
    (∀ e ∈ o, e.1 ≠ k) → (Object.assign o k v).Perm ((k, v) :: o)
  | [], k, v, _ => by simp [Object.assign]
  | (k0, v0) :: rest, k, v, h => by
    rw [Object.assign_cons]
    by_cases h1 : strLt k k0 = true
    · rw [if_pos h1]
    · rw [if_neg h1]
      by_cases h2 : strLt k0 k = true
      · rw [if_pos h2]
        have ih := Object.perm_assign rest k v (fun e he => h e (List.mem_cons_of_mem _ he))
        exact (List.Perm.cons _ ih).trans (List.Perm.swap _ _ _)
      · have hk : k = k0 := strLt_connex k k0 (by simpa using h1) (by simpa using h2)
        exact absurd hk.symm (h (k0, v0) (List.mem_cons_self _ _))

/-- The assignments of a list of bindings with distinct keys, none of them in the Object
yet: the result is sorted and holds the old entries and the bindings. -/
theorem Object.foldl_assign : ∀ (l : List (String × Value)) (acc : Object),
    Object.Sorted acc → (l.map Prod.fst).Nodup →
    (∀ e ∈ acc, ∀ b ∈ l, e.1 ≠ b.1) →
    Object.Sorted (l.foldl (fun o kv => Object.assign o kv.1 kv.2) acc)
    ∧ (l.foldl (fun o kv => Object.assign o kv.1 kv.2) acc).Perm (acc ++ l)
  | [], acc, hs, _, _ => by simp [hs]
  | (k, v) :: l, acc, hs, hnd, hdis => by
    simp only [List.map_cons, List.nodup_cons, List.mem_map, not_exists, not_and] at hnd
    have hk : ∀ e ∈ acc, e.1 ≠ k := fun e he => hdis e he (k, v) (List.mem_cons_self _ _)
    have hperm := Object.perm_assign acc k v hk
    have hdis' : ∀ e ∈ Object.assign acc k v, ∀ b ∈ l, e.1 ≠ b.1 := by
      intro e he b hb
      rcases Object.mem_assign acc k v e he with he | he
      · rw [he]
        intro hkb
        exact hnd.1 b hb hkb.symm
      · exact hdis e he b (List.mem_cons_of_mem _ hb)
    obtain ⟨h1, h2⟩ := Object.foldl_assign l (Object.assign acc k v)
      (Object.sorted_assign acc k v hs) hnd.2 hdis'
    refine ⟨by simpa using h1, ?_⟩
    simp only [List.foldl_cons]
    refine h2.trans ?_
    refine (List.Perm.append_right l hperm).trans ?_
    exact (@List.perm_middle _ (k, v) acc l).symm

theorem Object.ofBindings_sorted_perm (l : List (String × Value))
    (hnd : (l.map Prod.fst).Nodup) :
    Object.Sorted (Object.ofBindings l) ∧ (Object.ofBindings l).Perm l := by
  have h := Object.foldl_assign l [] (by simp [Object.Sorted]) hnd (by simp)
  simpa [Object.ofBindings] using h

/-- Two sorted Objects with the same entries are the same sequence. -/
theorem Object.eq_of_sorted_of_perm : ∀ (o1 o2 : Object), Object.Sorted o1 → Object.Sorted o2 →
    o1.Perm o2 → o1 = o2
  | [], o2, _, _, hp => (List.Perm.nil_eq hp)
  | e :: r1, [], _, _, hp => by simpa using hp.symm.nil_eq
  | e1 :: r1, e2 :: r2, hs1, hs2, hp => by
    unfold Object.Sorted at hs1 hs2
    rw [List.pairwise_cons] at hs1 hs2
    have hhead : e1 = e2 := by
      have m1 : e1 ∈ e2 :: r2 := hp.subset (List.mem_cons_self _ _)
      have m2 : e2 ∈ e1 :: r1 := hp.symm.subset (List.mem_cons_self _ _)
      rcases List.mem_cons.1 m1 with h | h
      · exact h
      · rcases List.mem_cons.1 m2 with h' | h'
        · exact h'.symm
        · have a1 := hs2.1 e1 h
          have a2 := hs1.1 e2 h'
          rw [strLt_asymm a1] at a2
          exact Bool.noConfusion a2
    subst hhead
    rw [Object.eq_of_sorted_of_perm r1 r2 hs1.2 hs2.2 ((List.perm_cons _).1 hp)]

theorem Value.nanFree.members_iff : ∀ (ms : List (String × Value)),
    Value.nanFree.members ms = true ↔ ∀ e ∈ ms, e.2.nanFree = true
  | [] => by simp [Value.nanFree.members]
  | (k, x) :: ms => by
    simp [Value.nanFree.members, Value.nanFree.members_iff ms]

theorem Value.nanFree.members_perm {l1 l2 : List (String × Value)} (hp : l1.Perm l2)
    (h : Value.nanFree.members l1 = true) : Value.nanFree.members l2 = true := by
  rw [Value.nanFree.members_iff] at h ⊢
  intro e he
  exact h e (hp.symm.subset he)


/-! ## Lemmas on `String::escapeString` -/

theorem replace_all_flatMap (l : List Char) (f : Char → List Char) (c : Char)
    (fmt : List Char) :
    replace_all (l.flatMap f) c fmt = l.flatMap (fun x => replace_all (f x) c fmt) := by
  unfold replace_all
  rw [List.flatMap_assoc]

theorem replace_all_singleton_ne (x c : Char) (fmt : List Char) (h : x ≠ c) :
    replace_all [x] c fmt = [x] := by
  simp [replace_all, h]

/-- The eight passes applied to one character give its image. -/
theorem String.escapeString.passes_singleton (x : Char) :
    replace_all (replace_all (replace_all (replace_all (replace_all (replace_all
      (replace_all (replace_all [x] dquote [backslash, dquote]) backslash
        [backslash, backslash]) '/' [backslash, '/']) (Char.ofNat 8) [backslash, 'b'])
        (Char.ofNat 12) [backslash, 'f']) (Char.ofNat 10) [backslash, 'n'])
        (Char.ofNat 13) [backslash, 'r']) (Char.ofNat 9) [backslash, 't']
      = String.escapeString.image x := by
  unfold String.escapeString.image
  by_cases h1 : x = dquote
  · subst h1; rfl
  by_cases h2 : x = backslash
  · subst h2; rfl
  by_cases h3 : x = '/'
  · subst h3; rfl
  by_cases h4 : x = Char.ofNat 8
  · subst h4; rfl
  by_cases h5 : x = Char.ofNat 12
  · subst h5; rfl
  by_cases h6 : x = Char.ofNat 10
  · subst h6; rfl
  by_cases h7 : x = Char.ofNat 13
  · subst h7; rfl
  by_cases h8 : x = Char.ofNat 9
  · subst h8; rfl
  rw [replace_all_singleton_ne x _ _ h1, replace_all_singleton_ne x _ _ h2,
    replace_all_singleton_ne x _ _ h3, replace_all_singleton_ne x _ _ h4,
    replace_all_singleton_ne x _ _ h5, replace_all_singleton_ne x _ _ h6,
    replace_all_singleton_ne x _ _ h7, replace_all_singleton_ne x _ _ h8]
  simp [h1, h2, h3, h4, h5, h6, h7, h8]

/-- The function `String::escapeString` maps each character of its input to its image,
in order. -/
theorem String.escapeString_eq_flatMap (str : String) :
    String.escapeString str = String.mk (str.data.flatMap String.escapeString.image) := by
  have h : ∀ l : List Char, l = l.flatMap (fun x => [x]) := by
    intro l
    induction l with
    | nil => rfl
    | cons a l ih => simp
  unfold String.escapeString
  simp only
  congr 1
  conv_lhs => rw [h str.data]
  simp only [replace_all_flatMap]
  refine congrArg (List.flatMap str.data) (funext fun x => ?_)
  exact String.escapeString.passes_singleton x

/-! ## Lemmas on `Array::doJsonString` and `Object::doJsonString` -/

theorem Array.doJsonString.array_loop_go (xs : List Value) (acc : String) :
    String.intercalate.go acc ", " (xs.map Value.jsonString)
      = acc ++ Array.doJsonString.loop false xs := by
  induction xs generalizing acc with
  | nil => simp [String.intercalate.go, Array.doJsonString.loop]
  | cons x xs ih =>
    simp only [List.map_cons, String.intercalate.go, Array.doJsonString.loop, ih]
    simp [String.append_assoc]

/-- The text between the brackets of an Array: the texts of the elements joined by
comma and space. -/
theorem Array.doJsonString.array_loop_eq_intercalate (xs : List Value) :
    Array.doJsonString.loop true xs = ", ".intercalate (xs.map Value.jsonString) := by
  cases xs with
  | nil => simp [String.intercalate, Array.doJsonString.loop]
  | cons x xs =>
    simp only [List.map_cons, String.intercalate, Array.doJsonString.loop,
      Array.doJsonString.array_loop_go]
    simp

theorem Object.doJsonString.object_loop_go (ms : List (String × Value)) (acc : String) :
    String.intercalate.go acc ", " (ms.map Object.doJsonString.member)
      = acc ++ Object.doJsonString.loop false ms := by
  induction ms generalizing acc with
  | nil => simp [String.intercalate.go, Object.doJsonString.loop]
  | cons e ms ih =>
    obtain ⟨k, v⟩ := e
    simp only [List.map_cons, String.intercalate.go, Object.doJsonString.loop, ih,
      Object.doJsonString.member, Bool.not_false, if_true, String.append_assoc]

/-- The text between the braces of an Object: the texts of the members joined by
comma and space. -/
theorem Object.doJsonString.object_loop_eq_intercalate (ms : List (String × Value)) :
    Object.doJsonString.loop true ms
      = ", ".intercalate (ms.map Object.doJsonString.member) := by
  cases ms with
  | nil => simp [String.intercalate, Object.doJsonString.loop]
  | cons e ms =>
    obtain ⟨k, v⟩ := e
    simp only [List.map_cons, String.intercalate, Object.doJsonString.loop,
      Object.doJsonString.object_loop_go, Object.doJsonString.member, Bool.not_true,
      Bool.false_eq_true, if_false, String.empty_append, String.append_assoc]

/-! ## Lemmas on `Object::find`, `constructValue` -/

theorem Object.mem_of_find : ∀ (o : Object) (k : String) (v : Value),
    Object.find o k = some v → (k, v) ∈ o
  | [], k, v, h => by simp [Object.find] at h
  | (k0, v0) :: rest, k, v, h => by
    unfold Object.find at h
    by_cases hk : k0 = k
    · rw [if_pos hk] at h
      simp only [Option.some.injEq] at h
      subst hk; subst h
      exact List.mem_cons_self _ _
    · rw [if_neg hk] at h
      exact List.mem_cons_of_mem _ (Object.mem_of_find rest k v h)

theorem Object.find_of_mem_sorted : ∀ (o : Object) (k : String) (v : Value),
    Object.Sorted o → (k, v) ∈ o → Object.find o k = some v
  | [], k, v, _, h => by simp at h
  | (k0, v0) :: rest, k, v, hs, h => by
    unfold Object.Sorted at hs
    rw [List.pairwise_cons] at hs
    unfold Object.find
    rcases List.mem_cons.1 h with heq | hmem
    · simp only [Prod.mk.injEq] at heq
      rw [if_pos heq.1.symm, heq.2]
    · have hlt : strLt k0 k = true := hs.1 (k, v) hmem
      have hne : k0 ≠ k := strLt_ne hlt
      rw [if_neg hne]
      exact Object.find_of_mem_sorted rest k v hs.2 hmem

theorem Object.find_eq_none_iff (o : Object) (k : String) :
    Object.find o k = none ↔ ∀ v, (k, v) ∉ o := by
  induction o with
  | nil => simp [Object.find]
  | cons e rest ih =>
    obtain ⟨k0, v0⟩ := e
    unfold Object.find
    by_cases hk : k0 = k
    · rw [if_pos hk]
      constructor
      · intro h
        cases h
      · intro h
        exact absurd (by rw [hk]; exact List.mem_cons_self _ _) (h v0)
    · rw [if_neg hk, ih]
      constructor
      · intro h v hv
        rcases List.mem_cons.1 hv with heq | hmem
        · simp only [Prod.mk.injEq] at heq
          exact hk heq.1.symm
        · exact h v hmem
      · intro h v hv
        exact h v (List.mem_cons_of_mem _ hv)

theorem constructValue.arrayLoop_eq_map (xs : List Variant) :
    constructValue.arrayLoop xs = xs.map constructValue := by
  induction xs with
  | nil => simp [constructValue.arrayLoop]
  | cons x xs ih => simp [constructValue.arrayLoop, ih]

theorem constructValue.objectLoop_eq_foldl (ms : List (String × Variant)) (obj : Object) :
    constructValue.objectLoop ms obj
      = (ms.map (fun e => (e.1, constructValue e.2))).foldl
          (fun o kv => Object.assign o kv.1 kv.2) obj := by
  induction ms generalizing obj with
  | nil => simp [constructValue.objectLoop]
  | cons e ms ih =>
    obtain ⟨k, x⟩ := e
    simp [constructValue.objectLoop, ih]

/-- The Object made from a keyed node is the one its converted bindings build. -/
theorem constructValue.objectLoop_eq_ofBindings (ms : List (String × Variant)) :
    constructValue.objectLoop ms []
      = Object.ofBindings (ms.map (fun e => (e.1, constructValue e.2))) := by
  rw [constructValue.objectLoop_eq_foldl, Object.ofBindings]

/-! ## Lemmas on the round trip -/

/-- No Value is equal to both of two Objects that bind one key to Numbers that differ. -/
theorem Value.not_eq_both (v : Value) (k : String) (a b : Double)
    (hab : Double.eq a b = false) :
    ¬ (Value.eq v (Value.object [(k, Value.number a)]) = true
      ∧ Value.eq v (Value.object [(k, Value.number b)]) = true) := by
  rintro ⟨h1, h2⟩
  have ht := Value.type_eq_of_eq h1
  cases v with
  | object ms =>
    rw [Value.eq_object_object] at h1 h2
    cases ms with
    | nil => rw [mapEq_nil_cons] at h1; exact Bool.noConfusion h1
    | cons e rest =>
      obtain ⟨l, x⟩ := e
      rw [mapEq_cons_cons] at h1 h2
      simp only [Bool.and_eq_true] at h1 h2
      obtain ⟨e1, hx1, he1⟩ := (Value.eq_number_iff x a).1 h1.1.2
      obtain ⟨e2, hx2, he2⟩ := (Value.eq_number_iff x b).1 h2.1.2
      rw [hx1] at hx2
      simp only [Value.number.injEq] at hx2
      subst hx2
      have h3 : Double.eq a e1 = true := by rw [Double.eq_symm]; exact he1
      rw [Double.eq_trans a e1 b h3 he2] at hab
      exact Bool.noConfusion hab
  | null => simp [Value.getType] at ht
  | bool _ => simp [Value.getType] at ht
  | number _ => simp [Value.getType] at ht
  | string _ => simp [Value.getType] at ht
  | array _ => simp [Value.getType] at ht

/-- No Value is equal to an Object that binds a key to NaN. -/
theorem Value.not_eq_nan_member (v : Value) (k : String) :
    Value.eq v (Value.object [(k, Value.number Double.nan)]) = false := by
  cases hv : Value.eq v (Value.object [(k, Value.number Double.nan)]) with
  | false => rfl
  | true =>
    exfalso
    have ht := Value.type_eq_of_eq hv
    cases v with
    | object ms =>
      rw [Value.eq_object_object] at hv
      cases ms with
      | nil => rw [mapEq_nil_cons] at hv; exact Bool.noConfusion hv
      | cons e rest =>
        obtain ⟨l, x⟩ := e
        rw [mapEq_cons_cons] at hv
        simp only [Bool.and_eq_true] at hv
        obtain ⟨e1, _, he1⟩ := (Value.eq_number_iff x Double.nan).1 hv.1.2
        cases e1 <;> simp [Double.eq] at he1
    | null => simp [Value.getType] at ht
    | bool _ => simp [Value.getType] at ht
    | number _ => simp [Value.getType] at ht
    | string _ => simp [Value.getType] at ht
    | array _ => simp [Value.getType] at ht

/-- An Object in key order is what assigning its own bindings builds. -/
theorem Object.ofBindings_of_sorted (o : Object) (hs : Object.Sorted o) :
    Object.ofBindings o = o := by
  have hnd : (o.map Prod.fst).Nodup := by
    unfold List.Nodup
    rw [List.pairwise_map]
    exact List.Pairwise.imp (fun h => strLt_ne h) hs
  obtain ⟨h1, h2⟩ := Object.ofBindings_sorted_perm o hnd
  exact Object.eq_of_sorted_of_perm _ _ h1 hs h2


/-! ## Lemmas on the loop of `write` -/

theorem TCPIPConnection.write.size_pos {tlen total : Int} (h : total < tlen) :
    1 ≤ TCPIPConnection.write.size tlen total
      ∧ TCPIPConnection.write.size tlen total ≤ 4096
      ∧ TCPIPConnection.write.size tlen total ≤ tlen - total := by
  unfold TCPIPConnection.write.size MAXBUFFSIZE
  split <;> omega

theorem sendBytes_substr (buff : String) (total size : Int) (h0 : 0 ≤ total)
    (hs : 0 ≤ size) (h : total + size ≤ buff.length) :
    sendBytes ((buff.data.drop total.toNat).take size.toNat) size
      = some (String.mk ((buff.data.drop total.toNat).take size.toNat)) := by
  unfold sendBytes
  have hl : ((buff.data.drop total.toNat).take size.toNat).length = size.toNat := by
    rw [List.length_take, List.length_drop]
    have : buff.length = buff.data.length := rfl
    omega
  rw [hl, if_pos (by omega)]

/-- The loop of `write` returns at once when nothing remains to be sent. -/
theorem TCPIPConnection.write.loop_done (fd : Int) (buff : String) (tlen : Int)
    (callback : Callback) (errorString : String) (sends : List Int) (total : Int)
    (hist : List (Nat × Nat)) (log : List Event) (h : ¬ total < tlen) :
    TCPIPConnection.write.loop fd buff tlen callback errorString sends total hist log
      = (.ok (), sends, log) := by
  cases sends <;> simp [TCPIPConnection.write.loop, h]

/-- One iteration of the loop of `write` on a result of `send`. -/
theorem TCPIPConnection.write.loop_cons (fd : Int) (buff : String) (tlen : Int)
    (callback : Callback) (errorString : String) (sendlen : Int) (rest : List Int)
    (total : Int) (hist : List (Nat × Nat)) (log : List Event)
    (h0 : 0 ≤ total) (hlt : total < tlen) (htlen : tlen ≤ buff.length) :
    TCPIPConnection.write.loop fd buff tlen callback errorString (sendlen :: rest) total
        hist log
      = if sendlen = -1 then
          (JSONRPC_EXCEPT .ECTransportError ("network send failed: " ++ errorString), rest,
            log ++ writeTrace fd buff tlen callback.isSome total [sendlen])
        else
          match callback with
          | none =>
            TCPIPConnection.write.loop fd buff tlen callback errorString rest
              (total + sendlen) hist
              (log ++ writeTrace fd buff tlen callback.isSome total [sendlen])
          | some f =>
            if !f hist (toUnsigned (total + sendlen)) (toUnsigned tlen) then
              (JSONRPC_EXCEPT .ECActionCanceled "write canceled by callback", rest,
                log ++ writeTrace fd buff tlen callback.isSome total [sendlen])
            else
              TCPIPConnection.write.loop fd buff tlen callback errorString rest
                (total + sendlen)
                (hist ++ [(toUnsigned (total + sendlen), toUnsigned tlen)])
                (log ++ writeTrace fd buff tlen callback.isSome total [sendlen]) := by
  have hsz := TCPIPConnection.write.size_pos hlt
  have hb := sendBytes_substr buff total (TCPIPConnection.write.size tlen total) h0
    (by omega) (by omega)
  have hrange : ¬ (total < 0 ∨ (buff.length : Int) < total) := by omega
  rw [TCPIPConnection.write.loop]
  simp only [hlt, if_true, hrange, if_false]
  change (match sendBytes ((buff.data.drop total.toNat).take
      (TCPIPConnection.write.size tlen total).toNat)
      (TCPIPConnection.write.size tlen total) with
    | none => _
    | some data => _) = _
  rw [hb]
  have hsize : (if MAXBUFFSIZE < tlen - total then MAXBUFFSIZE else tlen - total)
      = TCPIPConnection.write.size tlen total := by
    simp [TCPIPConnection.write.size]
  by_cases hs : sendlen = -1
  · simp [hs, writeTrace, hsize]
  · cases callback with
    | none => simp [hs, writeTrace, hsize]
    | some f =>
      by_cases hf : f hist (toUnsigned (total + sendlen)) (toUnsigned tlen) = true
      · simp [hs, hf, writeTrace, hsize]
      · simp [hs, hf, writeTrace, hsize]

theorem writeTrace_cons (fd : Int) (buff : String) (tlen : Int) (hasCallback : Bool)
    (total sendlen : Int) (rest : List Int) (hs : sendlen ≠ -1) :
    writeTrace fd buff tlen hasCallback total (sendlen :: rest)
      = writeTrace fd buff tlen hasCallback total [sendlen]
        ++ writeTrace fd buff tlen hasCallback (total + sendlen) rest := by
  simp [writeTrace, hs]

theorem writeTrace_append (fd : Int) (buff : String) (tlen : Int) (hasCallback : Bool) :
    ∀ (used rest : List Int) (total : Int), (∀ s ∈ used, s ≠ -1) →
      writeTrace fd buff tlen hasCallback total (used ++ rest)
        = writeTrace fd buff tlen hasCallback total used
          ++ writeTrace fd buff tlen hasCallback (total + used.sum) rest
  | [], rest, total, _ => by simp [writeTrace]
  | s :: used, rest, total, h => by
    have hs : s ≠ -1 := h s (List.mem_cons_self _ _)
    have ih := writeTrace_append fd buff tlen hasCallback used rest (total + s)
      (fun x hx => h x (List.mem_cons_of_mem _ hx))
    rw [List.cons_append, writeTrace_cons _ _ _ _ _ _ _ hs, ih,
      writeTrace_cons _ _ _ _ _ _ used hs, List.sum_cons, List.append_assoc, add_assoc]

theorem TCPIPConnection.write.proceeds_of_accepted (tlen : Int) :
    ∀ (used : List Int) (total : Int),
      TCPIPConnection.write.accepted tlen total used = true →
      TCPIPConnection.write.proceeds tlen total used = true
  | [], _, _ => by simp [TCPIPConnection.write.proceeds]
  | s :: used, total, h => by
    simp only [TCPIPConnection.write.accepted, Bool.and_eq_true, decide_eq_true_eq] at h
    simp only [TCPIPConnection.write.proceeds, Bool.and_eq_true, decide_eq_true_eq]
    exact ⟨⟨h.1.1.1, by omega⟩,
      TCPIPConnection.write.proceeds_of_accepted tlen used (total + s) h.2⟩

theorem TCPIPConnection.write.ne_of_proceeds (tlen : Int) :
    ∀ (used : List Int) (total : Int),
      TCPIPConnection.write.proceeds tlen total used = true → ∀ s ∈ used, s ≠ -1
  | [], _, _ => by simp
  | s :: used, total, h => by
    simp only [TCPIPConnection.write.proceeds, Bool.and_eq_true, decide_eq_true_eq] at h
    intro x hx
    rcases List.mem_cons.1 hx with hx | hx
    · omega
    · exact TCPIPConnection.write.ne_of_proceeds tlen used (total + s) h.2 x hx

/-- The loop of `write` goes through results of `send` that are no failures, on which the
callback returns true, and comes to the state after them. -/
theorem TCPIPConnection.write.loop_prefix (fd : Int) (buff : String) (tlen : Int)
    (callback : Callback) (errorString : String) (htlen : tlen ≤ buff.length) :
    ∀ (used rest : List Int) (total : Int) (hist : List (Nat × Nat)) (log : List Event),
      0 ≤ total → TCPIPConnection.write.proceeds tlen total used = true →
      Callback.accepts callback tlen total hist used = true →
      TCPIPConnection.write.loop fd buff tlen callback errorString (used ++ rest) total
          hist log
        = TCPIPConnection.write.loop fd buff tlen callback errorString rest
            (total + used.sum) (Callback.history callback tlen total hist used)
            (log ++ writeTrace fd buff tlen callback.isSome total used)
  | [], rest, total, hist, log, _, _, _ => by
    cases callback <;> simp [Callback.history, progressReports, writeTrace]
  | s :: used, rest, total, hist, log, h0, hp, ha => by
    simp only [TCPIPConnection.write.proceeds, Bool.and_eq_true, decide_eq_true_eq] at hp
    have hs : s ≠ -1 := by omega
    rw [List.cons_append,
      TCPIPConnection.write.loop_cons fd buff tlen callback errorString s (used ++ rest)
        total hist log h0 hp.1.1 htlen,
      if_neg hs, writeTrace_cons _ _ _ _ _ _ used hs, List.sum_cons, ← add_assoc,
      ← List.append_assoc]
    cases callback with
    | none =>
      simp only
      rw [TCPIPConnection.write.loop_prefix fd buff tlen none errorString htlen used rest
        (total + s) hist _ (by omega) hp.2 (by cases used <;> simp [Callback.accepts])]
      simp [Callback.history]
    | some f =>
      simp only [Callback.accepts, Bool.and_eq_true] at ha
      simp only [ha.1, Bool.not_true, Bool.false_eq_true, if_false]
      rw [TCPIPConnection.write.loop_prefix fd buff tlen (some f) errorString htlen used rest
        (total + s) _ _ (by omega) hp.2 ha.2]
      simp [Callback.history, progressReports]

/-- A run of `write` on results of `send` that let it complete: it consumes some of them,
each accepted in its range, and either returns after all bytes are sent, the callback
having returned true throughout, or is canceled by the callback on its last invocation. -/
theorem TCPIPConnection.write.loop_run (fd : Int) (buff : String) (tlen : Int)
    (callback : Callback) (errorString : String) (htlen : tlen ≤ buff.length) :
    ∀ (sends : List Int) (total : Int) (hist : List (Nat × Nat)) (log : List Event),
      0 ≤ total → TCPIPConnection.write.sendsSucceed tlen total sends = true →
      ∃ used rest, sends = used ++ rest
        ∧ TCPIPConnection.write.accepted tlen total used = true
        ∧ ((TCPIPConnection.write.loop fd buff tlen callback errorString sends total hist log
              = (.ok (), rest, log ++ writeTrace fd buff tlen callback.isSome total used)
            ∧ ¬ total + used.sum < tlen
            ∧ Callback.accepts callback tlen total hist used = true)
          ∨ (∃ f u s, callback = some f ∧ used = u ++ [s]
              ∧ Callback.accepts callback tlen total hist u = true
              ∧ f (hist ++ progressReports tlen total u) (toUnsigned (total + used.sum))
                  (toUnsigned tlen) = false
              ∧ TCPIPConnection.write.loop fd buff tlen callback errorString sends total
                  hist log
                = (JSONRPC_EXCEPT .ECActionCanceled "write canceled by callback", rest,
                    log ++ writeTrace fd buff tlen callback.isSome total used)))
  | [], total, hist, log, _, hs => by
    simp only [TCPIPConnection.write.sendsSucceed, decide_eq_true_eq] at hs
    refine ⟨[], [], rfl, rfl, Or.inl ⟨?_, by simp; omega, rfl⟩⟩
    rw [TCPIPConnection.write.loop_done _ _ _ _ _ _ _ _ _ (by omega)]
    simp [writeTrace]
  | s :: sends, total, hist, log, h0, hs => by
    by_cases hlt : total < tlen
    · simp only [TCPIPConnection.write.sendsSucceed, hlt, if_true, Bool.and_eq_true,
        decide_eq_true_eq] at hs
      have hne : s ≠ -1 := by omega
      have hstep := TCPIPConnection.write.loop_cons fd buff tlen callback errorString s sends
        total hist log h0 hlt htlen
      rw [if_neg hne] at hstep
      have hacc : ∀ used, TCPIPConnection.write.accepted tlen (total + s) used = true →
          TCPIPConnection.write.accepted tlen total (s :: used) = true := by
        intro used hu
        simp only [TCPIPConnection.write.accepted, Bool.and_eq_true, decide_eq_true_eq]
        exact ⟨⟨⟨hlt, hs.1.1⟩, hs.1.2⟩, hu⟩
      cases callback with
      | none =>
        simp only at hstep
        obtain ⟨used, rest, hsplit, hused, hres⟩ :=
          TCPIPConnection.write.loop_run fd buff tlen none errorString htlen sends
            (total + s) hist
            (log ++ writeTrace fd buff tlen (Option.isSome (none : Callback)) total [s])
            (by omega) hs.2
        refine ⟨s :: used, rest, by rw [hsplit, List.cons_append], hacc used hused, ?_⟩
        rcases hres with ⟨hloop, hsum, _⟩ | ⟨f, _, _, hf, _⟩
        · refine Or.inl ⟨?_, by rw [List.sum_cons, ← add_assoc]; exact hsum, ?_⟩
          · rw [hstep, hloop, writeTrace_cons _ _ _ _ _ _ used hne, List.append_assoc]
          · simp [Callback.accepts]
        · cases hf
      | some f =>
        simp only at hstep
        by_cases hf : f hist (toUnsigned (total + s)) (toUnsigned tlen) = true
        · simp only [hf, Bool.not_true, Bool.false_eq_true, if_false] at hstep
          obtain ⟨used, rest, hsplit, hused, hres⟩ :=
            TCPIPConnection.write.loop_run fd buff tlen (some f) errorString htlen sends
              (total + s) (hist ++ [(toUnsigned (total + s), toUnsigned tlen)])
              (log ++ writeTrace fd buff tlen (Option.isSome (some f)) total [s])
              (by omega) hs.2
          refine ⟨s :: used, rest, by rw [hsplit, List.cons_append], hacc used hused, ?_⟩
          rcases hres with ⟨hloop, hsum, hacp⟩ | ⟨g, u, x, hg, hu, hacp, hfalse, hloop⟩
          · refine Or.inl ⟨?_, by rw [List.sum_cons, ← add_assoc]; exact hsum, ?_⟩
            · rw [hstep, hloop, writeTrace_cons _ _ _ _ _ _ used hne, List.append_assoc]
            · simp only [Callback.accepts, Bool.and_eq_true]
              exact ⟨hf, hacp⟩
          · refine Or.inr ⟨g, s :: u, x, hg, by rw [hu, List.cons_append], ?_, ?_, ?_⟩
            · simp only [Callback.accepts, Bool.and_eq_true]
              exact ⟨hf, hacp⟩
            · rw [List.sum_cons, ← add_assoc]
              simpa [progressReports, List.append_assoc] using hfalse
            · rw [hstep, hloop, writeTrace_cons _ _ _ _ _ _ used hne, List.append_assoc]
        · simp only [hf, Bool.not_false, if_true] at hstep
          refine ⟨[s], sends, rfl, ?_, Or.inr ⟨f, [], s, rfl, rfl, rfl, ?_, ?_⟩⟩
          · simpa using hacc [] rfl
          · simpa [progressReports] using hf
          · exact hstep
    · refine ⟨[], s :: sends, rfl, rfl, Or.inl ⟨?_, by simpa using hlt, rfl⟩⟩
      rw [TCPIPConnection.write.loop_done _ _ _ _ _ _ _ _ _ hlt]
      simp [writeTrace]

/-! ## Lemmas on the events and the reports of a run of `write` -/

theorem toUnsigned_of_range {x : Int} (h0 : 0 ≤ x) (h1 : x < 4294967296) :
    toUnsigned x = x.toNat := by
  unfold toUnsigned
  rw [show (2 : Int) ^ 32 = 4294967296 by norm_num, Int.emod_eq_of_lt h0 h1]

theorem TCPIPConnection.write.accepted_sum (tlen : Int) :
    ∀ (used : List Int) (total : Int),
      TCPIPConnection.write.accepted tlen total used = true → total ≤ tlen →
      total + used.sum ≤ tlen ∧ (used ≠ [] → total < total + used.sum)
        ∧ (used.length : Int) ≤ used.sum ∧ ∀ s ∈ used, 1 ≤ s
  | [], total, _, h => by simp [h]
  | s :: used, total, h, hle => by
    simp only [TCPIPConnection.write.accepted, Bool.and_eq_true, decide_eq_true_eq] at h
    have hsz := TCPIPConnection.write.size_pos h.1.1.1
    have ih := TCPIPConnection.write.accepted_sum tlen used (total + s) h.2 (by omega)
    have hsum : 0 ≤ used.sum := by omega
    refine ⟨by rw [List.sum_cons]; omega, fun _ => by rw [List.sum_cons]; omega, ?_, ?_⟩
    · rw [List.sum_cons, List.length_cons]
      push_cast
      omega
    · intro x hx
      rcases List.mem_cons.1 hx with hx | hx
      · omega
      · exact ih.2.2.2 x hx

theorem sendSizes_append (xs ys : List Event) :
    sendSizes (xs ++ ys) = sendSizes xs ++ sendSizes ys := by
  induction xs with
  | nil => rfl
  | cons e xs ih => cases e <;> simp [sendSizes, ih]

theorem progressEvents_append (xs ys : List Event) :
    progressEvents (xs ++ ys) = progressEvents xs ++ progressEvents ys := by
  induction xs with
  | nil => rfl
  | cons e xs ih => cases e <;> simp [progressEvents, ih]

theorem recvSizes_append (xs ys : List Event) :
    recvSizes (xs ++ ys) = recvSizes xs ++ recvSizes ys := by
  induction xs with
  | nil => rfl
  | cons e xs ih => cases e <;> simp [recvSizes, ih]

/-- In a run of `write` with accepted sends, each request is for 1 to 4096 bytes, there is
one request for each result, and the invocations of the callback, one after each request
when there is a callback, none otherwise, have the arguments of `progressReports`. -/
theorem writeTrace_events (fd : Int) (buff : String) (tlen : Int) (hasCallback : Bool) :
    ∀ (used : List Int) (total : Int),
      TCPIPConnection.write.accepted tlen total used = true →
      (∀ size ∈ sendSizes (writeTrace fd buff tlen hasCallback total used),
          1 ≤ size ∧ size ≤ 4096)
      ∧ (sendSizes (writeTrace fd buff tlen hasCallback total used)).length = used.length
      ∧ progressEvents (writeTrace fd buff tlen hasCallback total used)
          = if hasCallback then progressReports tlen total used else []
  | [], total, _ => by cases hasCallback <;> simp [writeTrace, sendSizes, progressEvents,
      progressReports]
  | s :: used, total, h => by
    simp only [TCPIPConnection.write.accepted, Bool.and_eq_true, decide_eq_true_eq] at h
    have hsz := TCPIPConnection.write.size_pos h.1.1.1
    have hne : s ≠ -1 := by omega
    have ih := writeTrace_events fd buff tlen hasCallback used (total + s) h.2
    cases hasCallback with
    | false =>
      simp only [writeTrace, hne, if_false, Bool.false_eq_true, List.nil_append, sendSizes,
        progressEvents, List.mem_cons, List.length_cons] at ih ⊢
      refine ⟨?_, by rw [ih.2.1], ih.2.2⟩
      rintro size (hsize | hsize)
      · rw [hsize]; omega
      · exact ih.1 size hsize
    | true =>
      simp only [writeTrace, hne, if_false, if_true, List.singleton_append, sendSizes,
        progressEvents, List.mem_cons, List.length_cons, progressReports] at ih ⊢
      refine ⟨?_, by rw [ih.2.1], by rw [ih.2.2]⟩
      rintro size (hsize | hsize)
      · rw [hsize]; omega
      · exact ih.1 size hsize

/-- The reports of a run of `write` with accepted sends: the bytes sent so far grow
strictly, never exceed the total length, and the second argument is the total length. -/
theorem progressReports_accepted (tlen : Int) (hmax : tlen < 4294967296) :
    ∀ (used : List Int) (total : Int),
      TCPIPConnection.write.accepted tlen total used = true → 0 ≤ total →
      (∀ r ∈ progressReports tlen total used,
          total.toNat < r.1 ∧ r.1 ≤ r.2 ∧ r.2 = tlen.toNat)
      ∧ List.Pairwise (fun r1 r2 : Nat × Nat => r1.1 < r2.1) (progressReports tlen total used)
      ∧ (used ≠ [] → (progressReports tlen total used).getLast?
          = some ((total + used.sum).toNat, tlen.toNat))
  | [], total, _, _ => by simp [progressReports]
  | s :: used, total, h, h0 => by
    have hall := h
    simp only [TCPIPConnection.write.accepted, Bool.and_eq_true, decide_eq_true_eq] at h
    have hsz := TCPIPConnection.write.size_pos h.1.1.1
    have ih := progressReports_accepted tlen hmax used (total + s) h.2 (by omega)
    have hu1 : toUnsigned (total + s) = (total + s).toNat :=
      toUnsigned_of_range (by omega) (by omega)
    have hu2 : toUnsigned tlen = tlen.toNat := toUnsigned_of_range (by omega) hmax
    simp only [progressReports, List.mem_cons, List.pairwise_cons, hu1, hu2]
    refine ⟨?_, ⟨?_, ih.2.1⟩, ?_⟩
    · rintro r (hr | hr)
      · rw [hr]
        refine ⟨?_, ?_, rfl⟩ <;> simp only <;> omega
      · have := ih.1 r hr
        refine ⟨by omega, this.2.1, this.2.2⟩
    · intro r hr
      have := ih.1 r hr
      omega
    · intro _
      cases used with
      | nil => simp [progressReports]
      | cons x xs =>
        have := ih.2.2 (by simp)
        have e : progressReports tlen (total + s) (x :: xs)
            = (toUnsigned (total + s + x), toUnsigned tlen)
              :: progressReports tlen (total + s + x) xs := rfl
        rw [e] at this ⊢
        rw [List.getLast?_cons_cons, this, List.sum_cons (a := s), add_assoc]

/-- The bytes accepted over a run of `write` with accepted sends are the bytes of the
buffer from the first offset on, as many as the sends report. -/
theorem TCPIPConnection.write.acceptedBytes_eq (buff : String) (tlen : Int)
    (htlen : tlen ≤ buff.length) :
    ∀ (used : List Int) (total : Int),
      TCPIPConnection.write.accepted tlen total used = true → 0 ≤ total →
      TCPIPConnection.write.acceptedBytes buff tlen total used
        = (buff.data.drop total.toNat).take used.sum.toNat
  | [], total, _, _ => by simp [TCPIPConnection.write.acceptedBytes]
  | s :: used, total, h, h0 => by
    have hall := h
    simp only [TCPIPConnection.write.accepted, Bool.and_eq_true, decide_eq_true_eq] at h
    have hsz := TCPIPConnection.write.size_pos h.1.1.1
    have ih := TCPIPConnection.write.acceptedBytes_eq buff tlen htlen used (total + s) h.2
      (by omega)
    have hsum := (TCPIPConnection.write.accepted_sum tlen used (total + s) h.2 (by omega))
    rw [TCPIPConnection.write.acceptedBytes, ih, List.take_take, List.sum_cons]
    have h1 : min s.toNat (TCPIPConnection.write.size tlen total).toNat = s.toNat := by omega
    have h2 : (total + s).toNat = total.toNat + s.toNat := by omega
    have h3 : (s + used.sum).toNat = s.toNat + used.sum.toNat := by omega
    rw [h1, h2, h3, ← List.drop_drop, List.take_add]

/-! ## Lemmas on the loop of `read` -/

theorem TCPIPConnection.read.loop_failed (fd : Int) (len : Int) (callback : Callback)
    (errorString : String) (rest : List RecvResult) (total : Int) (out : String)
    (hist : List (Nat × Nat)) (log : List Event) :
    TCPIPConnection.read.loop fd len callback errorString (.failed :: rest) total out hist log
      = (JSONRPC_EXCEPT .ECTransportError ("network recv failed: " ++ errorString), rest,
          log ++ readTrace fd len callback.isSome total [.failed]) := by
  simp [TCPIPConnection.read.loop, readTrace, TCPIPConnection.read.recvlen]

/-- One iteration of the loop of `read` on a chunk that `recv` delivers. -/
theorem TCPIPConnection.read.loop_bytes (fd : Int) (len : Int) (callback : Callback)
    (errorString : String) (data : String) (rest : List RecvResult) (total : Int)
    (out : String) (hist : List (Nat × Nat)) (log : List Event) :
    TCPIPConnection.read.loop fd len callback errorString (.bytes data :: rest) total out
        hist log
      = match callback with
        | none =>
          if (data.length : Int) = MAXBUFFSIZE then
            TCPIPConnection.read.loop fd len callback errorString rest (total + data.length)
              (out ++ data) hist
              (log ++ readTrace fd len callback.isSome total [.bytes data])
          else (.ok (out ++ data), rest,
            log ++ readTrace fd len callback.isSome total [.bytes data])
        | some f =>
          if !f hist (toUnsigned (total + data.length)) (toUnsigned len) then
            (JSONRPC_EXCEPT .ECActionCanceled "read canceled by callback", rest,
              log ++ readTrace fd len callback.isSome total [.bytes data])
          else if (data.length : Int) = MAXBUFFSIZE then
            TCPIPConnection.read.loop fd len callback errorString rest (total + data.length)
              (out ++ data) (hist ++ [(toUnsigned (total + data.length), toUnsigned len)])
              (log ++ readTrace fd len callback.isSome total [.bytes data])
          else (.ok (out ++ data), rest,
            log ++ readTrace fd len callback.isSome total [.bytes data]) := by
  cases callback <;>
    simp [TCPIPConnection.read.loop, readTrace, TCPIPConnection.read.recvlen]

theorem TCPIPConnection.read.loop_nil (fd : Int) (len : Int) (callback : Callback)
    (errorString : String) (total : Int) (out : String)
    (hist : List (Nat × Nat)) (log : List Event) :
    TCPIPConnection.read.loop fd len callback errorString [] total out hist log
      = (.error .blocked, [],
          log ++ [Event.recv fd (TCPIPConnection.read.recvlen len total)]) := by
  simp [TCPIPConnection.read.loop, TCPIPConnection.read.recvlen]

theorem readTrace_cons (fd : Int) (len : Int) (hasCallback : Bool) (total : Int)
    (data : String) (rest : List RecvResult) :
    readTrace fd len hasCallback total (.bytes data :: rest)
      = readTrace fd len hasCallback total [.bytes data]
        ++ readTrace fd len hasCallback (total + data.length) rest := by
  simp [readTrace]

theorem readTrace_append (fd : Int) (len : Int) (hasCallback : Bool) :
    ∀ (chunks : List String) (rest : List RecvResult) (total : Int),
      readTrace fd len hasCallback total (chunkResults chunks ++ rest)
        = readTrace fd len hasCallback total (chunkResults chunks)
          ++ readTrace fd len hasCallback (total + (chunkLengths chunks).sum) rest
  | [], rest, total => by simp [readTrace, chunkResults, chunkLengths]
  | d :: chunks, rest, total => by
    have ih := readTrace_append fd len hasCallback chunks rest (total + d.length)
    simp only [chunkResults, chunkLengths, List.map_cons, List.cons_append, List.sum_cons]
      at ih ⊢
    rw [readTrace_cons, ih, readTrace_cons _ _ _ _ _ (List.map RecvResult.bytes chunks),
      List.append_assoc, add_assoc]

/-- The loop of `read` goes through chunks of 4096 bytes on which the callback returns
true, and comes to the state after them. -/
theorem TCPIPConnection.read.recv_loop_prefix (fd : Int) (len : Int) (callback : Callback)
    (errorString : String) :
    ∀ (full : List String) (rest : List RecvResult) (total : Int) (out : String)
      (hist : List (Nat × Nat)) (log : List Event),
      (∀ d ∈ full, (d.length : Int) = 4096) →
      Callback.accepts callback len total hist (chunkLengths full) = true →
      TCPIPConnection.read.loop fd len callback errorString (chunkResults full ++ rest)
          total out hist log
        = TCPIPConnection.read.loop fd len callback errorString rest
            (total + (chunkLengths full).sum) (full.foldl (fun o d => o ++ d) out)
            (Callback.history callback len total hist (chunkLengths full))
            (log ++ readTrace fd len callback.isSome total (chunkResults full))
  | [], rest, total, out, hist, log, _, _ => by
    cases callback <;>
      simp [Callback.history, progressReports, readTrace, chunkResults, chunkLengths]
  | d :: full, rest, total, out, hist, log, hfull, ha => by
    have hd : (d.length : Int) = MAXBUFFSIZE := hfull d (List.mem_cons_self _ _)
    have hrest : ∀ x ∈ full, (x.length : Int) = 4096 :=
      fun x hx => hfull x (List.mem_cons_of_mem _ hx)
    have hcons : chunkResults (d :: full) ++ rest
        = RecvResult.bytes d :: (chunkResults full ++ rest) := rfl
    have hlen : chunkLengths (d :: full) = (d.length : Int) :: chunkLengths full := rfl
    have htrace : readTrace fd len callback.isSome total (chunkResults (d :: full))
        = readTrace fd len callback.isSome total [.bytes d]
          ++ readTrace fd len callback.isSome (total + d.length) (chunkResults full) :=
      readTrace_cons _ _ _ _ _ _
    rw [hcons, TCPIPConnection.read.loop_bytes, hlen, htrace, List.sum_cons, ← add_assoc,
      ← List.append_assoc, List.foldl_cons]
    rw [hlen] at ha
    cases callback with
    | none =>
      simp only [hd, if_true]
      rw [TCPIPConnection.read.recv_loop_prefix fd len none errorString full rest _ _ _ _ hrest
        (by cases full <;> simp [Callback.accepts, chunkLengths])]
      simp [Callback.history]
    | some f =>
      simp only [Callback.accepts, Bool.and_eq_true, hd] at ha
      simp only [hd, ha.1, Bool.not_true, Bool.false_eq_true, if_false, if_true]
      rw [TCPIPConnection.read.recv_loop_prefix fd len (some f) errorString full rest _ _ _ _
        hrest ha.2]
      simp [Callback.history, progressReports]

theorem TCPIPConnection.read.recvlen_zero {total : Int} (h : 0 ≤ total) :
    TCPIPConnection.read.recvlen 0 total = 4096 := by
  unfold TCPIPConnection.read.recvlen MAXBUFFSIZE
  rw [if_pos (Or.inr (by omega))]

/-- With no length asked for, every request of a run of `read` is for 4096 bytes. -/
theorem readTrace_recvSizes_zero (fd : Int) (hasCallback : Bool) :
    ∀ (recvs : List RecvResult) (total : Int), 0 ≤ total →
      ∀ size ∈ recvSizes (readTrace fd 0 hasCallback total recvs), size = 4096
  | [], _, _ => by simp [readTrace, recvSizes]
  | .failed :: _, total, h0 => by
    simp [readTrace, recvSizes, TCPIPConnection.read.recvlen_zero h0]
  | .bytes d :: recvs, total, h0 => by
    have ih := readTrace_recvSizes_zero fd hasCallback recvs (total + d.length) (by omega)
    cases hasCallback <;>
      simp only [readTrace, recvSizes, if_true, if_false, Bool.false_eq_true,
        List.nil_append, List.singleton_append, List.mem_cons,
        TCPIPConnection.read.recvlen_zero h0] <;>
      rintro size (hs | hs)
    · exact hs
    · exact ih size hs
    · exact hs
    · exact ih size hs

/-- A callback that accepts whatever it is given accepts the chunks of any run. -/
theorem Callback.accepts_of_neverCancels (callback : Callback) (tlen : Int)
    (h : Callback.neverCancels callback) :
    ∀ (amounts : List Int) (total : Int) (hist : List (Nat × Nat)),
      Callback.accepts callback tlen total hist amounts = true
  | [], _, _ => rfl
  | n :: amounts, total, hist => by
    cases hc : callback with
    | none => simp [Callback.accepts]
    | some f =>
      simp only [Callback.accepts, Bool.and_eq_true]
      refine ⟨h f hc _ _ _, ?_⟩
      rw [← hc]
      exact Callback.accepts_of_neverCancels callback tlen h amounts _ _

/-! ## A callback that never cancels -/

/-- With a callback that never cancels, a library exception from the loop of `write` is
the transport error of a failed `send`. -/
theorem TCPIPConnection.write.loop_not_canceled (fd : Int) (buff : String) (tlen : Int)
    (callback : Callback) (errorString : String) (h : Callback.neverCancels callback) :
    ∀ (sends : List Int) (total : Int) (hist : List (Nat × Nat)) (log : List Event)
      (e : Exception),
      (TCPIPConnection.write.loop fd buff tlen callback errorString sends total hist log).1
        = .error (.exn e) →
      e = Exception.mk (-3004) ("network send failed: " ++ errorString)
        "TransportErrorException"
  | [], total, hist, log, e, he => by
    rw [TCPIPConnection.write.loop] at he
    by_cases h1 : total < tlen
    · simp only [h1, if_true] at he
      generalize (if tlen - total > MAXBUFFSIZE then MAXBUFFSIZE else tlen - total) = size
        at he
      by_cases h2 : total < 0 ∨ (buff.length : Int) < total
      · simp [h2] at he
      · simp only [h2, if_false] at he
        split at he <;> simp at he
    · simp [h1] at he
  | s :: sends, total, hist, log, e, he => by
    rw [TCPIPConnection.write.loop] at he
    by_cases h1 : total < tlen
    · simp only [h1, if_true] at he
      generalize (if tlen - total > MAXBUFFSIZE then MAXBUFFSIZE else tlen - total) = size
        at he
      by_cases h2 : total < 0 ∨ (buff.length : Int) < total
      · simp [h2] at he
      · simp only [h2, if_false] at he
        split at he
        · simp at he
        · by_cases h3 : s = -1
          · simp [h3, JSONRPC_EXCEPT, ExceptionFactory.create, ExceptionCodes.number,
              ExceptionCodes.typeName] at he
            exact he.symm
          · simp only [h3, if_false] at he
            cases hc : callback with
            | none =>
              rw [hc] at he
              simp only at he
              rw [← hc] at he
              exact TCPIPConnection.write.loop_not_canceled fd buff tlen callback errorString h
                sends _ _ _ e he
            | some f =>
              rw [hc] at he
              simp only [h f hc, Bool.not_true, Bool.false_eq_true, if_false] at he
              rw [← hc] at he
              exact TCPIPConnection.write.loop_not_canceled fd buff tlen callback errorString h
                sends _ _ _ e he
    · simp [h1] at he

/-- With a callback that never cancels, a library exception from the loop of `read` is
the transport error of a failed `recv`. -/
theorem TCPIPConnection.read.recv_loop_not_canceled (fd : Int) (len : Int)
    (callback : Callback) (errorString : String) (h : Callback.neverCancels callback) :
    ∀ (recvs : List RecvResult) (total : Int) (out : String) (hist : List (Nat × Nat))
      (log : List Event) (e : Exception),
      (TCPIPConnection.read.loop fd len callback errorString recvs total out hist log).1
        = .error (.exn e) →
      e = Exception.mk (-3004) ("network recv failed: " ++ errorString)
        "TransportErrorException"
  | [], total, out, hist, log, e, he => by
    rw [TCPIPConnection.read.loop_nil] at he
    simp at he
  | .failed :: recvs, total, out, hist, log, e, he => by
    rw [TCPIPConnection.read.loop_failed] at he
    simp [JSONRPC_EXCEPT, ExceptionFactory.create, ExceptionCodes.number,
      ExceptionCodes.typeName] at he
    exact he.symm
  | .bytes d :: recvs, total, out, hist, log, e, he => by
    rw [TCPIPConnection.read.loop_bytes] at he
    cases hc : callback with
    | none =>
      rw [hc] at he
      simp only at he
      split at he
      · rw [← hc] at he
        exact TCPIPConnection.read.recv_loop_not_canceled fd len callback errorString h
          recvs _ _ _ _ e he
      · simp at he
    | some f =>
      rw [hc] at he
      simp only [h f hc, Bool.not_true, Bool.false_eq_true, if_false] at he
      split at he
      · rw [← hc] at he
        exact TCPIPConnection.read.recv_loop_not_canceled fd len callback errorString h
          recvs _ _ _ _ e he
      · simp at he

/-! ## Counts of events -/

theorem progressReports_length (tlen : Int) :
    ∀ (used : List Int) (total : Int), (progressReports tlen total used).length = used.length
  | [], _ => rfl
  | s :: used, total => by
    simp [progressReports, progressReports_length tlen used (total + s)]

theorem progressReports_append (tlen : Int) :
    ∀ (u v : List Int) (total : Int),
      progressReports tlen total (u ++ v)
        = progressReports tlen total u ++ progressReports tlen (total + u.sum) v
  | [], v, total => by simp [progressReports]
  | s :: u, v, total => by
    simp [progressReports, progressReports_append tlen u v (total + s), add_assoc]

/-- In a run of `write` none of whose sends fails there is one request for each result
and, with a callback, one invocation after each. -/
theorem writeTrace_counts (fd : Int) (buff : String) (tlen : Int) (hasCallback : Bool) :
    ∀ (used : List Int) (total : Int), (∀ s ∈ used, s ≠ -1) →
      (sendSizes (writeTrace fd buff tlen hasCallback total used)).length = used.length
      ∧ progressEvents (writeTrace fd buff tlen hasCallback total used)
          = if hasCallback then progressReports tlen total used else []
  | [], total, _ => by
    cases hasCallback <;> simp [writeTrace, sendSizes, progressEvents, progressReports]
  | s :: used, total, h => by
    have hne : s ≠ -1 := h s (List.mem_cons_self _ _)
    have ih := writeTrace_counts fd buff tlen hasCallback used (total + s)
      (fun x hx => h x (List.mem_cons_of_mem _ hx))
    cases hasCallback with
    | false =>
      simp only [writeTrace, hne, if_false, Bool.false_eq_true, List.nil_append, sendSizes,
        progressEvents, List.length_cons] at ih ⊢
      exact ⟨by rw [ih.1], ih.2⟩
    | true =>
      simp only [writeTrace, hne, if_false, if_true, List.singleton_append, sendSizes,
        progressEvents, List.length_cons, progressReports] at ih ⊢
      exact ⟨by rw [ih.1], by rw [ih.2]⟩

/-- In a run of `read` on chunks there is one request for each chunk and, with a callback,
one invocation after each. -/
theorem readTrace_counts (fd : Int) (len : Int) (hasCallback : Bool) :
    ∀ (chunks : List String) (total : Int),
      (recvSizes (readTrace fd len hasCallback total (chunkResults chunks))).length
        = chunks.length
      ∧ progressEvents (readTrace fd len hasCallback total (chunkResults chunks))
          = if hasCallback then progressReports len total (chunkLengths chunks) else []
  | [], total => by
    cases hasCallback <;>
      simp [readTrace, recvSizes, progressEvents, progressReports, chunkResults, chunkLengths]
  | d :: chunks, total => by
    have ih := readTrace_counts fd len hasCallback chunks (total + d.length)
    cases hasCallback with
    | false =>
      simp only [chunkResults, chunkLengths, List.map_cons, readTrace, if_false,
        Bool.false_eq_true, List.nil_append, recvSizes, progressEvents, List.length_cons]
        at ih ⊢
      exact ⟨by rw [ih.1], ih.2⟩
    | true =>
      simp only [chunkResults, chunkLengths, List.map_cons, readTrace, if_true,
        List.cons_append, List.nil_append, recvSizes, progressEvents, List.length_cons,
        progressReports] at ih ⊢
      refine ⟨?_, ?_⟩
      · change (recvSizes (readTrace fd len true (total + d.length)
          (List.map RecvResult.bytes chunks))).length + 1 = chunks.length + 1
        rw [ih.1]
      · change (toUnsigned (total + d.length), toUnsigned len)
            :: progressEvents (readTrace fd len true (total + d.length)
              (List.map RecvResult.bytes chunks)) = _
        rw [ih.2]

/-! ## Cancellation and failure -/

theorem TCPIPConnection.write.proceeds_append (tlen : Int) :
    ∀ (u : List Int) (s : Int) (total : Int),
      TCPIPConnection.write.proceeds tlen total (u ++ [s]) = true →
      TCPIPConnection.write.proceeds tlen total u = true
        ∧ total + u.sum < tlen ∧ 0 ≤ s ∧ (0 ≤ total → 0 ≤ total + u.sum)
  | [], s, total, h => by
    simp only [List.nil_append, TCPIPConnection.write.proceeds, Bool.and_eq_true,
      decide_eq_true_eq] at h
    simp [TCPIPConnection.write.proceeds]
    omega
  | x :: u, s, total, h => by
    simp only [List.cons_append, TCPIPConnection.write.proceeds, Bool.and_eq_true,
      decide_eq_true_eq] at h
    have ih := TCPIPConnection.write.proceeds_append tlen u s (total + x) h.2
    simp only [TCPIPConnection.write.proceeds, Bool.and_eq_true, decide_eq_true_eq,
      List.sum_cons]
    refine ⟨⟨h.1, ih.1⟩, by omega, ih.2.2.1, fun h0 => ?_⟩
    have := ih.2.2.2 (by omega)
    omega

theorem TCPIPConnection.write.proceeds_sum_nonneg (tlen : Int) :
    ∀ (u : List Int) (total : Int),
      TCPIPConnection.write.proceeds tlen total u = true → 0 ≤ u.sum
  | [], _, _ => by simp
  | x :: u, total, h => by
    simp only [TCPIPConnection.write.proceeds, Bool.and_eq_true, decide_eq_true_eq] at h
    have := TCPIPConnection.write.proceeds_sum_nonneg tlen u (total + x) h.2
    rw [List.sum_cons]
    omega

theorem Callback.history_some (f : List (Nat × Nat) → Nat → Nat → Bool) (tlen total : Int)
    (hist : List (Nat × Nat)) (amounts : List Int) :
    Callback.history (some f) tlen total hist amounts
      = hist ++ progressReports tlen total amounts := rfl

/-- The callback returns false after a send: `write` is canceled. -/
theorem TCPIPConnection.write.loop_cancel (fd : Int) (buff : String) (tlen : Int)
    (f : List (Nat × Nat) → Nat → Nat → Bool) (errorString : String)
    (htlen : tlen ≤ buff.length) (u : List Int) (s : Int) (rest : List Int) (total : Int)
    (hist : List (Nat × Nat)) (log : List Event) (h0 : 0 ≤ total)
    (hp : TCPIPConnection.write.proceeds tlen total (u ++ [s]) = true)
    (ha : Callback.accepts (some f) tlen total hist u = true)
    (hf : f (hist ++ progressReports tlen total u) (toUnsigned (total + (u ++ [s]).sum))
      (toUnsigned tlen) = false) :
    TCPIPConnection.write.loop fd buff tlen (some f) errorString (u ++ s :: rest) total
        hist log
      = (.error (.exn (Exception.mk (-3005) "write canceled by callback"
            "ActionCanceledException")), rest,
          log ++ writeTrace fd buff tlen true total (u ++ [s])) := by
  obtain ⟨hpu, hlt, hs, hnn⟩ := TCPIPConnection.write.proceeds_append tlen u s total hp
  have hne : s ≠ -1 := by omega
  have hsum : total + (u ++ [s]).sum = total + u.sum + s := by
    rw [List.sum_append]
    simp [add_assoc]
  rw [hsum] at hf
  rw [TCPIPConnection.write.loop_prefix fd buff tlen (some f) errorString htlen u
      (s :: rest) total hist log h0 hpu ha,
    TCPIPConnection.write.loop_cons fd buff tlen (some f) errorString s rest _ _ _
      (hnn h0) hlt htlen,
    if_neg hne, Callback.history_some]
  simp only [hf, Bool.not_false, if_true]
  rw [writeTrace_append fd buff tlen true u [s] total
    (TCPIPConnection.write.ne_of_proceeds tlen u total hpu), List.append_assoc]
  rfl

/-- A `send` fails: `write` fails with the transport error. -/
theorem TCPIPConnection.write.loop_fail (fd : Int) (buff : String) (tlen : Int)
    (callback : Callback) (errorString : String)
    (htlen : tlen ≤ buff.length) (u : List Int) (rest : List Int) (total : Int)
    (hist : List (Nat × Nat)) (log : List Event) (h0 : 0 ≤ total)
    (hp : TCPIPConnection.write.proceeds tlen total u = true)
    (hlt : total + u.sum < tlen)
    (ha : Callback.accepts callback tlen total hist u = true) :
    TCPIPConnection.write.loop fd buff tlen callback errorString (u ++ (-1) :: rest) total
        hist log
      = (.error (.exn (Exception.mk (-3004) ("network send failed: " ++ errorString)
            "TransportErrorException")), rest,
          log ++ writeTrace fd buff tlen callback.isSome total (u ++ [-1])) := by
  have hnn := TCPIPConnection.write.proceeds_sum_nonneg tlen u total hp
  rw [TCPIPConnection.write.loop_prefix fd buff tlen callback errorString htlen u
      ((-1) :: rest) total hist log h0 hp ha,
    TCPIPConnection.write.loop_cons fd buff tlen callback errorString (-1) rest _ _ _
      (by omega) hlt htlen,
    if_pos rfl,
    writeTrace_append fd buff tlen callback.isSome u [-1] total
      (TCPIPConnection.write.ne_of_proceeds tlen u total hp), List.append_assoc]
  rfl

/-- The callback returns false after a chunk: `read` is canceled. -/
theorem TCPIPConnection.read.recv_loop_cancel (fd : Int) (len : Int)
    (f : List (Nat × Nat) → Nat → Nat → Bool) (errorString : String)
    (full : List String) (d : String) (more : List RecvResult) (total : Int) (out : String)
    (hist : List (Nat × Nat)) (log : List Event)
    (hfull : ∀ x ∈ full, (x.length : Int) = 4096)
    (ha : Callback.accepts (some f) len total hist (chunkLengths full) = true)
    (hf : f (hist ++ progressReports len total (chunkLengths full))
      (toUnsigned (total + (chunkLengths (full ++ [d])).sum)) (toUnsigned len) = false) :
    TCPIPConnection.read.loop fd len (some f) errorString
        (chunkResults full ++ RecvResult.bytes d :: more) total out hist log
      = (.error (.exn (Exception.mk (-3005) "read canceled by callback"
            "ActionCanceledException")), more,
          log ++ readTrace fd len true total (chunkResults (full ++ [d]))) := by
  have hsum : total + (chunkLengths (full ++ [d])).sum
      = total + (chunkLengths full).sum + d.length := by
    simp [chunkLengths, List.sum_append, add_assoc]
  rw [hsum] at hf
  have hres : chunkResults (full ++ [d]) = chunkResults full ++ [RecvResult.bytes d] := by
    simp [chunkResults]
  rw [TCPIPConnection.read.recv_loop_prefix fd len (some f) errorString full _ total out hist
      log hfull ha,
    TCPIPConnection.read.loop_bytes, Callback.history_some]
  simp only [hf, Bool.not_false, if_true]
  rw [hres, readTrace_append, List.append_assoc]
  rfl

/-! ## Lemmas on sequences of calls on a `MethodCall` -/

theorem MethodCall.wellShaped_iff (m : MethodCall) :
    m.WellShaped ↔ (∃ a, m.mParams = Value.array a) ∨ (∃ o, m.mParams = Value.object o) := by
  unfold MethodCall.WellShaped
  cases m.mParams <;> simp [Value.getType]

/-- Each member function leaves the parameters an Array or an Object. -/
theorem MethodCall.apply_wellShaped (m m1 : MethodCall) (op : MethodCall.Op)
    (h : m.WellShaped) (ha : m.apply op = some m1) : m1.WellShaped := by
  rw [MethodCall.wellShaped_iff] at h ⊢
  have hfin : ∀ x : MethodCall, (x = m ∨ (∃ a, x.mParams = Value.array a)
      ∨ ∃ o, x.mParams = Value.object o) →
      (∃ a, x.mParams = Value.array a) ∨ ∃ o, x.mParams = Value.object o := by
    rintro x (hx | hx)
    · rw [hx]; exact h
    · exact hx
  apply hfin
  cases op with
  | addParam val =>
    simp only [MethodCall.apply, MethodCall.addParam] at ha
    rcases h with ⟨a, hm⟩ | ⟨o, hm⟩
    · simp only [hm, Option.some.injEq] at ha
      exact Or.inr (Or.inl ⟨_, by rw [← ha]⟩)
    · by_cases hl : o.length ≠ 0
      · rw [hm] at ha
        simp only [if_pos hl, JSONRPC_EXCEPT, Option.some.injEq] at ha
        exact Or.inl ha.symm
      · rw [hm] at ha
        simp only [if_neg hl, Option.some.injEq] at ha
        exact Or.inr (Or.inl ⟨_, by rw [← ha]⟩)
  | addParamNamed name val =>
    simp only [MethodCall.apply, MethodCall.addParamNamed] at ha
    rcases h with ⟨a, hm⟩ | ⟨o, hm⟩
    · by_cases hl : a.length ≠ 0
      · rw [hm] at ha
        simp only [if_pos hl, JSONRPC_EXCEPT, Option.some.injEq] at ha
        exact Or.inl ha.symm
      · rw [hm] at ha
        simp only [if_neg hl, Option.some.injEq] at ha
        exact Or.inr (Or.inr ⟨_, by rw [← ha]⟩)
    · simp only [hm, Option.some.injEq] at ha
      exact Or.inr (Or.inr ⟨_, by rw [← ha]⟩)
  | setParam val =>
    simp only [MethodCall.apply, MethodCall.setParam, Option.some.injEq] at ha
    exact Or.inr (Or.inl ⟨_, by rw [← ha]⟩)
  | setParamNamed name val =>
    simp only [MethodCall.apply, MethodCall.setParamNamed, Option.some.injEq] at ha
    exact Or.inr (Or.inr ⟨_, by rw [← ha]⟩)
  | clear =>
    simp only [MethodCall.apply, MethodCall.clear, Option.some.injEq] at ha
    exact Or.inr (Or.inl ⟨_, by rw [← ha]⟩)
  | getParam index =>
    simp only [MethodCall.apply] at ha
    cases hg : m.getParam index with
    | ok v =>
      rw [hg] at ha
      simp only [Option.some.injEq] at ha
      exact Or.inl ha.symm
    | error f =>
      rw [hg] at ha
      cases f with
      | exn e =>
        simp only [Option.some.injEq] at ha
        exact Or.inl ha.symm
      | stdException _ => exact Option.noConfusion ha
      | undefined => exact Option.noConfusion ha
      | blocked => exact Option.noConfusion ha
  | getParamNamed name =>
    simp only [MethodCall.apply, MethodCall.getParamNamed] at ha
    rcases h with ⟨a, hm⟩ | ⟨o, hm⟩
    · simp only [hm, Value.isType, Value.getType, decide_True, if_true,
        Option.some.injEq] at ha
      exact Or.inl ha.symm
    · simp [hm, Value.isType, Value.getType, value_cast_Object_ptr] at ha
      exact Or.inr (Or.inr ⟨_, by rw [← ha]⟩)
  | setName name =>
    simp only [MethodCall.apply, MethodCall.setName, Option.some.injEq] at ha
    rcases h with ⟨a, hm⟩ | ⟨o, hm⟩
    · exact Or.inr (Or.inl ⟨a, by rw [← ha]; exact hm⟩)
    · exact Or.inr (Or.inr ⟨o, by rw [← ha]; exact hm⟩)

/-- A sequence of calls on a well-shaped `MethodCall` leaves it well-shaped. -/
theorem MethodCall.run_wellShaped : ∀ (ops : List MethodCall.Op) (m m1 : MethodCall),
    m.WellShaped → m.run ops = some m1 → m1.WellShaped
  | [], m, m1, h, hr => by
    simp only [MethodCall.run, Option.some.injEq] at hr
    subst hr
    exact h
  | op :: ops, m, m1, h, hr => by
    rw [MethodCall.run] at hr
    cases ha : m.apply op with
    | none => rw [ha] at hr; simp at hr
    | some m2 =>
      rw [ha] at hr
      exact MethodCall.run_wellShaped ops m2 m1 (MethodCall.apply_wellShaped m m2 op h ha) hr

/-! ## The log only grows -/

/-- The loop of `write` only adds events to the log. -/
theorem TCPIPConnection.write.loop_log_extends (fd : Int) (buff : String) (tlen : Int)
    (callback : Callback) (errorString : String) :
    ∀ (sends : List Int) (total : Int) (hist : List (Nat × Nat)) (log : List Event),
      ∃ ev, (TCPIPConnection.write.loop fd buff tlen callback errorString sends total hist
        log).2.2 = log ++ ev
  | [], total, hist, log => by
    rw [TCPIPConnection.write.loop]
    by_cases h1 : total < tlen
    · simp only [h1, if_true]
      generalize (if tlen - total > MAXBUFFSIZE then MAXBUFFSIZE else tlen - total) = size
      by_cases h2 : total < 0 ∨ (buff.length : Int) < total
      · exact ⟨[], by simp [h2]⟩
      · simp only [h2, if_false]
        split
        · exact ⟨[], by simp⟩
        · exact ⟨_, rfl⟩
    · exact ⟨[], by simp [h1]⟩
  | s :: sends, total, hist, log => by
    rw [TCPIPConnection.write.loop]
    by_cases h1 : total < tlen
    · simp only [h1, if_true]
      generalize (if tlen - total > MAXBUFFSIZE then MAXBUFFSIZE else tlen - total) = size
      by_cases h2 : total < 0 ∨ (buff.length : Int) < total
      · exact ⟨[], by simp [h2]⟩
      · simp only [h2, if_false]
        split
        · exact ⟨[], by simp⟩
        · rename_i data _
          by_cases h3 : s = -1
          · exact ⟨[Event.send fd data size], by simp [h3]⟩
          · simp only [h3, if_false]
            cases callback with
            | none =>
              simp only
              obtain ⟨ev, hev⟩ := TCPIPConnection.write.loop_log_extends fd buff tlen none
                errorString sends (total + s) hist (log ++ [Event.send fd data size])
              exact ⟨_, by rw [hev, List.append_assoc]⟩
            | some f =>
              simp only
              by_cases hf : f hist (toUnsigned (total + s)) (toUnsigned tlen) = true
              · simp only [hf, Bool.not_true, Bool.false_eq_true, if_false]
                obtain ⟨ev, hev⟩ := TCPIPConnection.write.loop_log_extends fd buff tlen
                  (some f) errorString sends (total + s)
                  (hist ++ [(toUnsigned (total + s), toUnsigned tlen)])
                  (log ++ [Event.send fd data size]
                    ++ [Event.progress (toUnsigned (total + s)) (toUnsigned tlen)])
                exact ⟨_, by rw [hev, List.append_assoc, List.append_assoc]⟩
              · simp only [hf, Bool.not_false, if_true]
                exact ⟨_, by rw [List.append_assoc]⟩
    · exact ⟨[], by simp [h1]⟩

/-- The loop of `read` only adds events to the log. -/
theorem TCPIPConnection.read.recv_loop_log_extends (fd : Int) (len : Int)
    (callback : Callback) (errorString : String) :
    ∀ (recvs : List RecvResult) (total : Int) (out : String) (hist : List (Nat × Nat))
      (log : List Event),
      ∃ ev, (TCPIPConnection.read.loop fd len callback errorString recvs total out hist
        log).2.2 = log ++ ev
  | [], total, out, hist, log => by
    rw [TCPIPConnection.read.loop_nil]
    exact ⟨_, rfl⟩
  | .failed :: recvs, total, out, hist, log => by
    rw [TCPIPConnection.read.loop_failed]
    exact ⟨_, rfl⟩
  | .bytes d :: recvs, total, out, hist, log => by
    rw [TCPIPConnection.read.loop_bytes]
    cases callback with
    | none =>
      simp only
      split
      · obtain ⟨ev, hev⟩ := TCPIPConnection.read.recv_loop_log_extends fd len none
          errorString recvs (total + d.length) (out ++ d) hist
          (log ++ readTrace fd len (Option.isSome (none : Callback)) total [.bytes d])
        exact ⟨_, by rw [hev, List.append_assoc]⟩
      · exact ⟨_, rfl⟩
    | some f =>
      simp only
      split
      · exact ⟨_, rfl⟩
      · split
        · obtain ⟨ev, hev⟩ := TCPIPConnection.read.recv_loop_log_extends fd len (some f)
            errorString recvs (total + d.length) (out ++ d)
            (hist ++ [(toUnsigned (total + d.length), toUnsigned len)])
            (log ++ readTrace fd len (Option.isSome (some f)) total [.bytes d])
          exact ⟨_, by rw [hev, List.append_assoc]⟩
        · exact ⟨_, rfl⟩

/-- A `write` of a non-empty buffer that returns has first asked to send the first bytes of
that buffer, at most 4096 of them. -/
theorem TCPIPConnection.write_first_send (c : TCPIPConnection) (w : World) (buff : String)
    (callback : Callback) (c2 : TCPIPConnection) (w2 : World) (hne : 0 < buff.length)
    (hw : c.write w buff 0 callback = (.ok (), c2, w2)) :
    ∃ ev, w2.log = w.log ++
      Event.send c.mSocketfd
        (String.mk (buff.data.take (TCPIPConnection.write.size buff.length 0).toNat))
        (TCPIPConnection.write.size buff.length 0) :: ev := by
  simp only [TCPIPConnection.write, if_true] at hw
  have hlt : (0 : Int) < buff.length := by omega
  cases hs : w.sendResults with
  | nil =>
    rw [hs, TCPIPConnection.write.loop] at hw
    simp only [hlt, if_true] at hw
    generalize (if (buff.length : Int) - 0 > MAXBUFFSIZE then MAXBUFFSIZE
      else (buff.length : Int) - 0) = size at hw
    have h2 : ¬ ((0 : Int) < 0 ∨ (buff.length : Int) < 0) := by omega
    simp only [h2, if_false] at hw
    split at hw <;> simp at hw
  | cons s rest =>
    rw [hs, TCPIPConnection.write.loop_cons c.mSocketfd buff buff.length callback
      w.errorString s rest 0 [] w.log (le_refl 0) hlt (le_refl _)] at hw
    by_cases h3 : s = -1
    · simp [h3, JSONRPC_EXCEPT] at hw
    · simp only [h3, if_false] at hw
      have htrace : ∃ tail, writeTrace c.mSocketfd buff buff.length callback.isSome 0 [s]
          = Event.send c.mSocketfd
              (String.mk (buff.data.take (TCPIPConnection.write.size buff.length 0).toNat))
              (TCPIPConnection.write.size buff.length 0) :: tail := by
        simp [writeTrace, h3]
      obtain ⟨tail, htail⟩ := htrace
      cases callback with
      | none =>
        simp only at hw
        obtain ⟨ev, hev⟩ := TCPIPConnection.write.loop_log_extends c.mSocketfd buff
          buff.length none w.errorString rest (0 + s) []
          (w.log ++ writeTrace c.mSocketfd buff buff.length (Option.isSome (none : Callback))
            0 [s])
        simp only [Prod.mk.injEq] at hw
        refine ⟨tail ++ ev, ?_⟩
        rw [← hw.2.2]
        simp only
        rw [hev, htail, List.append_assoc, List.cons_append]
      | some f =>
        simp only at hw
        by_cases hf : f [] (toUnsigned (0 + s)) (toUnsigned buff.length) = true
        · simp only [hf, Bool.not_true, Bool.false_eq_true, if_false] at hw
          obtain ⟨ev, hev⟩ := TCPIPConnection.write.loop_log_extends c.mSocketfd buff
            buff.length (some f) w.errorString rest (0 + s)
            ([] ++ [(toUnsigned (0 + s), toUnsigned buff.length)])
            (w.log ++ writeTrace c.mSocketfd buff buff.length
              (Option.isSome (some f)) 0 [s])
          simp only [Prod.mk.injEq] at hw
          refine ⟨tail ++ ev, ?_⟩
          rw [← hw.2.2]
          simp only
          rw [hev, htail, List.append_assoc, List.cons_append]
        · have hf2 : f [] (toUnsigned (0 + s)) (toUnsigned buff.length) = false := by
            simpa using hf
          simp only [hf2, Bool.not_false, if_true, JSONRPC_EXCEPT] at hw
          simp at hw

/-- The steps of the exchange of `call` when it returns a reply: the connection is made,
the request rendered, the rendered text written, the reply read, the connection closed. -/
theorem Requester.call.exchange_steps (mConn : TCPIPConnection) (w : World)
    (meth : MethodCall) (notification : Bool) (callback : Callback) (ret : String)
    (c' : TCPIPConnection) (w' : World)
    (hx : Requester.call.exchange mConn w meth notification callback = (.ok ret, c', w')) :
    ∃ c1 w1 text c2 w2 c3 w3, mConn.connect w = (.ok (), c1, w1)
      ∧ meth.jsonString notification = .ok text
      ∧ c1.write w1 text 0 none = (.ok (), c2, w2)
      ∧ c2.read w2 0 callback = (.ok ret, c3, w3)
      ∧ c3.disconnect w3 = (c', w') := by
  unfold Requester.call.exchange at hx
  rcases hc : mConn.connect w with ⟨r1, c1, w1⟩
  rw [hc] at hx
  cases r1 with
  | error f => simp at hx
  | ok u =>
    cases u
    simp only at hx
    cases hj : meth.jsonString notification with
    | error f => rw [hj] at hx; simp at hx
    | ok text =>
      rw [hj] at hx
      simp only at hx
      rcases hw : c1.write w1 text 0 none with ⟨r2, c2, w2⟩
      rw [hw] at hx
      cases r2 with
      | error f => simp at hx
      | ok u2 =>
        cases u2
        simp only at hx
        rcases hr : c2.read w2 0 callback with ⟨r3, c3, w3⟩
        rw [hr] at hx
        cases r3 with
        | error f => simp at hx
        | ok ret2 =>
          simp only [Prod.mk.injEq, Except.ok.injEq] at hx
          refine ⟨c1, w1, text, c2, w2, c3, w3, rfl, rfl, hw, ?_, ?_⟩
          · rw [hr, hx.1]
          · rw [← hx.2.1, ← hx.2.2]

/-- The method `read` only adds events to the log. -/
theorem TCPIPConnection.read_log_extends (c : TCPIPConnection) (w : World) (len : Int)
    (callback : Callback) : ∃ ev, (c.read w len callback).2.2.log = w.log ++ ev := by
  obtain ⟨ev, hev⟩ := TCPIPConnection.read.recv_loop_log_extends c.mSocketfd len callback
    w.errorString w.recvResults 0 "" [] w.log
  exact ⟨ev, by simp only [TCPIPConnection.read, hev]⟩

/-- The text of an Object is not empty. -/
theorem Object.jsonString_length_pos (o : Object) : 0 < (Object.jsonString o).length := by
  rw [Object.jsonString, Value.jsonString, String.length_append, String.length_append]
  have : ("\x7b" : String).length = 1 := rfl
  omega

/-- When the exchange of `call` returns a reply, the first request on the socket after the
connection was to send the first bytes, at most 4096, of the rendered request. -/
theorem Requester.call.exchange_sends_rendering (mConn : TCPIPConnection) (w : World)
    (meth : MethodCall) (notification : Bool) (callback : Callback) (ret : String)
    (c' : TCPIPConnection) (w' : World)
    (hx : Requester.call.exchange mConn w meth notification callback = (.ok ret, c', w')) :
    ∃ c1 w1 method c2 w2 ev, mConn.connect w = (.ok (), c1, w1)
      ∧ MethodCall.jsonString.method meth notification = .ok method
      ∧ c1.write w1 (Object.jsonString method) 0 none = (.ok (), c2, w2)
      ∧ w'.log = w1.log ++
          Event.send c1.mSocketfd
            (String.mk ((Object.jsonString method).data.take
              (TCPIPConnection.write.size (Object.jsonString method).length 0).toNat))
            (TCPIPConnection.write.size (Object.jsonString method).length 0) :: ev := by
  obtain ⟨c1, w1, text, c2, w2, c3, w3, hc, hj, hw, hr, hd⟩ :=
    Requester.call.exchange_steps mConn w meth notification callback ret c' w' hx
  cases hm : MethodCall.jsonString.method meth notification with
  | error f => simp [MethodCall.jsonString, hm, bind, Except.bind] at hj
  | ok method =>
    have htext : text = Object.jsonString method := by
      simp [MethodCall.jsonString, hm, bind, Except.bind, pure, Except.pure] at hj
      exact hj.symm
    subst htext
    obtain ⟨ev1, hev1⟩ := TCPIPConnection.write_first_send c1 w1 _ none c2 w2
      (Object.jsonString_length_pos method) hw
    obtain ⟨ev2, hev2⟩ := TCPIPConnection.read_log_extends c2 w2 0 callback
    rw [hr] at hev2
    simp only at hev2
    have hlog : w'.log = w3.log ++ [Event.close c3.mSocketfd] := by
      have h2 : (c3.disconnect w3).2 = w' := by rw [hd]
      rw [← h2]
      rfl
    refine ⟨c1, w1, method, c2, w2, ev1 ++ ev2 ++ [Event.close c3.mSocketfd], hc, rfl, hw, ?_⟩
    rw [hlog, hev2, hev1]
    simp

/-! ## The text of a plain Value is a JSON text of its node -/

/-- The conversion of the node that the text of a Number denotes is equal to the Number,
when the text denotes its value. -/
theorem Double.eq_numberNode (d : Double) (h : d.printsExactly = true) :
    Value.eq (constructValue d.toNode) (Value.number d) = true := by
  cases d with
  | nan => simp [Double.printsExactly] at h
  | posInf => simp [Double.printsExactly] at h
  | negInf => simp [Double.printsExactly] at h
  | negZero =>
    simp only [Double.printsExactly, Double.toNode] at h ⊢
    cases hi : jsonInt (Double.toStream Double.negZero).data with
    | some i =>
      simp only [hi, decide_eq_true_eq] at h
      simp [constructValue, Value.eq_number_number, Double.eq, Double.ofInt, Double.mag, h]
    | none =>
      simp only [hi] at h ⊢
      cases hr : jsonReal (Double.toStream Double.negZero).data with
      | some q =>
        simp only [hr, decide_eq_true_eq] at h
        simp [constructValue, Value.eq_number_number, Double.eq, Double.mag, h]
      | none => simp [hr] at h
  | fin x =>
    simp only [Double.printsExactly, Double.toNode] at h ⊢
    cases hi : jsonInt (Double.toStream (Double.fin x)).data with
    | some i =>
      simp only [hi, decide_eq_true_eq] at h
      simp [constructValue, Value.eq_number_number, Double.eq, Double.ofInt, Double.mag, h]
    | none =>
      simp only [hi] at h ⊢
      cases hr : jsonReal (Double.toStream (Double.fin x)).data with
      | some q =>
        simp only [hr, decide_eq_true_eq] at h
        simp [constructValue, Value.eq_number_number, Double.eq, Double.mag, h]
      | none => simp [hr] at h

/-- The text written for a Number is a JSON text of its node, when it denotes its value. -/
theorem Double.numberText_toNode (d : Double) (h : d.printsExactly = true) :
    JsonText d.toNode d.toStream.data := by
  have key : ∀ t : List Char,
      (match jsonInt t with
        | some _ => True
        | none => match jsonReal t with
          | some _ => True
          | none => False) →
      JsonText (match jsonInt t with
        | some i => Variant.int i
        | none => match jsonReal t with
          | some q => Variant.double (Double.fin q)
          | none => Variant.other) t := by
    intro t ht
    cases hi : jsonInt t with
    | some i => simp only [JsonText, hi]
    | none =>
      simp only [hi] at ht ⊢
      cases hr : jsonReal t with
      | some q => simp only [JsonText, hr]; exact ⟨q, rfl, rfl⟩
      | none => simp [hr] at ht
  unfold Double.toNode
  apply key
  cases d with
  | nan => simp [Double.printsExactly] at h
  | posInf => simp [Double.printsExactly] at h
  | negInf => simp [Double.printsExactly] at h
  | negZero =>
    simp only [Double.printsExactly] at h
    cases hi : jsonInt (Double.toStream Double.negZero).data with
    | some i => trivial
    | none =>
      simp only [hi] at h ⊢
      cases hr : jsonReal (Double.toStream Double.negZero).data with
      | some q => trivial
      | none => simp [hr] at h
  | fin x =>
    simp only [Double.printsExactly] at h
    cases hi : jsonInt (Double.toStream (Double.fin x)).data with
    | some i => trivial
    | none =>
      simp only [hi] at h ⊢
      cases hr : jsonReal (Double.toStream (Double.fin x)).data with
      | some q => trivial
      | none => simp [hr] at h

/-- A character other than the double quote is written by `String::escapeString` the way
a JSON text writes it. -/
theorem JsonChar.of_image (c : Char) (h : (c != dquote) = true) :
    JsonChar c (String.escapeString.image c) := by
  simp only [bne_iff_ne, ne_eq] at h
  unfold String.escapeString.image JsonChar
  rw [if_neg h]
  by_cases h1 : c = backslash
  · rw [if_pos h1]; exact Or.inr (Or.inr (Or.inl ⟨h1, rfl⟩))
  rw [if_neg h1]
  by_cases h2 : c = '/'
  · rw [if_pos h2]; exact Or.inr (Or.inr (Or.inr (Or.inl ⟨h2, rfl⟩)))
  rw [if_neg h2]
  by_cases h3 : c = Char.ofNat 8
  · rw [if_pos h3]; exact Or.inr (Or.inr (Or.inr (Or.inr (Or.inl ⟨h3, rfl⟩))))
  rw [if_neg h3]
  by_cases h4 : c = Char.ofNat 12
  · rw [if_pos h4]; exact Or.inr (Or.inr (Or.inr (Or.inr (Or.inr (Or.inl ⟨h4, rfl⟩)))))
  rw [if_neg h4]
  by_cases h5 : c = Char.ofNat 10
  · rw [if_pos h5]
    exact Or.inr (Or.inr (Or.inr (Or.inr (Or.inr (Or.inr (Or.inl ⟨h5, rfl⟩))))))
  rw [if_neg h5]
  by_cases h6 : c = Char.ofNat 13
  · rw [if_pos h6]
    exact Or.inr (Or.inr (Or.inr (Or.inr (Or.inr (Or.inr (Or.inr (Or.inl ⟨h6, rfl⟩)))))))
  rw [if_neg h6]
  by_cases h7 : c = Char.ofNat 9
  · rw [if_pos h7]
    exact Or.inr (Or.inr (Or.inr (Or.inr (Or.inr (Or.inr (Or.inr (Or.inr ⟨h7, rfl⟩)))))))
  rw [if_neg h7]
  exact Or.inl ⟨h, h1, rfl⟩

/-- The escaped text of a plain string is the body of a JSON string that stands for it. -/
theorem JsonStringBody.of_escapeString (s : String) (h : String.jsonPlain s = true) :
    JsonStringBody s.data (String.escapeString s).data := by
  rw [String.escapeString_eq_flatMap]
  unfold String.jsonPlain at h
  generalize s.data = l at h
  show JsonStringBody l (l.flatMap String.escapeString.image)
  induction l with
  | nil => simp [JsonStringBody]
  | cons c cs ih =>
    rw [List.all_cons, Bool.and_eq_true] at h
    rw [JsonStringBody]
    exact ⟨String.escapeString.image c, cs.flatMap String.escapeString.image,
      JsonChar.of_image c h.1, by simp [List.flatMap_cons], ih h.2⟩

mutual
/-- The text `jsonString` writes for a plain Value is a JSON text of its node. -/
theorem Value.jsonText_toNode : ∀ v : Value, v.plain = true →
    JsonText v.toNode v.jsonString.data
  | .null, _ => by simp [Value.toNode, Value.jsonString, JsonText]
  | .bool b, _ => by cases b <;> simp [Value.toNode, Value.jsonString, JsonText]
  | .number d, h => by
    rw [Value.plain] at h
    rw [Value.toNode, Value.jsonString]
    exact Double.numberText_toNode d h
  | .string s, h => by
    rw [Value.plain] at h
    rw [Value.toNode, Value.jsonString, JsonText]
    exact ⟨(String.escapeString s).data, by simp [String.data_append, dquote],
      JsonStringBody.of_escapeString s h⟩
  | .array xs, h => by
    rw [Value.plain] at h
    rw [Value.toNode, Value.jsonString, JsonText]
    exact ⟨(Array.doJsonString.loop true xs).data, by simp [String.data_append],
      Value.jsonText_toNode_elements true xs h⟩
  | .object ms, h => by
    rw [Value.plain] at h
    rw [Value.toNode, Value.jsonString, JsonText]
    exact ⟨(Object.doJsonString.loop true ms).data,
      by simp [String.data_append, lbrace, rbrace],
      Value.jsonText_toNode_members true ms h⟩
/-- The text written for the elements of a plain vector is that of the nodes of the
elements. -/
theorem Value.jsonText_toNode_elements : ∀ (first : Bool) (xs : List Value),
    Value.plain.elements xs = true →
    JsonText.elements first (Value.toNode.elements xs) (Array.doJsonString.loop first xs).data
  | _, [], _ => by simp [Value.toNode.elements, Array.doJsonString.loop, JsonText.elements]
  | first, x :: xs, h => by
    rw [Value.plain.elements, Bool.and_eq_true] at h
    rw [Value.toNode.elements, Array.doJsonString.loop, JsonText.elements]
    refine ⟨x.jsonString.data, (Array.doJsonString.loop false xs).data, ?_,
      Value.jsonText_toNode x h.1, Value.jsonText_toNode_elements false xs h.2⟩
    cases first <;> simp [String.data_append]
/-- The text written for the members of a plain map is that of the entries of its node. -/
theorem Value.jsonText_toNode_members : ∀ (first : Bool) (ms : List (String × Value)),
    Value.plain.members ms = true →
    JsonText.members first (Value.toNode.members ms) (Object.doJsonString.loop first ms).data
  | _, [], _ => by simp [Value.toNode.members, Object.doJsonString.loop, JsonText.members]
  | first, (k, x) :: ms, h => by
    rw [Value.plain.members, Bool.and_eq_true, Bool.and_eq_true] at h
    rw [Value.toNode.members, Object.doJsonString.loop, JsonText.members]
    refine ⟨(String.escapeString k).data, x.jsonString.data,
      (Object.doJsonString.loop false ms).data, ?_,
      JsonStringBody.of_escapeString k h.1.1, Value.jsonText_toNode x h.1.2,
      Value.jsonText_toNode_members false ms h.2⟩
    cases first <;> simp [String.data_append, dquote]
end

/-! ## The conversion of the node of a plain Value is equal to the Value -/

mutual
/-- The conversion of the node of a plain, ordered Value is equal to it under `==`. -/
theorem Value.eq_constructValue_toNode : ∀ v : Value, v.plain = true → v.Ordered →
    Value.eq (constructValue v.toNode) v = true
  | .null, _, _ => by simp [Value.toNode, constructValue, Value.eq_null_null]
  | .bool b, _, _ => by simp [Value.toNode, constructValue, Value.eq_bool_bool]
  | .number d, h, _ => by
    rw [Value.plain] at h
    rw [Value.toNode]
    exact Double.eq_numberNode d h
  | .string s, _, _ => by simp [Value.toNode, constructValue, Value.eq_string_string]
  | .array xs, h, ho => by
    rw [Value.plain] at h
    rw [Value.Ordered] at ho
    rw [Value.toNode, constructValue, Value.eq_array_array]
    exact Value.eq_constructValue_toNode_elements xs h ho
  | .object ms, h, ho => by
    rw [Value.plain] at h
    rw [Value.Ordered] at ho
    obtain ⟨hk, he⟩ := Value.eq_constructValue_toNode_members ms h ho.2
    have hs : Object.Sorted
        ((Value.toNode.members ms).map (fun e => (e.1, constructValue e.2))) := by
      have h1 : List.Pairwise (fun a b => strLt a b = true) (ms.map Prod.fst) := by
        rw [List.pairwise_map]; exact ho.1
      rw [← hk, List.pairwise_map] at h1
      exact h1
    rw [Value.toNode, constructValue, constructValue.objectLoop_eq_ofBindings,
      Object.ofBindings_of_sorted _ hs, Value.eq_object_object]
    exact he
/-- The conversions of the nodes of plain, ordered elements are equal to the elements. -/
theorem Value.eq_constructValue_toNode_elements : ∀ xs : List Value,
    Value.plain.elements xs = true → Value.Ordered.elements xs →
    vectorEq (constructValue.arrayLoop (Value.toNode.elements xs)) xs = true
  | [], _, _ => by simp [Value.toNode.elements, constructValue.arrayLoop, vectorEq_nil_nil]
  | x :: xs, h, ho => by
    rw [Value.plain.elements, Bool.and_eq_true] at h
    rw [Value.Ordered.elements] at ho
    rw [Value.toNode.elements, constructValue.arrayLoop, vectorEq_cons_cons,
      Value.eq_constructValue_toNode x h.1 ho.1,
      Value.eq_constructValue_toNode_elements xs h.2 ho.2]
    rfl
/-- The converted entries of the node of a plain, ordered map have its keys, in order, and
are equal to its entries. -/
theorem Value.eq_constructValue_toNode_members : ∀ ms : List (String × Value),
    Value.plain.members ms = true → Value.Ordered.members ms →
    ((Value.toNode.members ms).map (fun e => (e.1, constructValue e.2))).map Prod.fst
        = ms.map Prod.fst
      ∧ mapEq ((Value.toNode.members ms).map (fun e => (e.1, constructValue e.2))) ms = true
  | [], _, _ => by simp [Value.toNode.members, mapEq_nil_nil]
  | (k, x) :: ms, h, ho => by
    rw [Value.plain.members, Bool.and_eq_true, Bool.and_eq_true] at h
    rw [Value.Ordered.members] at ho
    obtain ⟨hk, he⟩ := Value.eq_constructValue_toNode_members ms h.2 ho.2
    rw [Value.toNode.members, List.map_cons, List.map_cons, List.map_cons, hk,
      mapEq_cons_cons, Value.eq_constructValue_toNode x h.1.2 ho.1, he]
    simp
end

/-! ## Reading back a concrete text -/

/-- The body of a JSON string ends at the first double quote that no backslash precedes:
when the text after the opening quote starts with characters that are neither a double
quote nor a backslash and then has a double quote, these characters are the body and the
string. -/
theorem JsonStringBody.scan : ∀ (p : List Char), (∀ c ∈ p, c ≠ dquote ∧ c ≠ backslash) →
    ∀ (cs kb rest q : List Char), JsonStringBody cs kb →
    kb ++ dquote :: rest = p ++ dquote :: q → cs = p ∧ kb = p ∧ rest = q
  | [], _, cs, kb, rest, q, hb, he => by
    cases cs with
    | nil =>
      rw [JsonStringBody] at hb
      subst hb
      simp only [List.nil_append, List.cons.injEq, true_and] at he
      exact ⟨rfl, rfl, he⟩
    | cons c cs =>
      rw [JsonStringBody] at hb
      obtain ⟨r, rest1, hc, hkb, _⟩ := hb
      subst hkb
      exfalso
      rcases hc with ⟨h1, _, hr⟩ | ⟨_, hr⟩ | ⟨_, hr⟩ | ⟨_, hr⟩ | ⟨_, hr⟩ | ⟨_, hr⟩
        | ⟨_, hr⟩ | ⟨_, hr⟩ | ⟨_, hr⟩
      · subst hr
        simp only [List.nil_append, List.cons_append, List.cons.injEq] at he
        exact h1 he.1
      all_goals
        subst hr
        simp only [List.nil_append, List.cons_append, List.cons.injEq] at he
        exact absurd he.1 (by decide)
  | a :: p, hp, cs, kb, rest, q, hb, he => by
    have ha := hp a (List.mem_cons_self a p)
    cases cs with
    | nil =>
      rw [JsonStringBody] at hb
      subst hb
      simp only [List.nil_append, List.cons_append, List.cons.injEq] at he
      exact absurd he.1.symm ha.1
    | cons c cs =>
      rw [JsonStringBody] at hb
      obtain ⟨r, rest1, hc, hkb, hrest⟩ := hb
      subst hkb
      rcases hc with ⟨_, _, hr⟩ | ⟨_, hr⟩ | ⟨_, hr⟩ | ⟨_, hr⟩ | ⟨_, hr⟩ | ⟨_, hr⟩
        | ⟨_, hr⟩ | ⟨_, hr⟩ | ⟨_, hr⟩
      · subst hr
        simp only [List.nil_append, List.cons_append, List.cons.injEq] at he
        obtain ⟨h1, h2, h3⟩ := JsonStringBody.scan p
          (fun x hx => hp x (List.mem_cons_of_mem a hx)) cs rest1 rest q hrest he.2
        subst h1
        exact ⟨by rw [he.1], by rw [he.1, h2]; rfl, h3⟩
      all_goals
        subst hr
        simp only [List.nil_append, List.cons_append, List.cons.injEq] at he
        exact absurd he.1.symm ha.2

/-- The text of the members after the first is empty, for no member, or starts with a
comma. -/
theorem JsonText.members_false (ms : List (String × Variant)) (t : List Char)
    (h : JsonText.members false ms t) : (ms = [] ∧ t = []) ∨ ',' ∈ t := by
  cases ms with
  | nil => rw [JsonText.members] at h; exact Or.inl ⟨rfl, h⟩
  | cons e ms =>
    obtain ⟨k, x⟩ := e
    rw [JsonText.members] at h
    obtain ⟨kb, t1, t2, ht, _⟩ := h
    subst ht
    exact Or.inr (by simp)

/-- The members whose text is one quoted key without double quote and backslash, a colon,
a space and a text without comma are one member with that key whose value has that text. -/
theorem JsonText.members_single (p v : List Char)
    (hp : ∀ c ∈ p, c ≠ dquote ∧ c ≠ backslash) (hv : ',' ∉ v)
    (ms : List (String × Variant))
    (hm : JsonText.members true ms (dquote :: (p ++ dquote :: ':' :: ' ' :: v))) :
    ∃ x, ms = [(String.mk p, x)] ∧ JsonText x v := by
  cases ms with
  | nil => rw [JsonText.members] at hm; exact absurd hm (by simp)
  | cons e ms =>
    obtain ⟨k, x⟩ := e
    rw [JsonText.members] at hm
    obtain ⟨kb, t1, t2, ht, hkb, hx, hms⟩ := hm
    simp only [if_true, List.nil_append, List.cons_append, List.append_assoc,
      List.cons.injEq, true_and] at ht
    obtain ⟨hk, _, hrest⟩ := JsonStringBody.scan p hp k.data kb
      (':' :: ' ' :: (t1 ++ t2)) (':' :: ' ' :: v) hkb ht.symm
    simp only [List.cons.injEq, true_and] at hrest
    have hkey : k = String.mk p := by
      cases k
      simp only at hk
      subst hk
      rfl
    rcases JsonText.members_false ms t2 hms with ⟨h1, h2⟩ | h3
    · subst h1 h2
      rw [List.append_nil] at hrest
      subst hrest
      exact ⟨x, by rw [hkey], hx⟩
    · exact absurd (hrest ▸ List.mem_append_right t1 h3) hv

/-- A text between braces denotes a keyed node at most: a tree it denotes is a keyed node
whose members have the text between the braces. -/
theorem JsonText.of_braces (node : Variant) (body : List Char)
    (hint : jsonInt (lbrace :: (body ++ [rbrace])) = none)
    (hreal : jsonReal (lbrace :: (body ++ [rbrace])) = none)
    (h : JsonText node (lbrace :: (body ++ [rbrace]))) :
    ∃ ms, node = Variant.object ms ∧ JsonText.members true ms body := by
  cases node with
  | empty => simp [JsonText, lbrace] at h
  | bool b => cases b <;> simp [JsonText, lbrace] at h
  | int i =>
    rw [JsonText, hint] at h
    exact Option.noConfusion h
  | double d =>
    rw [JsonText] at h
    obtain ⟨q, hq, _⟩ := h
    rw [hreal] at hq
    exact Option.noConfusion hq
  | string s =>
    rw [JsonText] at h
    obtain ⟨b, hb, _⟩ := h
    simp only [List.cons.injEq] at hb
    exact absurd hb.1 (by decide)
  | array xs =>
    rw [JsonText] at h
    obtain ⟨b, hb, _⟩ := h
    simp only [List.cons.injEq] at hb
    exact absurd hb.1 (by decide)
  | other => rw [JsonText] at h; exact h.elim
  | object ms =>
    rw [JsonText] at h
    obtain ⟨b, hb, hm⟩ := h
    simp only [List.cons.injEq, true_and] at hb
    have hbody := List.append_inj_left' hb rfl
    subst hbody
    exact ⟨ms, rfl, hm⟩

/-- The one number the text `1` denotes is the integer 1. -/
theorem JsonText.of_one (x : Variant) (h : JsonText x ['1']) : x = Variant.int 1 := by
  cases x with
  | empty => simp [JsonText] at h
  | bool b => cases b <;> simp [JsonText] at h
  | int i =>
    rw [JsonText] at h
    have h1 : jsonInt ['1'] = some 1 := by decide
    rw [h1] at h
    rw [Option.some.inj h]
  | double d =>
    rw [JsonText] at h
    obtain ⟨q, hq, _⟩ := h
    have h1 : jsonReal ['1'] = none := by decide
    rw [h1] at hq
    exact Option.noConfusion hq
  | string s =>
    rw [JsonText] at h
    obtain ⟨body, hb, _⟩ := h
    simp only [List.cons.injEq] at hb
    exact absurd hb.1 (by decide)
  | array xs =>
    rw [JsonText] at h
    obtain ⟨body, hb, _⟩ := h
    simp only [List.cons.injEq] at hb
    exact absurd hb.1 (by decide)
  | object ms =>
    rw [JsonText] at h
    obtain ⟨body, hb, _⟩ := h
    simp only [List.cons.injEq] at hb
    exact absurd hb.1 (by decide)
  | other => rw [JsonText] at h; exact h.elim

/-- The one tree that the text of `sampleObjectOne` denotes is `sampleObjectOneNode`. -/
theorem JsonText.of_sampleObjectOne (node : Variant)
    (h : JsonText node (Object.jsonString sampleObjectOne).data) :
    sampleObjectOneNode = node := by
  have hT : (Object.jsonString sampleObjectOne).data
      = lbrace :: ((dquote :: (['a'] ++ dquote :: ':' :: ' ' :: ['1'])) ++ [rbrace]) := by
    decide
  rw [hT] at h
  obtain ⟨ms, hn, hm⟩ := JsonText.of_braces node _ (by decide) (by decide) h
  obtain ⟨x, hms, hx⟩ := JsonText.members_single ['a'] ['1'] (by decide) (by decide) ms hm
  rw [hn, hms, JsonText.of_one x hx]
  rfl

/-- The text written for the Object binding `a` to positive infinity denotes no tree. -/
theorem JsonText.not_infObject (node : Variant) :
    ¬ JsonText node (Object.jsonString infObject).data := by
  intro h
  have hT : (Object.jsonString infObject).data
      = lbrace :: ((dquote :: (['a'] ++ dquote :: ':' :: ' ' :: ['i', 'n', 'f'])) ++ [rbrace]) := by
    decide
  rw [hT] at h
  obtain ⟨ms, _, hm⟩ := JsonText.of_braces node _ (by decide) (by decide) h
  obtain ⟨x, _, hx⟩ :=
    JsonText.members_single ['a'] ['i', 'n', 'f'] (by decide) (by decide) ms hm
  cases x with
  | empty => simp [JsonText] at hx
  | bool b => cases b <;> simp [JsonText] at hx
  | int i =>
    rw [JsonText] at hx
    have h1 : jsonInt ['i', 'n', 'f'] = none := by decide
    rw [h1] at hx
    exact Option.noConfusion hx
  | double d =>
    rw [JsonText] at hx
    obtain ⟨q, hq, _⟩ := hx
    have h1 : jsonReal ['i', 'n', 'f'] = none := by decide
    rw [h1] at hq
    exact Option.noConfusion hq
  | string s =>
    rw [JsonText] at hx
    obtain ⟨b, hb, _⟩ := hx
    simp only [List.cons.injEq] at hb
    exact absurd hb.1 (by decide)
  | array xs =>
    rw [JsonText] at hx
    obtain ⟨b, hb, _⟩ := hx
    simp only [List.cons.injEq] at hb
    exact absurd hb.1 (by decide)
  | object ms =>
    rw [JsonText] at hx
    obtain ⟨b, hb, _⟩ := hx
    simp only [List.cons.injEq] at hb
    exact absurd hb.1 (by decide)
  | other => rw [JsonText] at hx; exact hx.elim

/-- The text written for the Object binding `a` to the String of one double quote, in
which the backslash written before the quote is itself doubled, denotes no tree. -/
theorem JsonText.not_quoteObject (node : Variant) :
    ¬ JsonText node (Object.jsonString quoteObject).data := by
  intro h
  have hT : (Object.jsonString quoteObject).data
      = lbrace :: ((dquote :: (['a'] ++ dquote :: ':' :: ' ' ::
          [dquote, backslash, backslash, dquote, dquote])) ++ [rbrace]) := by
    decide
  rw [hT] at h
  obtain ⟨ms, _, hm⟩ := JsonText.of_braces node _ (by decide) (by decide) h
  obtain ⟨x, _, hx⟩ := JsonText.members_single ['a']
    [dquote, backslash, backslash, dquote, dquote] (by decide) (by decide) ms hm
  cases x with
  | empty => simp [JsonText, dquote] at hx
  | bool b => cases b <;> simp [JsonText, dquote] at hx
  | int i =>
    rw [JsonText] at hx
    have h1 : jsonInt [dquote, backslash, backslash, dquote, dquote] = none := by decide
    rw [h1] at hx
    exact Option.noConfusion hx
  | double d =>
    rw [JsonText] at hx
    obtain ⟨q, hq, _⟩ := hx
    have h1 : jsonReal [dquote, backslash, backslash, dquote, dquote] = none := by decide
    rw [h1] at hq
    exact Option.noConfusion hq
  | array xs =>
    rw [JsonText] at hx
    obtain ⟨b, hb, _⟩ := hx
    simp only [List.cons.injEq] at hb
    exact absurd hb.1 (by decide)
  | object ms =>
    rw [JsonText] at hx
    obtain ⟨b, hb, _⟩ := hx
    simp only [List.cons.injEq] at hb
    exact absurd hb.1 (by decide)
  | other => rw [JsonText] at hx; exact hx.elim
  | string s =>
    rw [JsonText] at hx
    obtain ⟨b, hb, hs⟩ := hx
    simp only [List.cons.injEq, true_and] at hb
    have hb2 : [backslash, backslash, dquote] ++ [dquote] = b ++ [dquote] := hb
    have hbody := List.append_inj_left' hb2 rfl
    subst hbody
    generalize s.data = cs at hs
    cases cs with
    | nil => rw [JsonStringBody] at hs; exact absurd hs (by simp)
    | cons c cs =>
      rw [JsonStringBody] at hs
      obtain ⟨r, rest, hc, hr, hrest⟩ := hs
      have hrest2 : rest = [dquote] := by
        rcases hc with ⟨_, h2, e⟩ | ⟨_, e⟩ | ⟨_, e⟩ | ⟨_, e⟩ | ⟨_, e⟩ | ⟨_, e⟩
          | ⟨_, e⟩ | ⟨_, e⟩ | ⟨_, e⟩
        · subst e
          simp only [List.cons_append, List.nil_append, List.cons.injEq] at hr
          exact absurd hr.1.symm h2
        all_goals
          subst e
          simp only [List.cons_append, List.nil_append, List.cons.injEq] at hr
          exact hr.2.2.symm
      subst hrest2
      cases cs with
      | nil => rw [JsonStringBody] at hrest; exact absurd hrest (by simp)
      | cons c2 cs2 =>
        rw [JsonStringBody] at hrest
        obtain ⟨r2, rest2, hc2, hr2, _⟩ := hrest
        rcases hc2 with ⟨h1, _, e⟩ | ⟨_, e⟩ | ⟨_, e⟩ | ⟨_, e⟩ | ⟨_, e⟩ | ⟨_, e⟩
          | ⟨_, e⟩ | ⟨_, e⟩ | ⟨_, e⟩
        · subst e
          simp only [List.cons_append, List.nil_append, List.cons.injEq] at hr2
          exact absurd hr2.1.symm h1
        all_goals
          subst e
          simp only [List.cons_append, List.nil_append, List.cons.injEq] at hr2
          exact absurd hr2.1 (by decide)
/-! ## Requester::call: the checks on the reply -/

/-- C1: whenever the exchange returned a non-empty reply that decodes to an Object with
`jsonrpc` equal to String "2.0", and the reply has no member `id` or its `id` is not a
Number equal to the request's id (an id given as a String included), `Requester::call`
throws a `ParseErrorException` with code -32700 and returns no Response. -/
theorem Requester.call_id_mismatch_fails (jsonParse : JsonParse) (mConn : TCPIPConnection)
    (w : World) (meth : MethodCall) (notification : Bool) (callback : Callback)
    (ret : String) (c' : TCPIPConnection) (w' : World) (o : Object)
    (hx : Requester.call.exchange mConn w meth notification callback = (.ok ret, c', w'))
    (hne : ret ≠ "")
    (hp : parse jsonParse ret = .ok (Value.object o))
    (hv : Object.find o "jsonrpc" = some (Value.string "2.0"))
    (hid : Object.find o "id" = none ∨
      ∀ v, Object.find o "id" = some v →
        ¬ ∃ d, v = Value.number d ∧ Double.eq d (Double.ofInt meth.getId) = true) :
    Requester.call jsonParse mConn w meth notification callback =
      (.error (.exn (Exception.mk (-32700) "Return id value does not match requests id."
          "ParseErrorException")), c', w') := by
  unfold Requester.call
  rw [hx]
  simp only [Requester.call.validate_object jsonParse ret meth o hne hp]
  have hget : Object.get o "jsonrpc" Value.null = Value.string "2.0" := by
    simp [Object.get, hv]
  have hhas : Object.hasKey o "jsonrpc" = true :=
    (Object.hasKey_eq_true_iff o "jsonrpc").2 ⟨_, hv⟩
  have hve : (Value.string "2.0").eq (Value.string "2.0") = true :=
    (Value.eq_string_iff _ _).2 rfl
  have hbad : (Object.get o "id" Value.null).eq (Value.number (Double.ofInt meth.mId)) = false
      ∨ Object.hasKey o "id" = false := by
    rcases hid with hnone | hsome
    · exact Or.inr ((Object.hasKey_eq_false_iff o "id").2 hnone)
    · cases hf : Object.find o "id" with
      | none => exact Or.inr ((Object.hasKey_eq_false_iff o "id").2 hf)
      | some v =>
        left
        have hn := hsome v hf
        have hgetid : Object.get o "id" Value.null = v := by simp [Object.get, hf]
        rw [hgetid]
        cases hb : v.eq (Value.number (Double.ofInt meth.mId)) with
        | false => rfl
        | true => exact absurd ((Value.eq_number_iff _ _).1 hb) hn
  rw [hget, hve, hhas]
  simp [hbad, JSONRPC_EXCEPT, ExceptionFactory.create, ExceptionCodes.number,
    ExceptionCodes.typeName]

/-- Witness of C1: the server answers `sampleCall` with a reply whose `id` is the String "1". -/
theorem Requester.call_id_mismatch_fails_witness :
    Requester.call.exchange sampleConn (sampleWorld 52 "\x7b\"jsonrpc\":\"2.0\",\"id\":\"1\",\"result\":true\x7d")
        sampleCall false none
      = (.ok "\x7b\"jsonrpc\":\"2.0\",\"id\":\"1\",\"result\":true\x7d", sampleConn,
          sampleWorldAfter sampleRequest 52)
    ∧ Requester.call sampleParse sampleConn
        (sampleWorld 52 "\x7b\"jsonrpc\":\"2.0\",\"id\":\"1\",\"result\":true\x7d") sampleCall false none
      = (.error (.exn (Exception.mk (-32700) "Return id value does not match requests id."
          "ParseErrorException")), sampleConn,
          sampleWorldAfter sampleRequest 52) :=
  ⟨rfl, Requester.call_id_mismatch_fails sampleParse sampleConn _ sampleCall false none _ _ _
    [("id", Value.string "1"), ("jsonrpc", Value.string "2.0"), ("result", Value.bool true)]
    rfl (by decide) rfl rfl
    (Or.inr (fun v hv => by
      have h : v = Value.string "1" := by
        simpa [Object.find] using hv.symm
      subst h
      rintro ⟨d, hd, _⟩
      exact Value.noConfusion hd))⟩

/-- C2: for a reply that passes the version and id checks, `Requester::call` throws a
`ParseErrorException` (code -32700) when the reply Object has both `result` and `error`,
and when it has neither; it returns a Response exactly when one of the two is present. -/
theorem Requester.call_result_error_exclusive (jsonParse : JsonParse) (mConn : TCPIPConnection)
    (w : World) (meth : MethodCall) (notification : Bool) (callback : Callback)
    (ret : String) (c' : TCPIPConnection) (w' : World) (o : Object)
    (hx : Requester.call.exchange mConn w meth notification callback = (.ok ret, c', w'))
    (hne : ret ≠ "")
    (hp : parse jsonParse ret = .ok (Value.object o))
    (hv : Object.find o "jsonrpc" = some (Value.string "2.0"))
    (hid : ∃ d, Object.find o "id" = some (Value.number d)
      ∧ Double.eq d (Double.ofInt meth.getId) = true) :
    (Object.hasKey o "result" = true → Object.hasKey o "error" = true →
      Requester.call jsonParse mConn w meth notification callback =
        (.error (.exn (Exception.mk (-32700) "Server response has both result and error members."
          "ParseErrorException")), c', w'))
    ∧ (Object.hasKey o "result" = false → Object.hasKey o "error" = false →
      Requester.call jsonParse mConn w meth notification callback =
        (.error (.exn (Exception.mk (-32700) "Server response has neither result or error members."
          "ParseErrorException")), c', w'))
    ∧ ((∃ r, Requester.call jsonParse mConn w meth notification callback = (.ok r, c', w'))
        ↔ Object.hasKey o "result" ≠ Object.hasKey o "error") := by
  rw [Requester.call_of_exchange jsonParse mConn w meth notification callback ret c' w' hx,
    Requester.call.validate_members jsonParse ret meth o hne hp hv hid]
  cases hr : Object.hasKey o "result" <;> cases he : Object.hasKey o "error" <;>
    simp [JSONRPC_EXCEPT, ExceptionFactory.create, ExceptionCodes.number,
      ExceptionCodes.typeName]

/-- Witness of C2: the server answers `sampleCall` with both `result` and `error`. -/
theorem Requester.call_result_error_exclusive_witness :
    Requester.call sampleParse sampleConn
        (sampleWorld 52 "\x7b\"jsonrpc\":\"2.0\",\"id\":1,\"result\":true,\"error\":null\x7d")
        sampleCall false none
      = (.error (.exn (Exception.mk (-32700) "Server response has both result and error members."
          "ParseErrorException")), sampleConn,
          sampleWorldAfter sampleRequest 52) :=
  (Requester.call_result_error_exclusive sampleParse sampleConn
    (sampleWorld 52 "\x7b\"jsonrpc\":\"2.0\",\"id\":1,\"result\":true,\"error\":null\x7d")
    sampleCall false none _ sampleConn (sampleWorldAfter sampleRequest 52)
    [("error", Value.null), ("id", Value.number (Double.ofInt 1)),
      ("jsonrpc", Value.string "2.0"), ("result", Value.bool true)]
    rfl (by decide) rfl rfl ⟨Double.ofInt 1, rfl, by decide⟩).1 rfl rfl

/-- C3: for a reply that passes all the checks, the Response `Requester::call` returns has
`isError() == false` and `getResult()` equal to the reply's `result` member when `result`
is present, and `isError() == true` and `getResult()` equal to the `error` member when
`error` is present. -/
theorem Requester.call_response_wraps (jsonParse : JsonParse) (mConn : TCPIPConnection)
    (w : World) (meth : MethodCall) (notification : Bool) (callback : Callback)
    (ret : String) (c' : TCPIPConnection) (w' : World) (o : Object)
    (hx : Requester.call.exchange mConn w meth notification callback = (.ok ret, c', w'))
    (hne : ret ≠ "")
    (hp : parse jsonParse ret = .ok (Value.object o))
    (hv : Object.find o "jsonrpc" = some (Value.string "2.0"))
    (hid : ∃ d, Object.find o "id" = some (Value.number d)
      ∧ Double.eq d (Double.ofInt meth.getId) = true)
    (hone : Object.hasKey o "result" ≠ Object.hasKey o "error") :
    ∃ r, Requester.call jsonParse mConn w meth notification callback = (.ok r, c', w')
      ∧ (∀ v, Object.find o "result" = some v → r.isError = false ∧ r.getResult = v)
      ∧ (∀ v, Object.find o "error" = some v → r.isError = true ∧ r.getResult = v) := by
  rw [Requester.call_of_exchange jsonParse mConn w meth notification callback ret c' w' hx,
    Requester.call.validate_members jsonParse ret meth o hne hp hv hid]
  cases hr : Object.hasKey o "result" <;> cases he : Object.hasKey o "error"
  · exact absurd (hr.trans he.symm) hone
  · have hrn := (Object.hasKey_eq_false_iff o "result").1 hr
    refine ⟨{ mError := true, mValue := Object.get o "error" Value.null }, by simp, ?_, ?_⟩
    · intro v hfv
      rw [hrn] at hfv
      exact Option.noConfusion hfv
    · intro v hfv
      simp [Response.isError, Response.getResult, Object.get, hfv]
  · have hen := (Object.hasKey_eq_false_iff o "error").1 he
    refine ⟨{ mError := false, mValue := Object.get o "result" Value.null }, by simp, ?_, ?_⟩
    · intro v hfv
      simp [Response.isError, Response.getResult, Object.get, hfv]
    · intro v hfv
      rw [hen] at hfv
      exact Option.noConfusion hfv
  · exact absurd (hr.trans he.symm) hone

/-- Witness of C3: the server answers `sampleCall` with an error object. -/
theorem Requester.call_response_wraps_witness :
    ∃ r, Requester.call sampleParse sampleConn
        (sampleWorld 52
          "\x7b\"jsonrpc\":\"2.0\",\"id\":1,\"error\":\x7b\"code\":-32601,\"message\":\"no\"\x7d\x7d")
        sampleCall false none = (.ok r, sampleConn, sampleWorldAfter sampleRequest 52)
      ∧ (∀ v, Object.find [("error", Value.object [("code", Value.number (Double.ofInt (-32601))),
              ("message", Value.string "no")]), ("id", Value.number (Double.ofInt 1)),
            ("jsonrpc", Value.string "2.0")] "result" = some v →
          r.isError = false ∧ r.getResult = v)
      ∧ (∀ v, Object.find [("error", Value.object [("code", Value.number (Double.ofInt (-32601))),
              ("message", Value.string "no")]), ("id", Value.number (Double.ofInt 1)),
            ("jsonrpc", Value.string "2.0")] "error" = some v →
          r.isError = true ∧ r.getResult = v) :=
  Requester.call_response_wraps sampleParse sampleConn
    (sampleWorld 52
      "\x7b\"jsonrpc\":\"2.0\",\"id\":1,\"error\":\x7b\"code\":-32601,\"message\":\"no\"\x7d\x7d")
    sampleCall false none _ sampleConn (sampleWorldAfter sampleRequest 52)
    [("error", Value.object [("code", Value.number (Double.ofInt (-32601))),
        ("message", Value.string "no")]), ("id", Value.number (Double.ofInt 1)),
      ("jsonrpc", Value.string "2.0")]
    rfl (by decide) rfl rfl ⟨Double.ofInt 1, rfl, by decide⟩ (by decide)

/-- C4: for a reply that decodes to an Object, `Requester::call` throws a
`ParseErrorException` (code -32700) unless the Object has the member `jsonrpc` and that
member is the String "2.0": a missing member, another string and the Number 2.0 are
rejected. -/
theorem Requester.call_version_check (jsonParse : JsonParse) (mConn : TCPIPConnection)
    (w : World) (meth : MethodCall) (notification : Bool) (callback : Callback)
    (ret : String) (c' : TCPIPConnection) (w' : World) (o : Object)
    (hx : Requester.call.exchange mConn w meth notification callback = (.ok ret, c', w'))
    (hne : ret ≠ "")
    (hp : parse jsonParse ret = .ok (Value.object o))
    (hv : Object.find o "jsonrpc" ≠ some (Value.string "2.0")) :
    Requester.call jsonParse mConn w meth notification callback =
      (.error (.exn (Exception.mk (-32700) "Server return value has missing or wrong jsonrpc version."
          "ParseErrorException")), c', w') := by
  rw [Requester.call_of_exchange jsonParse mConn w meth notification callback ret c' w' hx,
    Requester.call.validate_object jsonParse ret meth o hne hp]
  have hbad : (Object.get o "jsonrpc" Value.null).eq (Value.string "2.0") = false
      ∨ Object.hasKey o "jsonrpc" = false := by
    cases hf : Object.find o "jsonrpc" with
    | none => exact Or.inr ((Object.hasKey_eq_false_iff o "jsonrpc").2 hf)
    | some v =>
      left
      have hget : Object.get o "jsonrpc" Value.null = v := by simp [Object.get, hf]
      rw [hget]
      cases hb : v.eq (Value.string "2.0") with
      | false => rfl
      | true =>
        have := (Value.eq_string_iff _ _).1 hb
        exact absurd (by rw [hf, this]) hv
  simp [hbad, JSONRPC_EXCEPT, ExceptionFactory.create, ExceptionCodes.number,
    ExceptionCodes.typeName]

/-- Witness of C4: the server answers `sampleCall` with `jsonrpc` given as the Number 2.0. -/
theorem Requester.call_version_check_witness :
    Requester.call sampleParse sampleConn
        (sampleWorld 52 "\x7b\"jsonrpc\":2.0,\"id\":1,\"result\":true\x7d") sampleCall false none
      = (.error (.exn (Exception.mk (-32700) "Server return value has missing or wrong jsonrpc version."
          "ParseErrorException")), sampleConn, sampleWorldAfter sampleRequest 52) :=
  Requester.call_version_check sampleParse sampleConn
    (sampleWorld 52 "\x7b\"jsonrpc\":2.0,\"id\":1,\"result\":true\x7d") sampleCall false none _
    sampleConn (sampleWorldAfter sampleRequest 52)
    [("id", Value.number (Double.ofInt 1)), ("jsonrpc", Value.number (Double.fin 2)),
      ("result", Value.bool true)]
    rfl (by decide) rfl
    (fun h => by simp [Object.find] at h)

/-- C5: when the read of the reply returns the empty string, `Requester::call` throws a
`ParseErrorException` (code -32700) and returns no Response, whatever the method call. -/
theorem Requester.call_empty_reply (jsonParse : JsonParse) (mConn : TCPIPConnection)
    (w : World) (meth : MethodCall) (notification : Bool) (callback : Callback)
    (c' : TCPIPConnection) (w' : World)
    (hx : Requester.call.exchange mConn w meth notification callback = (.ok "", c', w')) :
    Requester.call jsonParse mConn w meth notification callback =
      (.error (.exn (Exception.mk (-32700) "Server returned an empty response."
          "ParseErrorException")), c', w') := by
  rw [Requester.call_of_exchange jsonParse mConn w meth notification callback "" c' w' hx]
  simp [Requester.call.validate, JSONRPC_EXCEPT, ExceptionFactory.create,
    ExceptionCodes.number, ExceptionCodes.typeName]

/-- Witness of C5: the peer closes the stream without sending anything. -/
theorem Requester.call_empty_reply_witness :
    Requester.call.exchange sampleConn (sampleWorld 52 "") sampleCall false none
      = (.ok "", sampleConn, sampleWorldAfter sampleRequest 52)
    ∧ Requester.call sampleParse sampleConn (sampleWorld 52 "") sampleCall false none
      = (.error (.exn (Exception.mk (-32700) "Server returned an empty response."
          "ParseErrorException")), sampleConn, sampleWorldAfter sampleRequest 52) :=
  ⟨rfl, Requester.call_empty_reply sampleParse sampleConn (sampleWorld 52 "") sampleCall false
    none sampleConn (sampleWorldAfter sampleRequest 52) rfl⟩

/-- C6: `Requester::notify(m, cb)` is `call(m, true, cb)` with the Response dropped; the
request it writes is rendered without an `id` member: the buffer given to `write` is the
text of an Object without the key `id`, and the first request on the socket after the
connection, as the world records it, is to send the first bytes of that text; the reply is
checked by the same rules as for a normal call of `m`; so, the exchange having returned
the reply `ret`, `notify` returns exactly when `ret` is non-empty and decodes to an Object
with `jsonrpc` the String "2.0", an `id` equal to the id of `m` and exactly one of
`result` / `error`, and otherwise throws a `ParseErrorException` with code -32700. -/
theorem Requester.notify_is_call_as_notification (jsonParse : JsonParse)
    (mConn : TCPIPConnection) (w : World) (meth : MethodCall) (callback : Callback)
    (ret : String) (c' : TCPIPConnection) (w' : World)
    (hx : Requester.call.exchange mConn w meth true callback = (.ok ret, c', w')) :
    Requester.notify jsonParse mConn w meth callback
        = ((Requester.call jsonParse mConn w meth true callback).1.map (fun _ => ()),
            (Requester.call jsonParse mConn w meth true callback).2)
    ∧ (∃ method, MethodCall.jsonString.method meth true = .ok method
        ∧ meth.jsonString true = .ok (Object.jsonString method)
        ∧ Object.hasKey method "id" = false)
    ∧ (∀ (mConn2 : TCPIPConnection) (w2 : World) (callback2 : Callback)
        (c2 : TCPIPConnection) (w2' : World),
        Requester.call.exchange mConn2 w2 meth false callback2 = (.ok ret, c2, w2') →
        (Requester.call jsonParse mConn2 w2 meth false callback2).1.map (fun _ => ())
          = (Requester.notify jsonParse mConn w meth callback).1)
    ∧ (Requester.notify jsonParse mConn w meth callback = (.ok (), c', w') ↔
        (ret ≠ "" ∧ ∃ o d, parse jsonParse ret = .ok (Value.object o)
          ∧ Object.find o "jsonrpc" = some (Value.string "2.0")
          ∧ Object.find o "id" = some (Value.number d)
          ∧ Double.eq d (Double.ofInt meth.getId) = true
          ∧ Object.hasKey o "result" ≠ Object.hasKey o "error"))
    ∧ (Requester.notify jsonParse mConn w meth callback ≠ (.ok (), c', w') →
        ∃ msg, Requester.notify jsonParse mConn w meth callback
          = (.error (.exn (Exception.mk (-32700) msg "ParseErrorException")), c', w'))
    ∧ (∃ c1 w1 method c2 w2 ev, mConn.connect w = (.ok (), c1, w1)
        ∧ MethodCall.jsonString.method meth true = .ok method
        ∧ Object.hasKey method "id" = false
        ∧ c1.write w1 (Object.jsonString method) 0 none = (.ok (), c2, w2)
        ∧ w'.log = w1.log ++
            Event.send c1.mSocketfd
              (String.mk ((Object.jsonString method).data.take
                (TCPIPConnection.write.size (Object.jsonString method).length 0).toNat))
              (TCPIPConnection.write.size (Object.jsonString method).length 0) :: ev) := by
  have hcall := Requester.call_of_exchange jsonParse mConn w meth true callback ret c' w' hx
  have hnotify : Requester.notify jsonParse mConn w meth callback
      = ((Requester.call.validate jsonParse ret meth).map (fun _ => ()), c', w') := by
    unfold Requester.notify
    rw [hcall]
    cases Requester.call.validate jsonParse ret meth <;> rfl
  refine ⟨?_, ?_, ?_, ?_, ?_, ?_⟩
  · rw [hnotify, hcall]
  · obtain ⟨method, hm, ht⟩ :=
      Requester.call.exchange_rendered mConn w meth true callback ret c' w' hx
    exact ⟨method, hm, ht, MethodCall.jsonString.method_notification_no_id meth method hm⟩
  · intro mConn2 w2 callback2 c2 w2' hx2
    rw [hnotify,
      Requester.call_of_exchange jsonParse mConn2 w2 meth false callback2 ret c2 w2' hx2]
  · rw [hnotify, ← Requester.call.validate_ok_iff jsonParse ret meth]
    cases hval : Requester.call.validate jsonParse ret meth with
    | error f => simp [Except.map]
    | ok r => simp [Except.map]
  · rw [hnotify]
    cases hval : Requester.call.validate jsonParse ret meth with
    | error f =>
      intro _
      obtain ⟨msg, hmsg⟩ := Requester.call.validate_error jsonParse ret meth f hval
      exact ⟨msg, by rw [hmsg]; rfl⟩
    | ok r =>
      intro hne
      exact absurd rfl hne
  · obtain ⟨c1, w1, method, c2, w2, ev, hc, hm, hw, hlog⟩ :=
      Requester.call.exchange_sends_rendering mConn w meth true callback ret c' w' hx
    exact ⟨c1, w1, method, c2, w2, ev, hc, hm,
      MethodCall.jsonString.method_notification_no_id meth method hm, hw, hlog⟩

/-- Witness of C6: `sampleCall` sent as a notification and answered with a result. -/
theorem Requester.notify_is_call_as_notification_witness :
    Requester.call.exchange sampleConn
        (sampleWorld 43 "\x7b\"jsonrpc\":\"2.0\",\"id\":1,\"result\":true\x7d") sampleCall true none
      = (.ok "\x7b\"jsonrpc\":\"2.0\",\"id\":1,\"result\":true\x7d", sampleConn,
          sampleWorldAfter sampleNotification 43)
    ∧ Requester.notify sampleParse sampleConn
        (sampleWorld 43 "\x7b\"jsonrpc\":\"2.0\",\"id\":1,\"result\":true\x7d") sampleCall none
      = (.ok (), sampleConn, sampleWorldAfter sampleNotification 43) :=
  ⟨rfl, (Requester.notify_is_call_as_notification sampleParse sampleConn
      (sampleWorld 43 "\x7b\"jsonrpc\":\"2.0\",\"id\":1,\"result\":true\x7d") sampleCall none
      "\x7b\"jsonrpc\":\"2.0\",\"id\":1,\"result\":true\x7d" sampleConn
      (sampleWorldAfter sampleNotification 43) rfl).2.2.2.1.2
    ⟨by decide,
      [("id", Value.number (Double.ofInt 1)), ("jsonrpc", Value.string "2.0"),
        ("result", Value.bool true)],
      Double.ofInt 1, rfl, rfl, rfl, by decide, by decide⟩⟩

/-- C7 (the code departs from the claim): when the `send` of the request fails, when the
`recv` of the reply fails, and when the callback cancels the read, `Requester::call`
throws with the socket handle still 3 and no `close` requested, whereas `sendRecieve` on
the input with the failing `send` leaves the handle reset to -1 after closing it. -/
theorem Requester.call_keeps_connection_on_failure :
    Requester.call sampleParse sampleConn sendFailsWorld sampleCall false none
      = (.error (.exn (Exception.mk (-3004) "network send failed: Connection reset by peer"
            "TransportErrorException")),
          { mSocketfd := 3 },
          { socketResults := [], connectResults := [], sendResults := [], recvResults := [],
            errorString := "Connection reset by peer",
            log := [Event.socket, Event.connect 3, Event.send 3 sampleRequest 52] })
    ∧ Requester.call sampleParse sampleConn recvFailsWorld sampleCall false none
      = (.error (.exn (Exception.mk (-3004) "network recv failed: Connection reset by peer"
            "TransportErrorException")),
          { mSocketfd := 3 },
          { socketResults := [], connectResults := [], sendResults := [], recvResults := [],
            errorString := "Connection reset by peer",
            log := [Event.socket, Event.connect 3, Event.send 3 sampleRequest 52,
              Event.recv 3 4096] })
    ∧ Requester.call sampleParse sampleConn (sampleWorld 52 "x") sampleCall false
        (some (fun _ _ _ => false))
      = (.error (.exn (Exception.mk (-3005) "read canceled by callback"
            "ActionCanceledException")),
          { mSocketfd := 3 },
          { socketResults := [], connectResults := [], sendResults := [], recvResults := [],
            errorString := "Connection reset by peer",
            log := [Event.socket, Event.connect 3, Event.send 3 sampleRequest 52,
              Event.recv 3 4096, Event.progress 1 0] })
    ∧ TCPIPConnection.sendRecieve sampleConn sendFailsWorld sampleRequest
      = (.error (.exn (Exception.mk (-3004) "network send failed: Connection reset by peer"
            "TransportErrorException")),
          { mSocketfd := -1 },
          { socketResults := [], connectResults := [], sendResults := [], recvResults := [],
            errorString := "Connection reset by peer",
            log := [Event.socket, Event.connect 3, Event.send 3 sampleRequest 52,
              Event.close 3] }) :=
  ⟨rfl, rfl, rfl, rfl⟩

/-! ## MethodCall::jsonString -/

/-- C8: for a MethodCall with a non-empty name (its parameters an Array or an Object, as
the class keeps them) and either value of `notification`, `jsonString(notification)`
renders the Object whose members are `id` = Number(getId()) when `notification` is
false, `jsonrpc` = String "2.0", `method` = String(name), and `params` = the call's
parameters when `size() != 0`, and no other member. -/
theorem MethodCall.jsonString_members (m : MethodCall) (notification : Bool)
    (hname : m.mName ≠ "") (hshape : m.WellShaped) :
    ∃ (method : Object) (n : Int),
      MethodCall.jsonString.method m notification = .ok method
      ∧ m.jsonString notification = .ok (Object.jsonString method)
      ∧ m.size = .ok n
      ∧ Object.find method "jsonrpc" = some (Value.string "2.0")
      ∧ Object.find method "method" = some (Value.string m.mName)
      ∧ Object.find method "params" = (if n ≠ 0 then some m.mParams else none)
      ∧ Object.find method "id"
          = (if notification then none else some (Value.number (Double.ofInt m.getId)))
      ∧ (∀ k, k ≠ "jsonrpc" → k ≠ "method" → k ≠ "params" → k ≠ "id" →
          Object.find method k = none)
      ∧ method = (if notification then [] else [("id", Value.number (Double.ofInt m.getId))])
          ++ [("jsonrpc", Value.string "2.0"), ("method", Value.string m.mName)]
          ++ (if n ≠ 0 then [("params", m.mParams)] else []) := by
  have hsize : ∃ n : Int, m.size = .ok n := by
    unfold MethodCall.WellShaped at hshape
    unfold MethodCall.size
    cases hp : m.mParams <;>
      simp [hp, Value.getType, Value.isType, value_cast_Array_ptr, value_cast_Object_ptr]
        at hshape ⊢
  obtain ⟨n, hn⟩ := hsize
  have hm := MethodCall.jsonString.method_eq m notification n hname hn
  refine ⟨_, n, hm, ?_, hn, ?_, ?_, ?_, ?_, ?_, rfl⟩
  · simp [MethodCall.jsonString, hm, bind, Except.bind, pure, Except.pure]
  · cases notification <;> by_cases h0 : n = 0 <;> simp [h0, Object.find]
  · cases notification <;> by_cases h0 : n = 0 <;> simp [h0, Object.find]
  · cases notification <;> by_cases h0 : n = 0 <;> simp [h0, Object.find]
  · cases notification <;> by_cases h0 : n = 0 <;> simp [h0, Object.find]
  · intro k k1 k2 k3 k4
    cases notification <;> by_cases h0 : n = 0 <;>
      simp [h0, Object.find, Ne.symm k1, Ne.symm k2, Ne.symm k3, Ne.symm k4]

/-- Witness of C8: the call `system.echo("test", 42)` with id 1, rendered as a normal call. -/
theorem MethodCall.jsonString_members_witness :
    echoCall 0 = .ok sampleEcho
    ∧ sampleEcho.mName ≠ ""
    ∧ ∃ (method : Object) (n : Int),
      MethodCall.jsonString.method sampleEcho false = .ok method
      ∧ sampleEcho.jsonString false = .ok (Object.jsonString method)
      ∧ sampleEcho.size = .ok n
      ∧ Object.find method "jsonrpc" = some (Value.string "2.0")
      ∧ Object.find method "method" = some (Value.string "system.echo")
      ∧ Object.find method "params" = (if n ≠ 0 then some sampleEcho.mParams else none)
      ∧ Object.find method "id" = some (Value.number (Double.ofInt 1)) := by
  refine ⟨rfl, by decide, ?_⟩
  obtain ⟨method, n, h1, h2, h3, h4, h5, h6, h7, _, _⟩ :=
    MethodCall.jsonString_members sampleEcho false (by decide) (Or.inl rfl)
  exact ⟨method, n, h1, h2, h3, h4, h5, h6, h7⟩

/-- C10: `MethodCall::jsonString(notification)` throws a `RuntimeAssertionException`
(code -3000) if and only if the method name is empty, for both values of `notification`
and whatever the parameters. -/
theorem MethodCall.jsonString_throws_iff_name_empty (m : MethodCall) (notification : Bool) :
    (∃ e, m.jsonString notification = .error (.exn e) ∧ e.mCode = -3000
        ∧ e.mType = "RuntimeAssertionException") ↔ m.mName = "" := by
  constructor
  · rintro ⟨e, he, _, _⟩
    by_contra hname
    unfold MethodCall.jsonString MethodCall.jsonString.method at he
    simp only [JSONRPC_ASSERT, hname, decide_False, Bool.not_false, Bool.not_true, bind,
      Except.bind, pure, Except.pure, Bool.false_eq_true, if_false] at he
    unfold MethodCall.size at he
    cases hp : m.mParams <;>
      simp [hp, Value.getType, Value.isType, value_cast_Array_ptr, value_cast_Object_ptr]
        at he
  · intro hname
    refine ⟨Exception.mk (-3000) "Method name not set in MethodCall::jsonString()"
      "RuntimeAssertionException", ?_, rfl, rfl⟩
    simp [MethodCall.jsonString, MethodCall.jsonString.method, JSONRPC_ASSERT, hname,
      JSONRPC_EXCEPT, ExceptionFactory.create, ExceptionCodes.number,
      ExceptionCodes.typeName, bind, Except.bind]

/-- C9, as the code has it: the call `MethodCall("system.echo").addParam(String("test"))
.addParam(Number(42))`, constructed when the counter stands at `NextMethodId` (so that it
gets the id `NextMethodId + 1`, here between 1 and 999999), rendered with
`notification = false` yields exactly the text
`{"id": N, "jsonrpc": "2.0", "method": "system.echo", "params": ["test", 42]}`,
with N the decimal numeral of the id: the members come in key order, separated by a comma
and a blank, each key followed by a colon and a blank. -/
theorem echoCall_rendering (NextMethodId : Int) (h0 : 0 ≤ NextMethodId)
    (h1 : NextMethodId < 999999) :
    ∃ m, echoCall NextMethodId = .ok m ∧ m.getId = NextMethodId + 1
      ∧ m.jsonString false = .ok ("\x7b\"id\": " ++ Nat.repr (NextMethodId + 1).toNat
          ++ ", \"jsonrpc\": \"2.0\", \"method\": \"system.echo\", \"params\": [\"test\", 42]\x7d") := by
  refine ⟨{ mName := "system.echo",
            mParams := Value.array [Value.string "test", Value.number (Double.ofInt 42)],
            mId := NextMethodId + 1 }, rfl, rfl, ?_⟩
  have hm := MethodCall.jsonString.method_eq
    { mName := "system.echo",
      mParams := Value.array [Value.string "test", Value.number (Double.ofInt 42)],
      mId := NextMethodId + 1 } false 2 (by simp) rfl
  have hrest : Object.doJsonString.loop false [("jsonrpc", Value.string "2.0"),
        ("method", Value.string "system.echo"),
        ("params", Value.array [Value.string "test", Value.number (Double.ofInt 42)])]
      = ", \"jsonrpc\": \"2.0\", \"method\": \"system.echo\", \"params\": [\"test\", 42]" := by
    decide
  have hid : String.escapeString "id" = "id" := by decide
  simp only [MethodCall.jsonString, hm, bind, Except.bind, pure, Except.pure,
    Bool.false_eq_true, if_false, MethodCall.getId, List.cons_append, List.nil_append]
  simp only [show ((2 : Int) ≠ 0) = True from by simp, if_true, List.cons_append,
    List.nil_append]
  rw [Object.jsonString, Value.jsonString, Object.doJsonString.loop, hrest, Value.jsonString, hid,
    Double.toStream_ofInt_small (NextMethodId + 1) (by omega) (by omega)]
  simp only [Bool.not_true, Bool.false_eq_true, if_false]
  congr 1
  apply String.ext
  simp [String.data_append]

/-- Witness of C9 as amended: the first call of a process, with id 1. -/
theorem echoCall_rendering_witness :
    ∃ m, echoCall 0 = .ok m ∧ m.getId = 1
      ∧ m.jsonString false = .ok ("\x7b\"id\": " ++ Nat.repr 1
          ++ ", \"jsonrpc\": \"2.0\", \"method\": \"system.echo\", \"params\": [\"test\", 42]\x7d") :=
  echoCall_rendering 0 (by decide) (by decide)

/-- Counterexample to C9 as stated: for the first call of a process (id 1) the text is
`{"id": 1, "jsonrpc": "2.0", "method": "system.echo", "params": ["test", 42]}` and not
`{"jsonrpc":"2.0","method":"system.echo","params":["test", 42], "id": 1}`; and for the
call with id 1234567 the id is written `1.23457e+06`, not as its decimal numeral. -/
theorem echoCall_claimed_text_refuted :
    (echoCall 0 >>= fun m => m.jsonString false)
      = .ok "\x7b\"id\": 1, \"jsonrpc\": \"2.0\", \"method\": \"system.echo\", \"params\": [\"test\", 42]\x7d"
    ∧ (echoCall 0 >>= fun m => m.jsonString false)
      ≠ .ok "\x7b\"jsonrpc\":\"2.0\",\"method\":\"system.echo\",\"params\":[\"test\", 42], \"id\": 1\x7d"
    ∧ (echoCall 1234566 >>= fun m => m.jsonString false)
      = .ok "\x7b\"id\": 1.23457e+06, \"jsonrpc\": \"2.0\", \"method\": \"system.echo\", \"params\": [\"test\", 42]\x7d"
    ∧ (echoCall 1234566 >>= fun m => m.jsonString false)
      ≠ .ok "\x7b\"id\": 1234567, \"jsonrpc\": \"2.0\", \"method\": \"system.echo\", \"params\": [\"test\", 42]\x7d" := by
  refine ⟨rfl, ?_, rfl, ?_⟩
  · intro h
    have h2 : (echoCall 0 >>= fun m => m.jsonString false)
        = .ok "\x7b\"id\": 1, \"jsonrpc\": \"2.0\", \"method\": \"system.echo\", \"params\": [\"test\", 42]\x7d" := rfl
    rw [h2] at h
    exact absurd (Except.ok.inj h) (by decide)
  · intro h
    have h2 : (echoCall 1234566 >>= fun m => m.jsonString false)
        = .ok "\x7b\"id\": 1.23457e+06, \"jsonrpc\": \"2.0\", \"method\": \"system.echo\", \"params\": [\"test\", 42]\x7d" := rfl
    rw [h2] at h
    exact absurd (Except.ok.inj h) (by decide)

/-! ## MethodCall: parameters and ids -/

/-- C11: `addParam(name, v)` throws a `RuntimeAssertionException` (code -3000) if and only
if the call holds at least one positional parameter, and `addParam(v)` throws it if and
only if the call holds at least one named parameter; in every other state (the empty
parameter set of either shape included) the call succeeds, the parameters afterwards have
the shape of the overload used and contain the added value; and
`MethodCall("m").addParam(x).addParam("k", y)` throws. -/
theorem MethodCall.addParam_shapes (m : MethodCall) (name : String) (val : Value)
    (hshape : m.WellShaped) :
    ((∃ e, m.addParamNamed name val = .error (.exn e) ∧ e.mCode = -3000
          ∧ e.mType = "RuntimeAssertionException")
        ↔ ∃ xs, m.mParams = Value.array xs ∧ xs ≠ [])
    ∧ ((∃ e, m.addParam val = .error (.exn e) ∧ e.mCode = -3000
          ∧ e.mType = "RuntimeAssertionException")
        ↔ ∃ o, m.mParams = Value.object o ∧ o ≠ [])
    ∧ ((¬ ∃ xs, m.mParams = Value.array xs ∧ xs ≠ []) →
        ∃ m', m.addParamNamed name val = .ok m' ∧ m'.namedParams = true
          ∧ m'.positionalParams = false ∧ m'.mName = m.mName ∧ m'.mId = m.mId
          ∧ ∃ o, m'.mParams = Value.object o ∧ Object.find o name = some val)
    ∧ ((¬ ∃ o, m.mParams = Value.object o ∧ o ≠ []) →
        ∃ m', m.addParam val = .ok m' ∧ m'.positionalParams = true
          ∧ m'.namedParams = false ∧ m'.mName = m.mName ∧ m'.mId = m.mId
          ∧ ∃ xs, m'.mParams = Value.array (xs ++ [val])
            ∧ (m.mParams = Value.array xs ∨ (m.mParams = Value.object [] ∧ xs = [])))
    ∧ (∀ (next : Int) (x y : Value),
        ((MethodCall.new "m" next).1.addParam x >>= fun m1 => m1.addParamNamed "k" y)
          = .error (.exn (Exception.mk (-3000)
              "Attempted to add named parameter to parameter list method"
              "RuntimeAssertionException"))) := by
  obtain ⟨mName, mParams, mId⟩ := m
  unfold MethodCall.WellShaped at hshape
  refine ⟨?_, ?_, ?_, ?_, ?_⟩
  · cases mParams with
    | array xs =>
      cases xs <;>
        simp [MethodCall.addParamNamed, JSONRPC_EXCEPT, ExceptionFactory.create,
          ExceptionCodes.number, ExceptionCodes.typeName]
    | object o => simp [MethodCall.addParamNamed]
    | _ => simp [Value.getType] at hshape
  · cases mParams with
    | array xs => simp [MethodCall.addParam]
    | object o =>
      cases o <;>
        simp [MethodCall.addParam, JSONRPC_EXCEPT, ExceptionFactory.create,
          ExceptionCodes.number, ExceptionCodes.typeName]
    | _ => simp [Value.getType] at hshape
  · intro hno
    cases mParams with
    | array xs =>
      cases xs with
      | nil =>
        simp [MethodCall.addParamNamed, MethodCall.namedParams, MethodCall.positionalParams,
          Value.isType, Value.getType, Object.assign, Object.find]
      | cons x xs => exact absurd ⟨x :: xs, rfl, by simp⟩ hno
    | object o =>
      simp [MethodCall.addParamNamed, MethodCall.namedParams, MethodCall.positionalParams,
        Value.isType, Value.getType, Object.find_assign]
    | _ => simp [Value.getType] at hshape
  · intro hno
    cases mParams with
    | array xs =>
      simp [MethodCall.addParam, MethodCall.namedParams, MethodCall.positionalParams,
        Value.isType, Value.getType]
    | object o =>
      cases o with
      | nil =>
        simp [MethodCall.addParam, MethodCall.namedParams, MethodCall.positionalParams,
          Value.isType, Value.getType]
      | cons e o => exact absurd ⟨e :: o, rfl, by simp⟩ hno
    | _ => simp [Value.getType] at hshape
  · intro next x y
    rfl

/-- Witness of C11: a named parameter added to the call `system.echo("test", 42)`. -/
theorem MethodCall.addParam_shapes_witness :
    sampleEcho.WellShaped
    ∧ sampleEcho.addParamNamed "k" Value.null
        = .error (.exn (Exception.mk (-3000)
            "Attempted to add named parameter to parameter list method"
            "RuntimeAssertionException"))
    ∧ ∃ e, sampleEcho.addParamNamed "k" Value.null = .error (.exn e) ∧ e.mCode = -3000
        ∧ e.mType = "RuntimeAssertionException" :=
  ⟨Or.inl rfl, rfl,
    (MethodCall.addParam_shapes sampleEcho "k" Value.null (Or.inl rfl)).1.2
      ⟨[Value.string "test", Value.number (Double.ofInt 42)], rfl, by simp⟩⟩

/-- C12, as the code has it: in every state of a MethodCall, after `setParam(v)` the
parameters are positional, `size()` is 1 and `getParam(0)` returns `v` itself, which is
`== v` when `v` holds no NaN; after `setParam(name, v)` they are named, `size()` is 1 and
`getParam(name)` returns `v` itself, `== v` when `v` holds no NaN, and changes nothing; the
parameters are exactly the one given, so no earlier parameter survives; `setParam` does
not fail. -/
theorem MethodCall.setParam_single (m : MethodCall) (name : String) (val : Value) :
    ((m.setParam val).positionalParams = true
      ∧ (m.setParam val).namedParams = false
      ∧ (m.setParam val).size = .ok 1
      ∧ (m.setParam val).getParam 0 = .ok val
      ∧ (m.setParam val).mParams = Value.array [val]
      ∧ (m.setParam val).mName = m.mName ∧ (m.setParam val).mId = m.mId)
    ∧ ((m.setParamNamed name val).namedParams = true
      ∧ (m.setParamNamed name val).positionalParams = false
      ∧ (m.setParamNamed name val).size = .ok 1
      ∧ (m.setParamNamed name val).getParamNamed name = .ok (val, m.setParamNamed name val)
      ∧ (m.setParamNamed name val).mParams = Value.object [(name, val)]
      ∧ (m.setParamNamed name val).mName = m.mName
      ∧ (m.setParamNamed name val).mId = m.mId)
    ∧ (val.nanFree = true →
      (∃ r, (m.setParam val).getParam 0 = .ok r ∧ Value.eq r val = true)
      ∧ (∃ r m1, (m.setParamNamed name val).getParamNamed name = .ok (r, m1)
          ∧ Value.eq r val = true)) := by
  have h1 : (m.setParam val).getParam 0 = .ok val := by
    simp [MethodCall.getParam, MethodCall.setParam, Value.isType, Value.getType,
      value_cast_Array_ptr]
  have h2 : (m.setParamNamed name val).getParamNamed name
      = .ok (val, m.setParamNamed name val) := by
    simp [MethodCall.getParamNamed, MethodCall.setParamNamed, Value.isType, Value.getType,
      value_cast_Object_ptr, Object.assign, Object.subscript, Object.find]
  exact ⟨⟨rfl, rfl, rfl, h1, rfl, rfl, rfl⟩, ⟨rfl, rfl, rfl, h2, rfl, rfl, rfl⟩,
    fun hn => ⟨⟨val, h1, Value.eq_refl val hn⟩, ⟨val, _, h2, Value.eq_refl val hn⟩⟩⟩

/-- Witness of C12 as amended: `setParam(String("test"))` on the call `system.echo`. -/
theorem MethodCall.setParam_single_witness :
    (Value.string "test").nanFree = true
    ∧ ∃ r, (sampleCall.setParam (Value.string "test")).getParam 0 = .ok r
        ∧ Value.eq r (Value.string "test") = true :=
  ⟨rfl, ((MethodCall.setParam_single sampleCall "a" (Value.string "test")).2.2 rfl).1⟩

/-- Counterexample to C12 as stated: after `setParam(Number(NaN))`, `getParam(0)` returns
the Number NaN, which is not `==` to the value given; likewise after
`setParam("a", Number(NaN))`. -/
theorem MethodCall.setParam_nan_not_eq :
    (sampleCall.setParam (Value.number Double.nan)).getParam 0
      = .ok (Value.number Double.nan)
    ∧ ((sampleCall.setParamNamed "a" (Value.number Double.nan)).getParamNamed "a").map
        Prod.fst = .ok (Value.number Double.nan)
    ∧ Value.eq (Value.number Double.nan) (Value.number Double.nan) = false :=
  ⟨rfl, rfl, by simp [Value.eq_number_number, Double.eq]⟩

/-- C13: for a MethodCall whose parameters are named, `getParam(index)` returns a Null
Value for every integer index; for a MethodCall whose parameters are positional,
`getParam(name)` returns a Null Value for every name; neither fails and the call, its
parameters included, is left as it was. -/
theorem MethodCall.getParam_shape_mismatch (m : MethodCall) :
    (m.namedParams = true → ∀ index : Int, m.getParam index = .ok Value.null)
    ∧ (m.positionalParams = true →
        ∀ name : String, m.getParamNamed name = .ok (Value.null, m)) := by
  constructor
  · intro h index
    simp [MethodCall.getParam, MethodCall.namedParams] at h ⊢
    simp [h]
  · intro h name
    simp [MethodCall.getParamNamed, MethodCall.positionalParams] at h ⊢
    simp [h]

/-- Witness of C13: the positional call `system.echo("test", 42)` asked for a name, and a
named call asked for an index. -/
theorem MethodCall.getParam_shape_mismatch_witness :
    sampleEcho.getParamNamed "test" = .ok (Value.null, sampleEcho)
    ∧ (sampleEcho.setParamNamed "k" (Value.bool true)).getParam 0 = .ok Value.null :=
  ⟨(MethodCall.getParam_shape_mismatch sampleEcho).2 rfl "test",
    (MethodCall.getParam_shape_mismatch (sampleEcho.setParamNamed "k" (Value.bool true))).1
      rfl 0⟩

/-- C14: with the counter `NextMethodId` as explicit state, starting at 0: each construction,
with or without a name, adds one to the counter and gives the new call that value as its
id, so the first call has id 1; in a run of constructions that stays within the range of
`int`, the i-th call gets the i-th value after the start, so a call constructed later has
a strictly greater id; and `addParam`, `setParam`, `clear`, `setName` and `getParam` leave
the id as it is (they, `jsonString` and copying do not touch the counter, which only the
constructors are given). -/
theorem MethodCall.ids_from_counter (names : List (Option String)) (next : Int)
    (hrange : next + names.length ≤ INT_MAX) :
    (∀ (name : String) (n : Int),
        (MethodCall.new name n).2 = n + 1 ∧ (MethodCall.new name n).1.getId = n + 1
        ∧ (MethodCall.newDefault n).2 = n + 1 ∧ (MethodCall.newDefault n).1.getId = n + 1)
    ∧ (∀ name : String, (MethodCall.new name MethodCall.NextMethodId).1.getId = 1
        ∧ (MethodCall.newDefault MethodCall.NextMethodId).1.getId = 1)
    ∧ (MethodCall.constructAll names next).2 = next + names.length
    ∧ (∀ (i : Nat) (m : MethodCall),
        (MethodCall.constructAll names next).1.get? i = some m →
          m.getId = next + i + 1 ∧ m.getId ≤ INT_MAX)
    ∧ (∀ (i j : Nat) (a b : MethodCall), i < j →
        (MethodCall.constructAll names next).1.get? i = some a →
        (MethodCall.constructAll names next).1.get? j = some b → a.getId < b.getId)
    ∧ (∀ (m m' : MethodCall) (name : String) (val : Value) (v : Value),
        (m.addParam val = .ok m' → m'.getId = m.getId)
        ∧ (m.addParamNamed name val = .ok m' → m'.getId = m.getId)
        ∧ (m.setParam val).getId = m.getId
        ∧ (m.setParamNamed name val).getId = m.getId
        ∧ m.clear.getId = m.getId
        ∧ (m.setName name).getId = m.getId
        ∧ (m.getParamNamed name = .ok (v, m') → m'.getId = m.getId)) := by
  obtain ⟨h1, h2, h3⟩ := MethodCall.constructAll_ids names next
  refine ⟨fun name n => ⟨rfl, rfl, rfl, rfl⟩, fun name => ⟨rfl, rfl⟩, h1, ?_, ?_, ?_⟩
  · intro i m hm
    have hi : i < names.length := by
      rw [← h2]
      exact List.get?_eq_some.1 hm |>.1
    refine ⟨h3 i m hm, ?_⟩
    rw [MethodCall.getId, h3 i m hm]
    have : (i : Int) + 1 ≤ names.length := by exact_mod_cast hi
    omega
  · intro i j a b hij ha hb
    rw [MethodCall.getId, MethodCall.getId, h3 i a ha, h3 j b hb]
    have : (i : Int) < j := by exact_mod_cast hij
    omega
  · intro m m' name val v
    refine ⟨?_, ?_, rfl, rfl, rfl, rfl, ?_⟩
    · intro h
      unfold MethodCall.addParam at h
      split at h
      · split at h
        · exact Except.noConfusion h
        · rw [← Except.ok.inj h]
          rfl
      · rw [← Except.ok.inj h]
        rfl
      · exact Except.noConfusion h
    · intro h
      unfold MethodCall.addParamNamed at h
      split at h
      · split at h
        · exact Except.noConfusion h
        · rw [← Except.ok.inj h]
          rfl
      · rw [← Except.ok.inj h]
        rfl
      · exact Except.noConfusion h
    · intro h
      unfold MethodCall.getParamNamed at h
      split at h
      · rw [← (Prod.mk.inj (Except.ok.inj h)).2]
      · split at h
        · exact Except.noConfusion h
        · rw [← (Prod.mk.inj (Except.ok.inj h)).2]
          rfl

/-- Witness of C14: three constructions in a fresh process get the ids 1, 2 and 3. -/
theorem MethodCall.ids_from_counter_witness :
    (MethodCall.constructAll [some "a", none, some "b"] MethodCall.NextMethodId).2 = 3
    ∧ ((MethodCall.constructAll [some "a", none, some "b"] MethodCall.NextMethodId).1.map
        MethodCall.getId) = [1, 2, 3]
    ∧ (MethodCall.constructAll [some "a", none, some "b"] MethodCall.NextMethodId).2
        = MethodCall.NextMethodId + ([some "a", none, some "b"] : List (Option String)).length :=
  ⟨rfl, rfl,
    (MethodCall.ids_from_counter [some "a", none, some "b"] MethodCall.NextMethodId
      (by decide)).2.2.1⟩

/-! ## The ordering of values -/

/-- C15, as the code has it: for every Value `v` of any variant, nested to any depth,
`v < v` is false; and `v == v` is true when no Number in `v` is a NaN. -/
theorem Value.eq_self_lt_self (v : Value) :
    (v.nanFree = true → Value.eq v v = true) ∧ Value.lt v v = false :=
  ⟨Value.eq_refl v, Value.lt_irrefl v⟩

/-- Witness of C15 as amended: the Array `[1, 2, 3]`. -/
theorem Value.eq_self_lt_self_witness :
    sampleArrayD.nanFree = true ∧ Value.eq sampleArrayD sampleArrayD = true
      ∧ Value.lt sampleArrayD sampleArrayD = false :=
  ⟨rfl, (Value.eq_self_lt_self sampleArrayD).1 rfl, (Value.eq_self_lt_self sampleArrayD).2⟩

/-- Counterexample to C15 as stated: the Number NaN is not equal to itself, and neither is
an Array or an Object that holds it. -/
theorem Value.nan_not_eq_self :
    Value.eq (Value.number Double.nan) (Value.number Double.nan) = false
    ∧ Value.eq (Value.array [Value.number Double.nan]) (Value.array [Value.number Double.nan])
        = false
    ∧ Value.eq (Value.object [("a", Value.number Double.nan)])
        (Value.object [("a", Value.number Double.nan)]) = false := by
  refine ⟨?_, ?_, ?_⟩
  · rw [Value.eq_number_number]
    rfl
  · rw [Value.eq_array_array, vectorEq_cons_cons, Value.eq_number_number]
    rfl
  · rw [Value.eq_object_object, mapEq_cons_cons, Value.eq_number_number]
    simp [Double.eq]

/-- C16, as the code has it: for all Values `a`, `b`, `c` of any variants, mixed variants
and nested containers included, in which no Number is a NaN, `a < b` and `b < c` imply
`a < c`. -/
theorem Value.lt_transitive (a b c : Value) (ha : a.nanFree = true) (hb : b.nanFree = true)
    (hc : c.nanFree = true) (hab : Value.lt a b = true) (hbc : Value.lt b c = true) :
    Value.lt a c = true :=
  (Value.transitive a b c ha hb hc).1 hab hbc

/-- Witness of C16 as amended: `[1, 2] < [1, 2, 3] < [2, 0]`. -/
theorem Value.lt_transitive_witness :
    Value.lt sampleArrayC sampleArrayD = true
    ∧ Value.lt sampleArrayD sampleArrayA = true
    ∧ Value.lt sampleArrayC sampleArrayA = true :=
  have h1 : Value.lt sampleArrayC sampleArrayD = true := by
    simp only [sampleArrayC, sampleArrayD, Value.lt_array_array, vectorLess_cons_cons,
      Value.lt_number_number]
    simp [Double.eq, Double.lt, Double.mag, Double.ofInt, vectorLess]
  have h2 : Value.lt sampleArrayD sampleArrayA = true := by
    simp only [sampleArrayA, sampleArrayD, Value.lt_array_array, vectorLess_cons_cons,
      Value.lt_number_number]
    simp [Double.eq, Double.lt, Double.mag, Double.ofInt, vectorLess]
  ⟨h1, h2, Value.lt_transitive sampleArrayC sampleArrayD sampleArrayA rfl rfl rfl h1 h2⟩

/-- Counterexample to C16 as stated: `[2, 0] < [NaN, 1]` and `[NaN, 1] < [1, 2]`, but
`[2, 0] < [1, 2]` is false. -/
theorem Value.lt_not_transitive_with_nan :
    Value.lt sampleArrayA sampleArrayB = true
    ∧ Value.lt sampleArrayB sampleArrayC = true
    ∧ Value.lt sampleArrayA sampleArrayC = false := by
  simp only [sampleArrayA, sampleArrayB, sampleArrayC, Value.lt_array_array,
    vectorLess_cons_cons, Value.lt_number_number]
  simp [Double.eq, Double.lt, Double.mag, Double.ofInt, vectorLess]

/-- C17, as the code has it: for all Values `a` and `b` in which no Number is a NaN,
exactly one of `a < b`, `a == b`, `b < a` holds, and `a == b` if and only if neither
`a < b` nor `b < a`. -/
theorem Value.lt_total (a b : Value) (ha : a.nanFree = true) (hb : b.nanFree = true) :
    ((Value.lt a b = true ∧ Value.eq a b = false ∧ Value.lt b a = false)
      ∨ (Value.lt a b = false ∧ Value.eq a b = true ∧ Value.lt b a = false)
      ∨ (Value.lt a b = false ∧ Value.eq a b = false ∧ Value.lt b a = true))
    ∧ (Value.eq a b = true ↔ (Value.lt a b = false ∧ Value.lt b a = false)) := by
  have h := Value.trichotomy a b ha hb
  refine ⟨h, ?_⟩
  rcases h with ⟨h1, h2, h3⟩ | ⟨h1, h2, h3⟩ | ⟨h1, h2, h3⟩ <;> simp [h1, h2, h3]

/-- Witness of C17 as amended: the Arrays `[1, 2]` and `[1, 2, 3]`. -/
theorem Value.lt_total_witness :
    ((Value.lt sampleArrayC sampleArrayD = true ∧ Value.eq sampleArrayC sampleArrayD = false
        ∧ Value.lt sampleArrayD sampleArrayC = false)
      ∨ (Value.lt sampleArrayC sampleArrayD = false ∧ Value.eq sampleArrayC sampleArrayD = true
        ∧ Value.lt sampleArrayD sampleArrayC = false)
      ∨ (Value.lt sampleArrayC sampleArrayD = false ∧ Value.eq sampleArrayC sampleArrayD = false
        ∧ Value.lt sampleArrayD sampleArrayC = true)) :=
  (Value.lt_total sampleArrayC sampleArrayD rfl rfl).1

/-- Counterexample to C17 as stated: for the Number NaN none of `a < b`, `a == b`, `b < a`
holds with `b` the same NaN, nor with `b` the Number 1. -/
theorem Value.nan_unordered :
    Value.lt (Value.number Double.nan) (Value.number Double.nan) = false
    ∧ Value.eq (Value.number Double.nan) (Value.number Double.nan) = false
    ∧ Value.lt (Value.number Double.nan) (Value.number (Double.ofInt 1)) = false
    ∧ Value.eq (Value.number Double.nan) (Value.number (Double.ofInt 1)) = false
    ∧ Value.lt (Value.number (Double.ofInt 1)) (Value.number Double.nan) = false := by
  simp [Value.lt_number_number, Value.eq_number_number, Double.eq, Double.lt, Double.ofInt]

/-- C18: for all Values `a` and `b` of different variants, `a == b` is false and `a < b`
holds exactly when the variant of `a` comes before that of `b` in the order
Null < Bool < Number < String < Array < Object, whatever the payloads: every Bool is less
than every Number, every Array less than every Object. -/
theorem Value.lt_by_rank (a b : Value) (h : a.getType ≠ b.getType) :
    Value.eq a b = false
    ∧ (Value.lt a b = true ↔ a.getType.toNat < b.getType.toNat)
    ∧ (ValueType.VTNull.toNat < ValueType.VTBool.toNat
      ∧ ValueType.VTBool.toNat < ValueType.VTNumber.toNat
      ∧ ValueType.VTNumber.toNat < ValueType.VTString.toNat
      ∧ ValueType.VTString.toNat < ValueType.VTArray.toNat
      ∧ ValueType.VTArray.toNat < ValueType.VTObject.toNat)
    ∧ (∀ (p : Bool) (d : Double), Value.lt (Value.bool p) (Value.number d) = true
        ∧ Value.lt (Value.number d) (Value.bool p) = false)
    ∧ (∀ (xs : List Value) (ms : List (String × Value)),
        Value.lt (Value.array xs) (Value.object ms) = true
        ∧ Value.lt (Value.object ms) (Value.array xs) = false) := by
  refine ⟨Value.eq_of_type_ne h, ?_, by decide, ?_, ?_⟩
  · rw [Value.lt_of_type_ne h]
    simp
  · intro p d
    rw [Value.lt_of_type_ne (by simp [Value.getType]),
      Value.lt_of_type_ne (by simp [Value.getType])]
    simp [Value.getType, ValueType.toNat]
  · intro xs ms
    rw [Value.lt_of_type_ne (by simp [Value.getType]),
      Value.lt_of_type_ne (by simp [Value.getType])]
    simp [Value.getType, ValueType.toNat]

/-- Witness of C18: the String "a" against the Number NaN. -/
theorem Value.lt_by_rank_witness :
    Value.eq (Value.string "a") (Value.number Double.nan) = false
    ∧ Value.lt (Value.number Double.nan) (Value.string "a") = true
    ∧ Value.lt (Value.string "a") (Value.number Double.nan) = false := by
  have h1 := Value.lt_by_rank (Value.string "a") (Value.number Double.nan)
    (by simp [Value.getType])
  have h2 := Value.lt_by_rank (Value.number Double.nan) (Value.string "a")
    (by simp [Value.getType])
  refine ⟨h1.1, h2.2.1.2 (by decide), ?_⟩
  cases hlt : Value.lt (Value.string "a") (Value.number Double.nan)
  · rfl
  · exact absurd (h1.2.1.1 hlt) (by decide)

/-- C19, as the code has it: for all Arrays `a` and `b`, `a == b` holds exactly when they
have the same length and equal elements at every index; and when the elements of `a` and
`b` hold no NaN, `a < b` holds exactly when there is a first index `i` at which the
elements differ, with `a[i] < b[i]` (the elements before `i` being equal), or `a` is a
proper prefix of `b`. -/
theorem Array.lt_lexicographic (a b : List Value) :
    (Value.eq (Value.array a) (Value.array b) = true ↔
      (a.length = b.length
        ∧ ∀ j, j < a.length → Value.eq (a.getD j Value.null) (b.getD j Value.null) = true))
    ∧ (Value.nanFree.elements a = true → Value.nanFree.elements b = true →
      (Value.lt (Value.array a) (Value.array b) = true ↔
        ((∃ i, i < a.length ∧ i < b.length
            ∧ (∀ j, j < i → Value.eq (a.getD j Value.null) (b.getD j Value.null) = true)
            ∧ Value.lt (a.getD i Value.null) (b.getD i Value.null) = true)
          ∨ (a.length < b.length
            ∧ ∀ j, j < a.length →
                Value.eq (a.getD j Value.null) (b.getD j Value.null) = true)))) := by
  refine ⟨?_, fun ha hb => ?_⟩
  · rw [Value.eq_array_array]
    exact vectorEq_iff_index a b
  · rw [Value.lt_array_array]
    exact vectorLess_iff_index a b ha hb

/-- Witness of C19 as amended: `[1, 2]` is a proper prefix of `[1, 2, 3]`, and `[NaN]` is
not equal to `[NaN]`. -/
theorem Array.lt_lexicographic_witness :
    Value.lt
      (Value.array [Value.number (Double.ofInt 1), Value.number (Double.ofInt 2)])
      (Value.array [Value.number (Double.ofInt 1), Value.number (Double.ofInt 2),
        Value.number (Double.ofInt 3)]) = true
    ∧ ¬ Value.eq (Value.array [Value.number Double.nan])
        (Value.array [Value.number Double.nan]) = true :=
  ⟨((Array.lt_lexicographic
      [Value.number (Double.ofInt 1), Value.number (Double.ofInt 2)]
      [Value.number (Double.ofInt 1), Value.number (Double.ofInt 2),
        Value.number (Double.ofInt 3)]).2 rfl rfl).2
      (Or.inr ⟨by decide, by
        intro j hj
        have hj2 : j < 2 := hj
        interval_cases j <;>
          simp [Value.eq_number_number, Double.eq, Double.mag, Double.ofInt]⟩),
    fun h =>
      have h0 := ((Array.lt_lexicographic [Value.number Double.nan]
        [Value.number Double.nan]).1.1 h).2 0 (by decide)
      by simp [Value.eq_number_number, Double.eq] at h0⟩

/-- Counterexample to C19 as stated: `[NaN] < [1, 2]` holds, although the elements at
index 0 are neither in order nor equal, so that there is no index with `a[i] < b[i]` and
`[NaN]` is not a prefix of `[1, 2]`. -/
theorem Array.lt_with_nan_not_lexicographic :
    Value.lt (Value.array [Value.number Double.nan])
      (Value.array [Value.number (Double.ofInt 1), Value.number (Double.ofInt 2)]) = true
    ∧ Value.lt (Value.number Double.nan) (Value.number (Double.ofInt 1)) = false
    ∧ Value.eq (Value.number Double.nan) (Value.number (Double.ofInt 1)) = false
    ∧ ¬ ((∃ i, i < [Value.number Double.nan].length
          ∧ i < [Value.number (Double.ofInt 1), Value.number (Double.ofInt 2)].length
          ∧ (∀ j, j < i → Value.eq ([Value.number Double.nan].getD j Value.null)
              ([Value.number (Double.ofInt 1), Value.number (Double.ofInt 2)].getD j Value.null)
                = true)
          ∧ Value.lt ([Value.number Double.nan].getD i Value.null)
              ([Value.number (Double.ofInt 1), Value.number (Double.ofInt 2)].getD i Value.null)
                = true)
        ∨ ([Value.number Double.nan].length
            < [Value.number (Double.ofInt 1), Value.number (Double.ofInt 2)].length
          ∧ ∀ j, j < [Value.number Double.nan].length →
              Value.eq ([Value.number Double.nan].getD j Value.null)
                ([Value.number (Double.ofInt 1), Value.number (Double.ofInt 2)].getD j
                  Value.null) = true)) := by
  have hlt : Value.lt (Value.number Double.nan) (Value.number (Double.ofInt 1)) = false := by
    simp [Value.lt_number_number, Double.lt, Double.eq, Double.ofInt]
  have heq : Value.eq (Value.number Double.nan) (Value.number (Double.ofInt 1)) = false := by
    simp [Value.eq_number_number, Double.eq, Double.ofInt]
  have hgt : Value.lt (Value.number (Double.ofInt 1)) (Value.number Double.nan) = false := by
    simp [Value.lt_number_number, Double.lt, Double.eq, Double.ofInt]
  refine ⟨?_, hlt, heq, ?_⟩
  · rw [Value.lt_array_array, vectorLess_cons_cons, hlt, hgt]
    simp [vectorLess]
  · rintro (⟨i, hi, _, _, h⟩ | ⟨_, h⟩)
    · have hi0 : i = 0 := by simpa using hi
      subst hi0
      simp only [List.getD_cons_zero] at h
      rw [hlt] at h
      exact Bool.noConfusion h
    · have h0 := h 0 (by simp)
      simp only [List.getD_cons_zero] at h0
      rw [heq] at h0
      exact Bool.noConfusion h0

/-- C20, as the code has it: for every list of bindings with pairwise distinct keys and
every permutation of it, the two Objects built by assigning the bindings in those orders
are the same sequence of entries, in strictly ascending key order and holding exactly the
bindings; so their `jsonString()` outputs are identical, neither Object is `<` the other,
and the two are equal under `==` when no bound value holds a NaN. -/
theorem Object.ofBindings_order_independent (l l' : List (String × Value))
    (hkeys : (l.map Prod.fst).Nodup) (hperm : l.Perm l') :
    Object.ofBindings l = Object.ofBindings l'
    ∧ Object.Sorted (Object.ofBindings l)
    ∧ (Object.ofBindings l).Perm l
    ∧ Object.jsonString (Object.ofBindings l) = Object.jsonString (Object.ofBindings l')
    ∧ Value.lt (Value.object (Object.ofBindings l)) (Value.object (Object.ofBindings l')) = false
    ∧ Value.lt (Value.object (Object.ofBindings l')) (Value.object (Object.ofBindings l)) = false
    ∧ (Value.nanFree.members l = true →
        Value.eq (Value.object (Object.ofBindings l)) (Value.object (Object.ofBindings l'))
          = true) := by
  have hkeys' : (l'.map Prod.fst).Nodup := (hperm.map Prod.fst).nodup_iff.1 hkeys
  obtain ⟨s1, p1⟩ := Object.ofBindings_sorted_perm l hkeys
  obtain ⟨s2, p2⟩ := Object.ofBindings_sorted_perm l' hkeys'
  have heq : Object.ofBindings l = Object.ofBindings l' :=
    Object.eq_of_sorted_of_perm _ _ s1 s2 (p1.trans (hperm.trans p2.symm))
  refine ⟨heq, s1, p1, by rw [heq], ?_, ?_, ?_⟩
  · rw [heq]
    exact Value.lt_irrefl _
  · rw [heq]
    exact Value.lt_irrefl _
  · intro hnan
    rw [← heq]
    exact Value.eq_refl _ (by
      simpa [Value.nanFree] using Value.nanFree.members_perm p1.symm hnan)

/-- Witness of C20 as amended: three bindings assigned in two orders. -/
theorem Object.ofBindings_order_independent_witness :
    Object.ofBindings sampleBindings = Object.ofBindings sampleBindingsPermuted
    ∧ Object.jsonString (Object.ofBindings sampleBindings)
        = "\x7b\"second\": \"string\", \"test\": [5, true, null], \"third\": 24\x7d"
    ∧ Value.eq (Value.object (Object.ofBindings sampleBindings))
        (Value.object (Object.ofBindings sampleBindingsPermuted)) = true :=
  have h := Object.ofBindings_order_independent sampleBindings sampleBindingsPermuted
    (by decide)
    (@List.perm_append_comm _
      [("test", Value.array [Value.number (Double.ofInt 5), Value.bool true, Value.null]),
        ("second", Value.string "string")]
      [("third", Value.number (Double.ofInt 24))])
  ⟨h.1, rfl, h.2.2.2.2.2.2 rfl⟩

/-- Counterexample to C20 as stated: the Object built from the one binding `"a" -> NaN` is
not equal under `==` to the Object built from the same binding. -/
theorem Object.ofBindings_nan_not_eq :
    (([("a", Value.number Double.nan)] : List (String × Value)).map Prod.fst).Nodup
    ∧ ([("a", Value.number Double.nan)] : List (String × Value)).Perm
        [("a", Value.number Double.nan)]
    ∧ Value.eq (Value.object (Object.ofBindings [("a", Value.number Double.nan)]))
        (Value.object (Object.ofBindings [("a", Value.number Double.nan)])) = false := by
  refine ⟨by simp, List.Perm.refl _, ?_⟩
  have : Object.ofBindings [("a", Value.number Double.nan)]
      = [("a", Value.number Double.nan)] := rfl
  rw [this, Value.eq_object_object, mapEq_cons_cons, Value.eq_number_number]
  simp [Double.eq]


/-! ## String::escapeString, Array::doJsonString, Object::doJsonString -/

/-- C21 (the code departs from the claim): `String::escapeString` does map each character
of its input to an image, in order, and for every character but the double quote the image
is the claimed one; the double quote gives three characters, backslash, backslash, double
quote, not the claimed two, because the backslash written by the first pass is doubled by
the second pass. -/
theorem String.escapeString_quote_three :
    String.escapeString (String.mk [dquote]) = String.mk [backslash, backslash, dquote]
    ∧ (String.escapeString (String.mk [dquote])).length = 3
    ∧ String.escapeString (String.mk [dquote])
        ≠ String.mk (String.escapeString.image_spec dquote)
    ∧ (∀ str : String,
        String.escapeString str = String.mk (str.data.flatMap String.escapeString.image))
    ∧ (∀ x : Char,
        x = dquote ∨ String.escapeString.image x = String.escapeString.image_spec x) := by
  refine ⟨rfl, rfl, by decide, String.escapeString_eq_flatMap, ?_⟩
  intro x
  by_cases h : x = dquote
  · exact Or.inl h
  · exact Or.inr (by simp [String.escapeString.image, String.escapeString.image_spec, h])

/-- C22: the text of an Array is `[`, the texts of its elements in index order joined by
comma-space, and `]`; the text of an Object is an opening brace, its members in the order
of the map joined by comma-space, each member being the escaped key in double quotes,
colon-space and the text of the value, and a closing brace; the order of the map is
ascending key order, which the empty Object has and every assignment keeps; the empty Array
is `[]` and the empty Object is a pair of braces. -/
theorem Value.jsonString_array_object (xs : List Value) (ms : Object)
    (hs : Object.Sorted ms) :
    (Value.array xs).jsonString = "[" ++ ", ".intercalate (xs.map Value.jsonString) ++ "]"
    ∧ Object.jsonString ms
        = "\x7b" ++ ", ".intercalate (ms.map (fun e =>
            "\"" ++ String.escapeString e.1 ++ "\"" ++ ": " ++ e.2.jsonString)) ++ "\x7d"
    ∧ List.Pairwise (fun k l => strLt k l = true) (ms.map Prod.fst)
    ∧ (∀ (k : String) (v : Value), Object.Sorted (Object.assign ms k v))
    ∧ Object.Sorted []
    ∧ (Value.array []).jsonString = "[]"
    ∧ Object.jsonString [] = "\x7b\x7d" := by
  refine ⟨?_, ?_, ?_, fun k v => Object.sorted_assign ms k v hs, ?_, rfl, rfl⟩
  · rw [Value.jsonString, Array.doJsonString.array_loop_eq_intercalate]
  · rw [Object.jsonString, Value.jsonString, Object.doJsonString.object_loop_eq_intercalate]
    rfl
  · rw [List.pairwise_map]
    exact hs
  · simp [Object.Sorted]

/-- C22 at the Array `[1, 2, 3]` and the Object built from three bindings. -/
theorem Value.jsonString_array_object_witness :
    Object.Sorted (Object.ofBindings sampleBindings)
    ∧ (Value.array [Value.number (Double.ofInt 1), Value.number (Double.ofInt 2),
        Value.number (Double.ofInt 3)]).jsonString = "[1, 2, 3]"
    ∧ Object.jsonString (Object.ofBindings sampleBindings)
        = "\x7b\"second\": \"string\", \"test\": [5, true, null], \"third\": 24\x7d" :=
  have h := Value.jsonString_array_object
    [Value.number (Double.ofInt 1), Value.number (Double.ofInt 2),
      Value.number (Double.ofInt 3)]
    (Object.ofBindings sampleBindings)
    (Object.ofBindings_sorted_perm sampleBindings (by decide)).1
  ⟨(Object.ofBindings_sorted_perm sampleBindings (by decide)).1, h.1.trans (by decide),
    h.2.1.trans (by decide)⟩

/-! ## value_cast -/

/-- C23: for every Value and each of the six payload types, the throwing cast fails exactly
when the discriminant of the Value is not that of the type, the failure is then the
`BadCastException` with code -3002, and a cast that succeeds returns the payload of the
Value; casting `Value(Bool(true))` to Number fails with that exception and casting it to
Bool yields `true`. -/
theorem value_cast_fails_iff_type_differs (v : Value) :
    ((∀ f, value_cast_Null v = .error f ↔ (v.getType ≠ .VTNull ∧ f = BadCast))
      ∧ (value_cast_Null v = .ok () ↔ v = Value.null))
    ∧ ((∀ f, value_cast_Bool v = .error f ↔ (v.getType ≠ .VTBool ∧ f = BadCast))
      ∧ (∀ b, value_cast_Bool v = .ok b ↔ v = Value.bool b))
    ∧ ((∀ f, value_cast_Number v = .error f ↔ (v.getType ≠ .VTNumber ∧ f = BadCast))
      ∧ (∀ d, value_cast_Number v = .ok d ↔ v = Value.number d))
    ∧ ((∀ f, value_cast_String v = .error f ↔ (v.getType ≠ .VTString ∧ f = BadCast))
      ∧ (∀ s, value_cast_String v = .ok s ↔ v = Value.string s))
    ∧ ((∀ f, value_cast_Array v = .error f ↔ (v.getType ≠ .VTArray ∧ f = BadCast))
      ∧ (∀ xs, value_cast_Array v = .ok xs ↔ v = Value.array xs))
    ∧ ((∀ f, value_cast_Object v = .error f ↔ (v.getType ≠ .VTObject ∧ f = BadCast))
      ∧ (∀ ms, value_cast_Object v = .ok ms ↔ v = Value.object ms))
    ∧ BadCast = .exn (Exception.mk (-3002) "Failed conversion using value_cast"
        "BadCastException")
    ∧ value_cast_Number (Value.bool true) = .error BadCast
    ∧ value_cast_Bool (Value.bool true) = .ok true := by
  have hb : ∀ f : Fault,
      (Fault.exn (Exception.mk (-3002) "Failed conversion using value_cast"
        "BadCastException") = f) ↔ f = BadCast := fun f => eq_comm
  refine ⟨?_, ?_, ?_, ?_, ?_, ?_, rfl, rfl, rfl⟩ <;>
    cases v <;>
    simp [value_cast_Null, value_cast_Bool, value_cast_Number, value_cast_String,
      value_cast_Array, value_cast_Object, Value.getType, JSONRPC_EXCEPT,
      ExceptionFactory.create, ExceptionCodes.number, ExceptionCodes.typeName, hb]

/-- C24: the probing cast returns a handle or the null handle, never a failure; for every
Value and each of the six payload types it is the throwing cast with the failure turned
into the null handle, so it is null exactly when the throwing cast fails with the
`BadCastException` and otherwise holds the payload of the Value; casting a String value to
`Number::ptr` gives the null handle. -/
theorem value_cast_ptr_refines (v : Value) :
    (value_cast_Null_ptr v = value_cast_ptr_spec (value_cast_Null v)
      ∧ (value_cast_Null_ptr v = none ↔ value_cast_Null v = .error BadCast)
      ∧ (value_cast_Null_ptr v = some () ↔ v = Value.null))
    ∧ (value_cast_Bool_ptr v = value_cast_ptr_spec (value_cast_Bool v)
      ∧ (value_cast_Bool_ptr v = none ↔ value_cast_Bool v = .error BadCast)
      ∧ (∀ b, value_cast_Bool_ptr v = some b ↔ v = Value.bool b))
    ∧ (value_cast_Number_ptr v = value_cast_ptr_spec (value_cast_Number v)
      ∧ (value_cast_Number_ptr v = none ↔ value_cast_Number v = .error BadCast)
      ∧ (∀ d, value_cast_Number_ptr v = some d ↔ v = Value.number d))
    ∧ (value_cast_String_ptr v = value_cast_ptr_spec (value_cast_String v)
      ∧ (value_cast_String_ptr v = none ↔ value_cast_String v = .error BadCast)
      ∧ (∀ s, value_cast_String_ptr v = some s ↔ v = Value.string s))
    ∧ (value_cast_Array_ptr v = value_cast_ptr_spec (value_cast_Array v)
      ∧ (value_cast_Array_ptr v = none ↔ value_cast_Array v = .error BadCast)
      ∧ (∀ xs, value_cast_Array_ptr v = some xs ↔ v = Value.array xs))
    ∧ (value_cast_Object_ptr v = value_cast_ptr_spec (value_cast_Object v)
      ∧ (value_cast_Object_ptr v = none ↔ value_cast_Object v = .error BadCast)
      ∧ (∀ ms, value_cast_Object_ptr v = some ms ↔ v = Value.object ms))
    ∧ value_cast_Number_ptr (Value.string "string") = none := by
  refine ⟨?_, ?_, ?_, ?_, ?_, ?_, rfl⟩ <;>
    cases v <;>
    simp [value_cast_Null, value_cast_Bool, value_cast_Number, value_cast_String,
      value_cast_Array, value_cast_Object, value_cast_Null_ptr, value_cast_Bool_ptr,
      value_cast_Number_ptr, value_cast_String_ptr, value_cast_Array_ptr,
      value_cast_Object_ptr, value_cast_ptr_spec, BadCast, JSONRPC_EXCEPT,
      ExceptionFactory.create, ExceptionCodes.number, ExceptionCodes.typeName]

/-! ## Object::hasKey, Object::get -/

/-- C25: for every Object (a map, its entries in ascending key order), key and default,
`hasKey` is true exactly when the Object holds a binding for the key, `get` returns the
bound value when there is one and the default when `hasKey` is false; both are const
member functions that look the key up with `find` and return no Object, so the Object is
the same after the call, whereas `operator[]` on a missing key does insert; for the Object
holding only `second`, `get("undef", Array())` is the empty Array, `hasKey("second")` is
true and `hasKey("third")` is false. -/
theorem Object.hasKey_get_lookup (o : Object) (k : String) (d : Value)
    (hs : Object.Sorted o) :
    (Object.hasKey o k = true ↔ ∃ v, (k, v) ∈ o)
    ∧ (∀ v, (k, v) ∈ o → Object.get o k d = v)
    ∧ (Object.hasKey o k = true → ∃ v, (k, v) ∈ o ∧ Object.get o k d = v)
    ∧ (Object.hasKey o k = false → Object.get o k d = d)
    ∧ (Object.hasKey o k = false →
        (Object.subscript o k).2 = Object.assign o k Value.null
        ∧ Object.hasKey (Object.subscript o k).2 k = true)
    ∧ Object.get sampleDict "undef" (Value.array []) = Value.array []
    ∧ Object.hasKey sampleDict "second" = true
    ∧ Object.hasKey sampleDict "third" = false := by
  have hget : ∀ v, (k, v) ∈ o → Object.get o k d = v := by
    intro v hv
    simp [Object.get, Object.find_of_mem_sorted o k v hs hv]
  refine ⟨?_, hget, ?_, ?_, ?_, rfl, rfl, rfl⟩
  · rw [Object.hasKey_eq_true_iff]
    constructor
    · rintro ⟨v, hv⟩
      exact ⟨v, Object.mem_of_find o k v hv⟩
    · rintro ⟨v, hv⟩
      exact ⟨v, Object.find_of_mem_sorted o k v hs hv⟩
  · intro h
    obtain ⟨v, hv⟩ := (Object.hasKey_eq_true_iff o k).1 h
    exact ⟨v, Object.mem_of_find o k v hv, hget v (Object.mem_of_find o k v hv)⟩
  · intro h
    rw [Object.hasKey_eq_false_iff] at h
    simp [Object.get, h]
  · intro h
    rw [Object.hasKey_eq_false_iff] at h
    have h2 : (Object.subscript o k).2 = Object.assign o k Value.null := by
      simp [Object.subscript, h]
    refine ⟨h2, ?_⟩
    rw [h2, Object.hasKey_eq_true_iff]
    exact ⟨Value.null, by rw [Object.find_assign]; simp⟩

/-- C25 at the Object holding only `second`, with the key `second` and then `undef`. -/
theorem Object.hasKey_get_lookup_witness :
    Object.Sorted sampleDict
    ∧ Object.get sampleDict "second" (Value.array []) = Value.string "string"
    ∧ Object.get sampleDict "undef" (Value.array []) = Value.array [] :=
  have hs : Object.Sorted sampleDict :=
    (Object.ofBindings_sorted_perm [("second", Value.string "string")] (by decide)).1
  ⟨hs,
    (Object.hasKey_get_lookup sampleDict "second" (Value.array []) hs).2.1
      (Value.string "string") (List.mem_cons_self _ _),
    (Object.hasKey_get_lookup sampleDict "undef" (Value.array []) hs).2.2.2.1 rfl⟩

/-! ## parse, constructValue -/

/-- C26: for every text, `parse` fails exactly when the root node the external parser
returns for it is not an object node, the failure is then the `ParseErrorException` with
code -32700, and `parse` returns a Value only for an object root, namely its conversion;
so a root that is an array, a string, an integral or floating number, a boolean or empty
(null, and what the external parser returns for text it cannot read, such as `hello`)
gives the failure. -/
theorem parse_fails_unless_object (jsonParse : JsonParse) (text : String) :
    (∀ f, parse jsonParse text = .error f ↔
      ((¬ ∃ o, jsonParse text = Variant.object o)
        ∧ f = .exn (Exception.mk (-32700) "Error parsing json input" "ParseErrorException")))
    ∧ (∀ v, parse jsonParse text = .ok v ↔
        ∃ o, jsonParse text = Variant.object o ∧ v = constructValue (Variant.object o))
    ∧ (∀ xs, parse (fun _ => Variant.array xs) text
        = .error (.exn (Exception.mk (-32700) "Error parsing json input"
            "ParseErrorException")))
    ∧ (∀ s, parse (fun _ => Variant.string s) text
        = .error (.exn (Exception.mk (-32700) "Error parsing json input"
            "ParseErrorException")))
    ∧ (∀ i, parse (fun _ => Variant.int i) text
        = .error (.exn (Exception.mk (-32700) "Error parsing json input"
            "ParseErrorException")))
    ∧ (∀ d, parse (fun _ => Variant.double d) text
        = .error (.exn (Exception.mk (-32700) "Error parsing json input"
            "ParseErrorException")))
    ∧ (∀ b, parse (fun _ => Variant.bool b) text
        = .error (.exn (Exception.mk (-32700) "Error parsing json input"
            "ParseErrorException")))
    ∧ parse (fun _ => Variant.empty) "hello"
        = .error (.exn (Exception.mk (-32700) "Error parsing json input"
            "ParseErrorException")) := by
  refine ⟨?_, ?_, fun _ => rfl, fun _ => rfl, fun _ => rfl, fun _ => rfl, fun _ => rfl, rfl⟩
  · intro f
    unfold parse
    cases h : jsonParse text <;>
      simp [JSONRPC_EXCEPT, ExceptionFactory.create, ExceptionCodes.number,
        ExceptionCodes.typeName, eq_comm]
  · intro v
    unfold parse
    cases h : jsonParse text <;>
      simp [JSONRPC_EXCEPT, ExceptionFactory.create, ExceptionCodes.number,
        ExceptionCodes.typeName, eq_comm]

/-- C27: `constructValue` gives Null for an empty node, the Bool with the same truth value
for a boolean node, the Number with the same numeric value for an integral or floating
node, the String with the same text for a text node, for an ordered-child node the Array of
the same length whose element at each index is the conversion of the child at that index,
and for a keyed-child node (a map, its keys distinct) the Object with exactly the keys of
the node, each bound to the conversion of its child. -/
theorem constructValue_structural (xs : List Variant) (ms : List (String × Variant))
    (hkeys : (ms.map Prod.fst).Nodup) :
    constructValue Variant.empty = Value.null
    ∧ (∀ b, constructValue (Variant.bool b) = Value.bool b)
    ∧ (∀ i : Int, constructValue (Variant.int i) = Value.number (Double.ofInt i)
        ∧ Double.ofInt i = Double.fin (i : ℚ))
    ∧ (∀ d, constructValue (Variant.double d) = Value.number d)
    ∧ (∀ s, constructValue (Variant.string s) = Value.string s)
    ∧ (constructValue (Variant.array xs) = Value.array (xs.map constructValue)
        ∧ (xs.map constructValue).length = xs.length
        ∧ ∀ i : Nat, (xs.map constructValue)[i]? = (xs[i]?).map constructValue)
    ∧ (∃ o : Object, constructValue (Variant.object ms) = Value.object o
        ∧ Object.Sorted o
        ∧ o.length = ms.length
        ∧ (∀ k, Object.hasKey o k = true ↔ k ∈ ms.map Prod.fst)
        ∧ (∀ k x, (k, x) ∈ ms → Object.find o k = some (constructValue x))) := by
  refine ⟨rfl, fun _ => rfl, fun _ => ⟨rfl, rfl⟩, fun _ => rfl, fun _ => rfl, ?_, ?_⟩
  · refine ⟨?_, List.length_map _ _, fun i => List.getElem?_map _ _ _⟩
    rw [constructValue, constructValue.arrayLoop_eq_map]
  · have hk : ((ms.map (fun e => (e.1, constructValue e.2))).map Prod.fst).Nodup := by
      have : (ms.map (fun e => (e.1, constructValue e.2))).map Prod.fst = ms.map Prod.fst := by
        rw [List.map_map]
        rfl
      rw [this]
      exact hkeys
    obtain ⟨hsorted, hperm⟩ :=
      Object.ofBindings_sorted_perm (ms.map (fun e => (e.1, constructValue e.2))) hk
    refine ⟨Object.ofBindings (ms.map (fun e => (e.1, constructValue e.2))), ?_, hsorted, ?_,
      ?_, ?_⟩
    · rw [constructValue, constructValue.objectLoop_eq_ofBindings]
    · rw [hperm.length_eq, List.length_map]
    · intro k
      rw [Object.hasKey_eq_true_iff]
      constructor
      · rintro ⟨v, hv⟩
        have hmem := hperm.subset (Object.mem_of_find _ k v hv)
        obtain ⟨e, he, heq⟩ := List.mem_map.1 hmem
        simp only [Prod.mk.injEq] at heq
        exact List.mem_map.2 ⟨e, he, heq.1⟩
      · intro hk2
        obtain ⟨e, he, heq⟩ := List.mem_map.1 hk2
        refine ⟨constructValue e.2, Object.find_of_mem_sorted _ k _ hsorted ?_⟩
        exact hperm.symm.subset (List.mem_map.2 ⟨e, he, by rw [← heq]⟩)
    · intro k x hx
      refine Object.find_of_mem_sorted _ k _ hsorted ?_
      exact hperm.symm.subset (List.mem_map.2 ⟨(k, x), hx, rfl⟩)

/-- C27 at an ordered node of four children and a keyed node with the keys `Hello`, `id`. -/
theorem constructValue_structural_witness :
    (sampleNodeBindings.map Prod.fst).Nodup
    ∧ constructValue (Variant.array sampleNodeChildren)
        = Value.array [Value.string "abc", Value.number (Double.ofInt 1), Value.bool true,
            Value.null]
    ∧ ∃ o : Object, constructValue (Variant.object sampleNodeBindings) = Value.object o
        ∧ Object.find o "id" = some (Value.number (Double.ofInt 7)) :=
  have h := constructValue_structural sampleNodeChildren sampleNodeBindings (by decide)
  ⟨by decide, h.2.2.2.2.2.1.1,
    h.2.2.2.2.2.2.elim fun o ho =>
      ⟨o, ho.1, ho.2.2.2.2 "id" (Variant.int 7) (by simp [sampleNodeBindings])⟩⟩

/-- C28, refuted as stated: no Value is equal to the Object binding `a` to NaN, so no parser
makes that Object round trip; and the Objects binding `a` to the Numbers 1234567 and
1234570, which are not equal, have the same text, the Number being written with six
significant digits, so no parser makes both round trip. The texts written for the Object
binding `a` to positive infinity and for the Object binding `a` to the String of one
double quote denote no tree as JSON texts. -/
theorem Object.jsonString_not_round_trip :
    (¬ ∃ jsonParse : JsonParse, RoundTrips jsonParse nanObject)
    ∧ Object.jsonString sampleObjectP = "\x7b\"a\": 1.23457e+06\x7d"
    ∧ Object.jsonString sampleObjectQ = "\x7b\"a\": 1.23457e+06\x7d"
    ∧ Value.eq (Value.object sampleObjectP) (Value.object sampleObjectQ) = false
    ∧ (¬ ∃ jsonParse : JsonParse,
        RoundTrips jsonParse sampleObjectP ∧ RoundTrips jsonParse sampleObjectQ)
    ∧ Object.jsonString infObject = "\x7b\"a\": inf\x7d"
    ∧ (¬ ∃ node : Variant, JsonText node (Object.jsonString infObject).data)
    ∧ Object.jsonString quoteObject = "\x7b\"a\": \"\\\\\"\"\x7d"
    ∧ (¬ ∃ node : Variant, JsonText node (Object.jsonString quoteObject).data) := by
  have hab : Double.eq (Double.ofInt 1234567) (Double.ofInt 1234570) = false := by decide
  have hP : Object.jsonString sampleObjectP = "\x7b\"a\": 1.23457e+06\x7d" := by decide
  have hQ : Object.jsonString sampleObjectQ = "\x7b\"a\": 1.23457e+06\x7d" := by decide
  refine ⟨?_, hP, hQ, ?_, ?_, by decide, ?_, by decide, ?_⟩
  · rintro ⟨jsonParse, v, _, he⟩
    rw [nanObject, Value.not_eq_nan_member] at he
    exact Bool.noConfusion he
  · rw [sampleObjectP, sampleObjectQ, Value.eq_object_object, mapEq_cons_cons,
      Value.eq_number_number, hab]
    simp
  · rintro ⟨jsonParse, ⟨v, hv, he⟩, ⟨u, hu, hf⟩⟩
    rw [hP] at hv
    rw [hQ, hv] at hu
    simp only [Except.ok.injEq] at hu
    subst hu
    exact Value.not_eq_both v "a" _ _ hab ⟨he, hf⟩
  · rintro ⟨node, h⟩
    exact JsonText.not_infObject node h
  · rintro ⟨node, h⟩
    exact JsonText.not_quoteObject node h

/-- C28 (amended): for every Object in which the text written for each Number denotes that
Number (so none is NaN or infinite and none needs more than the six significant digits
written), in which no String and no key holds a double quote, and whose maps, at every
depth, are in key order: if the external parser returns, for the text `jsonString` writes
for the Object, the tree that this text denotes as a JSON text, then `parse` of the text
succeeds and yields a Value equal to the Object under `==`. -/
theorem parse_round_trip_of_json_text (jsonParse : JsonParse) (o : Object)
    (hplain : (Value.object o).plain = true) (hord : (Value.object o).Ordered)
    (hparser : ∀ node : Variant, JsonText node (Object.jsonString o).data →
      jsonParse (Object.jsonString o) = node) :
    RoundTrips jsonParse o := by
  have ht := hparser _ (Value.jsonText_toNode (Value.object o) hplain)
  refine ⟨constructValue (Value.object o).toNode, ?_,
    Value.eq_constructValue_toNode _ hplain hord⟩
  unfold parse
  rw [ht, Value.toNode]

/-- C28 (amended) at the Object with the one member `a`, bound to 1, with a parser that
reads its text as the one tree this text denotes. -/
theorem parse_round_trip_of_json_text_witness :
    (Value.object sampleObjectOne).plain = true
    ∧ (Value.object sampleObjectOne).Ordered
    ∧ Object.jsonString sampleObjectOne = "\x7b\"a\": 1\x7d"
    ∧ JsonText sampleObjectOneNode (Object.jsonString sampleObjectOne).data
    ∧ RoundTrips (fun _ => sampleObjectOneNode) sampleObjectOne :=
  have hplain : (Value.object sampleObjectOne).plain = true := by decide
  have hord : (Value.object sampleObjectOne).Ordered := by
    simp [Value.Ordered, Value.Ordered.members, sampleObjectOne, Object.Sorted]
  ⟨hplain, hord, by decide, Value.jsonText_toNode (Value.object sampleObjectOne) hplain,
    parse_round_trip_of_json_text (fun _ => sampleObjectOneNode) sampleObjectOne hplain hord
      JsonText.of_sampleObjectOne⟩

/-! ## TCPIPConnection::sendRecieve, connect, disconnect -/

/-- C29: once `sendRecieve` has connected, a library exception raised by `write`, or by
`read` after a `write` that returned, reaches the caller as an exception with the same
code, description and type tag, and with the socket handle closed and reset to -1; when
both return, the bytes read are returned, the handle likewise closed and reset to -1. -/
theorem TCPIPConnection.sendRecieve_releases (c : TCPIPConnection) (w : World)
    (buff : String) (c1 : TCPIPConnection) (w1 : World)
    (hconn : c.connect w = (.ok (), c1, w1)) :
    (∀ e c2 w2, c1.write w1 buff 0 none = (.error (.exn e), c2, w2) →
      c.sendRecieve w buff
        = (.error (.exn e), { mSocketfd := -1 },
            { w2 with log := w2.log ++ [Event.close c2.mSocketfd] }))
    ∧ (∀ c2 w2, c1.write w1 buff 0 none = (.ok (), c2, w2) →
      (∀ e c3 w3, c2.read w2 0 none = (.error (.exn e), c3, w3) →
        c.sendRecieve w buff
          = (.error (.exn e), { mSocketfd := -1 },
              { w3 with log := w3.log ++ [Event.close c3.mSocketfd] }))
      ∧ (∀ ret c3 w3, c2.read w2 0 none = (.ok ret, c3, w3) →
        c.sendRecieve w buff
          = (.ok ret, { mSocketfd := -1 },
              { w3 with log := w3.log ++ [Event.close c3.mSocketfd] }))) := by
  refine ⟨?_, ?_⟩
  · intro e c2 w2 hw
    simp [TCPIPConnection.sendRecieve, hconn, hw, TCPIPConnection.disconnect]
  · intro c2 w2 hw
    refine ⟨?_, ?_⟩
    · intro e c3 w3 hr
      simp [TCPIPConnection.sendRecieve, hconn, hw, hr, TCPIPConnection.disconnect]
    · intro ret c3 w3 hr
      simp [TCPIPConnection.sendRecieve, hconn, hw, hr, TCPIPConnection.disconnect]

/-- C29 with a `send` that fails, with a `recv` that fails, and with an exchange that
succeeds, from a disconnected connection for which `socket` gives handle 3. -/
theorem TCPIPConnection.sendRecieve_releases_witness :
    TCPIPConnection.sendRecieve sampleConn sendFailsWorld sampleRequest
      = (.error (.exn (Exception.mk (-3004) "network send failed: Connection reset by peer"
            "TransportErrorException")),
          { mSocketfd := -1 },
          { socketResults := [], connectResults := [], sendResults := [], recvResults := [],
            errorString := "Connection reset by peer",
            log := [Event.socket, Event.connect 3, Event.send 3 sampleRequest 52,
              Event.close 3] })
    ∧ TCPIPConnection.sendRecieve sampleConn recvFailsWorld sampleRequest
      = (.error (.exn (Exception.mk (-3004) "network recv failed: Connection reset by peer"
            "TransportErrorException")),
          { mSocketfd := -1 },
          { socketResults := [], connectResults := [], sendResults := [], recvResults := [],
            errorString := "Connection reset by peer",
            log := [Event.socket, Event.connect 3, Event.send 3 sampleRequest 52,
              Event.recv 3 4096, Event.close 3] })
    ∧ TCPIPConnection.sendRecieve sampleConn (sampleWorld 52 "[1]") sampleRequest
      = (.ok "[1]", { mSocketfd := -1 }, sampleWorldAfter sampleRequest 52) :=
  ⟨(TCPIPConnection.sendRecieve_releases sampleConn sendFailsWorld sampleRequest _ _ rfl).1
      _ _ _ rfl,
    ((TCPIPConnection.sendRecieve_releases sampleConn recvFailsWorld sampleRequest _ _ rfl).2
      _ _ rfl).1 _ _ _ rfl,
    ((TCPIPConnection.sendRecieve_releases sampleConn (sampleWorld 52 "[1]") sampleRequest
      _ _ rfl).2 _ _ rfl).2 _ _ _ rfl⟩

/-- C30: `connect` on a connection whose handle is not -1 returns with the connection and
the world as they were, no socket operation made, so a `connect` after a `connect` that
returned changes nothing; `disconnect` leaves the handle -1 whatever it was, also when it
was -1 already, so a second `disconnect` leaves the connection as the first left it. -/
theorem TCPIPConnection.connect_disconnect_idempotent (c : TCPIPConnection) (w : World) :
    (c.mSocketfd ≠ -1 → c.connect w = (.ok (), c, w))
    ∧ (∀ c1 w1, c.connect w = (.ok (), c1, w1) →
        c1.mSocketfd ≠ -1 ∧ c1.connect w1 = (.ok (), c1, w1))
    ∧ (c.disconnect w).1.mSocketfd = -1
    ∧ (∀ w2 : World, ((c.disconnect w).1.disconnect w2).1 = (c.disconnect w).1)
    ∧ (c.mSocketfd = -1 → (c.disconnect w).1 = c) := by
  have h1 : ∀ (d : TCPIPConnection) (u : World), d.mSocketfd ≠ -1 →
      d.connect u = (.ok (), d, u) := by
    intro d u hd
    simp [TCPIPConnection.connect, hd]
  refine ⟨h1 c w, ?_, rfl, fun _ => rfl, ?_⟩
  · intro c1 w1 h
    have hne : c1.mSocketfd ≠ -1 := by
      unfold TCPIPConnection.connect at h
      split at h
      · rename_i hc
        simp only [Prod.mk.injEq] at h
        rw [← h.2.1]
        exact hc
      · split at h
        · simp at h
        · rename_i fd socks hsock
          simp only at h
          split at h
          · simp [JSONRPC_EXCEPT] at h
          · rename_i hfd
            split at h
            · simp at h
            · split at h
              · simp [JSONRPC_EXCEPT] at h
              · simp only [Prod.mk.injEq] at h
                rw [← h.2.1]
                exact hfd
    exact ⟨hne, h1 c1 w1 hne⟩
  · intro hc
    cases c
    simp only [TCPIPConnection.disconnect] at hc ⊢
    rw [hc]

/-- C30 at a connection with handle 3, and at a disconnected connection for which `socket`
gives handle 3 and `connect` succeeds. -/
theorem TCPIPConnection.connect_disconnect_idempotent_witness :
    TCPIPConnection.connect connectedConn (sampleWorld 52 "[1]")
      = (.ok (), connectedConn, sampleWorld 52 "[1]")
    ∧ (TCPIPConnection.connect sampleConn (sampleWorld 52 "[1]")
        = (.ok (), connectedConn,
            { socketResults := [], connectResults := [], sendResults := [52],
              recvResults := [RecvResult.bytes "[1]"],
              errorString := "Connection reset by peer",
              log := [Event.socket, Event.connect 3] })
      ∧ TCPIPConnection.connect connectedConn
          { socketResults := [], connectResults := [], sendResults := [52],
            recvResults := [RecvResult.bytes "[1]"],
            errorString := "Connection reset by peer",
            log := [Event.socket, Event.connect 3] }
        = (.ok (), connectedConn,
            { socketResults := [], connectResults := [], sendResults := [52],
              recvResults := [RecvResult.bytes "[1]"],
              errorString := "Connection reset by peer",
              log := [Event.socket, Event.connect 3] }))
    ∧ (TCPIPConnection.disconnect sampleConn (sampleWorld 52 "[1]")).1 = sampleConn :=
  ⟨(TCPIPConnection.connect_disconnect_idempotent connectedConn (sampleWorld 52 "[1]")).1
      (by decide),
    ⟨rfl,
      ((TCPIPConnection.connect_disconnect_idempotent sampleConn (sampleWorld 52 "[1]")).2.1
        _ _ rfl).2⟩,
    (TCPIPConnection.connect_disconnect_idempotent sampleConn (sampleWorld 52 "[1]")).2.2.2.2
      rfl⟩

/-! ## TCPIPConnection::write -/

/-- C31, as the code has it: for a buffer of at most `INT_MAX` bytes and a length that is 0
or at most that of the buffer, in a run of `write` in which each `send` accepts at least
one byte and at most the bytes requested: the run consumes some of the results, each
request is for 1 to 4096 bytes, and with a callback each request is followed by exactly one
invocation, with the bytes sent so far and the total length; the first argument grows
strictly, never exceeds the second, and is the second on the last invocation when the
`write` returns; without a callback there is no invocation. -/
theorem TCPIPConnection.write_chunks_and_reports (c : TCPIPConnection) (w : World)
    (buff : String) (len : Int) (callback : Callback)
    (hlen : len = 0 ∨ len ≤ buff.length) (hmax : (buff.length : Int) ≤ INT_MAX)
    (hsends : TCPIPConnection.write.sendsSucceed (if len = 0 then buff.length else len) 0
      w.sendResults = true) :
    ∃ used rest, w.sendResults = used ++ rest
      ∧ (c.write w buff len callback).2.2.sendResults = rest
      ∧ (c.write w buff len callback).2.2.log
          = w.log ++ writeTrace c.mSocketfd buff (if len = 0 then buff.length else len)
              callback.isSome 0 used
      ∧ (∀ size ∈ sendSizes (writeTrace c.mSocketfd buff
            (if len = 0 then buff.length else len) callback.isSome 0 used),
          1 ≤ size ∧ size ≤ 4096)
      ∧ (sendSizes (writeTrace c.mSocketfd buff (if len = 0 then buff.length else len)
            callback.isSome 0 used)).length = used.length
      ∧ progressEvents (writeTrace c.mSocketfd buff (if len = 0 then buff.length else len)
            callback.isSome 0 used)
          = (if callback.isSome then
              progressReports (if len = 0 then buff.length else len) 0 used else [])
      ∧ (progressReports (if len = 0 then buff.length else len) 0 used).length = used.length
      ∧ (∀ r ∈ progressReports (if len = 0 then buff.length else len) 0 used,
          0 < r.1 ∧ r.1 ≤ r.2 ∧ r.2 = (if len = 0 then (buff.length : Int) else len).toNat)
      ∧ List.Pairwise (fun r1 r2 : Nat × Nat => r1.1 < r2.1)
          (progressReports (if len = 0 then buff.length else len) 0 used)
      ∧ ((c.write w buff len callback).1 = .ok () → used ≠ [] →
          (progressReports (if len = 0 then buff.length else len) 0 used).getLast?
            = some ((if len = 0 then (buff.length : Int) else len).toNat,
                (if len = 0 then (buff.length : Int) else len).toNat)) := by
  generalize htl : (if len = 0 then (buff.length : Int) else len) = tlen at hsends ⊢
  have htlen : tlen ≤ buff.length := by
    rw [← htl]
    split <;> omega
  have hlt : tlen < 4294967296 := by
    have : INT_MAX = 2147483647 := rfl
    omega
  obtain ⟨used, rest, hsplit, hacc, hres⟩ :=
    TCPIPConnection.write.loop_run c.mSocketfd buff tlen callback w.errorString htlen
      w.sendResults 0 [] w.log (le_refl 0) hsends
  have hev := writeTrace_events c.mSocketfd buff tlen callback.isSome used 0 hacc
  have hrep := progressReports_accepted tlen hlt used 0 hacc (le_refl 0)
  have hwrite : c.write w buff len callback
      = ((TCPIPConnection.write.loop c.mSocketfd buff tlen callback w.errorString
            w.sendResults 0 [] w.log).1, c,
          { w with
            sendResults := (TCPIPConnection.write.loop c.mSocketfd buff tlen callback
              w.errorString w.sendResults 0 [] w.log).2.1,
            log := (TCPIPConnection.write.loop c.mSocketfd buff tlen callback
              w.errorString w.sendResults 0 [] w.log).2.2 }) := by
    simp only [TCPIPConnection.write, htl]
  have hloop : (TCPIPConnection.write.loop c.mSocketfd buff tlen callback w.errorString
        w.sendResults 0 [] w.log).2
      = (rest, w.log ++ writeTrace c.mSocketfd buff tlen callback.isSome 0 used) := by
    rcases hres with ⟨h, _, _⟩ | ⟨_, _, _, _, _, _, _, h⟩ <;> rw [h]
  refine ⟨used, rest, hsplit, ?_, ?_, hev.1, hev.2.1, hev.2.2,
    progressReports_length tlen used 0, ?_, hrep.2.1, ?_⟩
  · rw [hwrite]
    simp only [hloop]
  · rw [hwrite]
    simp only [hloop]
  · intro r hr
    have := hrep.1 r hr
    exact ⟨by omega, this.2.1, this.2.2⟩
  · intro hok hne
    rcases hres with ⟨_, hsum, _⟩ | ⟨_, _, _, _, _, _, _, h⟩
    · have hpos : 0 < tlen := by
        cases used with
        | nil => exact absurd rfl hne
        | cons s u =>
          simp only [TCPIPConnection.write.accepted, Bool.and_eq_true, decide_eq_true_eq]
            at hacc
          exact hacc.1.1.1
      have hs := TCPIPConnection.write.accepted_sum tlen used 0 hacc (by omega)
      have heq : (0 : Int) + used.sum = tlen := by omega
      rw [hrep.2.2 hne, heq]
    · rw [hwrite, h] at hok
      simp [JSONRPC_EXCEPT] at hok

/-- C31 at a buffer of ten bytes, sends that accept 3, 4 and 3 bytes and a callback that
never cancels. -/
theorem TCPIPConnection.write_chunks_and_reports_witness :
    (("0123456789".length : Nat) : Int) ≤ INT_MAX
    ∧ TCPIPConnection.write.sendsSucceed 10 0 chunkedSendsWorld.sendResults = true
    ∧ TCPIPConnection.write connectedConn chunkedSendsWorld "0123456789" 0 neverCancel
        = (.ok (), connectedConn,
            { chunkedSendsWorld with
              sendResults := [9],
              log := [Event.send 3 "0123456789" 10, Event.progress 3 10,
                Event.send 3 "3456789" 7, Event.progress 7 10,
                Event.send 3 "789" 3, Event.progress 10 10] })
    ∧ ∃ used rest, chunkedSendsWorld.sendResults = used ++ rest
        ∧ (TCPIPConnection.write connectedConn chunkedSendsWorld "0123456789" 0
            neverCancel).2.2.sendResults = rest :=
  ⟨by decide, by decide, rfl,
    (TCPIPConnection.write_chunks_and_reports connectedConn chunkedSendsWorld "0123456789" 0
      neverCancel (Or.inl rfl) (by decide) (by decide)).imp
      fun _ h => h.imp fun _ h2 => ⟨h2.1, h2.2.1⟩⟩

/-- Counterexample to C31 as stated: no `send` fails, the second one accepts no byte, and
the callback is invoked with 3 bytes sent after the first and again with 3 after the
second, so that its first argument does not grow strictly. And for a length of 10 given
with a buffer of three bytes, the first request of 10 bytes reads past the buffer, before
any `send` could fail. -/
theorem TCPIPConnection.write_zero_send_repeats_report :
    (∀ s ∈ [(3 : Int), 0, 7], s ≠ -1)
    ∧ TCPIPConnection.write connectedConn
        { chunkedSendsWorld with sendResults := [3, 0, 7] } "0123456789" 0 neverCancel
      = (.ok (), connectedConn,
          { chunkedSendsWorld with
            sendResults := [],
            log := [Event.send 3 "0123456789" 10, Event.progress 3 10,
              Event.send 3 "3456789" 7, Event.progress 3 10,
              Event.send 3 "3456789" 7, Event.progress 10 10] })
    ∧ progressEvents [Event.send 3 "0123456789" 10, Event.progress 3 10,
          Event.send 3 "3456789" 7, Event.progress 3 10,
          Event.send 3 "3456789" 7, Event.progress 10 10]
        = [(3, 10), (3, 10), (10, 10)]
    ∧ (¬ List.Pairwise (fun r1 r2 : Nat × Nat => r1.1 < r2.1) [(3, 10), (3, 10), (10, 10)])
    ∧ TCPIPConnection.write connectedConn chunkedSendsWorld "abc" 10 neverCancel
      = (.error Fault.undefined, connectedConn, chunkedSendsWorld) :=
  ⟨by decide, rfl, rfl, by decide, rfl⟩

/-- C32: in `write`, when the sends so far did not fail and the callback returned true
after each, a callback that returns false after the next send makes `write` fail with
`ActionCanceledException` (-3005), one request and one invocation made for each result
consumed and the results after them left untouched, and a `send` that fails makes it fail
with `TransportErrorException` (-3004), no invocation made for that request; likewise in
`read` over chunks of 4096 bytes; and with a callback that never cancels a library
exception from `write` or `read` is the transport error. -/
theorem TCPIPConnection.transfer_cancel_and_failure (c : TCPIPConnection) (w : World)
    (buff : String) (len : Int) (f : List (Nat × Nat) → Nat → Nat → Bool)
    (callback : Callback) (u : List Int) (s : Int) (rest : List Int) (full : List String)
    (d : String) (more : List RecvResult) :
    ((if len = 0 then (buff.length : Int) else len) ≤ buff.length →
      w.sendResults = u ++ s :: rest →
      TCPIPConnection.write.proceeds (if len = 0 then buff.length else len) 0 (u ++ [s])
        = true →
      Callback.accepts (some f) (if len = 0 then buff.length else len) 0 [] u = true →
      f (progressReports (if len = 0 then buff.length else len) 0 u)
        (toUnsigned (u ++ [s]).sum) (toUnsigned (if len = 0 then buff.length else len))
        = false →
      c.write w buff len (some f)
          = (.error (.exn (Exception.mk (-3005) "write canceled by callback"
                "ActionCanceledException")), c,
              { w with
                sendResults := rest,
                log := w.log ++ writeTrace c.mSocketfd buff
                  (if len = 0 then buff.length else len) true 0 (u ++ [s]) })
        ∧ (sendSizes (writeTrace c.mSocketfd buff (if len = 0 then buff.length else len)
            true 0 (u ++ [s]))).length = u.length + 1
        ∧ (progressEvents (writeTrace c.mSocketfd buff
            (if len = 0 then buff.length else len) true 0 (u ++ [s]))).length = u.length + 1)
    ∧ ((if len = 0 then (buff.length : Int) else len) ≤ buff.length →
      w.sendResults = u ++ (-1) :: rest →
      TCPIPConnection.write.proceeds (if len = 0 then buff.length else len) 0 u = true →
      u.sum < (if len = 0 then (buff.length : Int) else len) →
      Callback.accepts callback (if len = 0 then buff.length else len) 0 [] u = true →
      c.write w buff len callback
          = (.error (.exn (Exception.mk (-3004) ("network send failed: " ++ w.errorString)
                "TransportErrorException")), c,
              { w with
                sendResults := rest,
                log := w.log ++ writeTrace c.mSocketfd buff
                  (if len = 0 then buff.length else len) callback.isSome 0 (u ++ [-1]) })
        ∧ (sendSizes (writeTrace c.mSocketfd buff (if len = 0 then buff.length else len)
            callback.isSome 0 (u ++ [-1]))).length = u.length + 1
        ∧ (progressEvents (writeTrace c.mSocketfd buff
            (if len = 0 then buff.length else len) callback.isSome 0 (u ++ [-1]))).length
          = if callback.isSome then u.length else 0)
    ∧ (w.recvResults = chunkResults full ++ RecvResult.bytes d :: more →
      (∀ x ∈ full, (x.length : Int) = 4096) →
      Callback.accepts (some f) len 0 [] (chunkLengths full) = true →
      f (progressReports len 0 (chunkLengths full))
        (toUnsigned (chunkLengths (full ++ [d])).sum) (toUnsigned len) = false →
      c.read w len (some f)
          = (.error (.exn (Exception.mk (-3005) "read canceled by callback"
                "ActionCanceledException")), c,
              { w with
                recvResults := more,
                log := w.log ++ readTrace c.mSocketfd len true 0
                  (chunkResults (full ++ [d])) })
        ∧ (recvSizes (readTrace c.mSocketfd len true 0
            (chunkResults (full ++ [d])))).length = full.length + 1
        ∧ (progressEvents (readTrace c.mSocketfd len true 0
            (chunkResults (full ++ [d])))).length = full.length + 1)
    ∧ (w.recvResults = chunkResults full ++ RecvResult.failed :: more →
      (∀ x ∈ full, (x.length : Int) = 4096) →
      Callback.accepts callback len 0 [] (chunkLengths full) = true →
      c.read w len callback
          = (.error (.exn (Exception.mk (-3004) ("network recv failed: " ++ w.errorString)
                "TransportErrorException")), c,
              { w with
                recvResults := more,
                log := w.log ++ readTrace c.mSocketfd len callback.isSome 0
                    (chunkResults full)
                  ++ [Event.recv c.mSocketfd
                    (TCPIPConnection.read.recvlen len (chunkLengths full).sum)] })
        ∧ (progressEvents (readTrace c.mSocketfd len callback.isSome 0
            (chunkResults full))).length = if callback.isSome then full.length else 0)
    ∧ (Callback.neverCancels callback →
      (∀ e, (c.write w buff len callback).1 = .error (.exn e) →
        e = Exception.mk (-3004) ("network send failed: " ++ w.errorString)
          "TransportErrorException")
      ∧ (∀ e, (c.read w len callback).1 = .error (.exn e) →
        e = Exception.mk (-3004) ("network recv failed: " ++ w.errorString)
          "TransportErrorException")) := by
  refine ⟨?_, ?_, ?_, ?_, ?_⟩
  · intro htlen hw hp ha hf
    have hnf := TCPIPConnection.write.ne_of_proceeds _ _ _ hp
    have hcount := writeTrace_counts c.mSocketfd buff
      (if len = 0 then (buff.length : Int) else len) true (u ++ [s]) 0 hnf
    refine ⟨?_, by rw [hcount.1]; simp, by rw [hcount.2]; simp [progressReports_length]⟩
    simp only [TCPIPConnection.write, hw]
    rw [TCPIPConnection.write.loop_cancel c.mSocketfd buff _ f w.errorString htlen u s rest
      0 [] w.log (le_refl 0) hp ha (by simpa using hf)]
  · intro htlen hw hp hsum ha
    have hnf : ∀ x ∈ u, x ≠ -1 := TCPIPConnection.write.ne_of_proceeds _ _ _ hp
    have hcount := writeTrace_counts c.mSocketfd buff
      (if len = 0 then (buff.length : Int) else len) callback.isSome u 0 hnf
    have htrace := writeTrace_append c.mSocketfd buff
      (if len = 0 then (buff.length : Int) else len) callback.isSome u [-1] 0 hnf
    refine ⟨?_, ?_, ?_⟩
    · simp only [TCPIPConnection.write, hw]
      rw [TCPIPConnection.write.loop_fail c.mSocketfd buff _ callback w.errorString htlen u
        rest 0 [] w.log (le_refl 0) hp (by simpa using hsum) ha]
    · rw [htrace, sendSizes_append, List.length_append, hcount.1]
      simp [writeTrace, sendSizes]
    · rw [htrace, progressEvents_append, List.length_append, hcount.2]
      cases callback <;> simp [writeTrace, progressEvents, progressReports_length]
  · intro hw hfull ha hf
    have hcount := readTrace_counts c.mSocketfd len true (full ++ [d]) 0
    refine ⟨?_, by rw [hcount.1]; simp, by rw [hcount.2]; simp [progressReports_length,
      chunkLengths]⟩
    simp only [TCPIPConnection.read, hw]
    rw [TCPIPConnection.read.recv_loop_cancel c.mSocketfd len f w.errorString full d more 0 ""
      [] w.log hfull ha (by simpa using hf)]
  · intro hw hfull ha
    have hcount := readTrace_counts c.mSocketfd len callback.isSome full 0
    refine ⟨?_, by rw [hcount.2]; cases callback <;> simp [progressReports_length,
      chunkLengths]⟩
    simp only [TCPIPConnection.read, hw]
    rw [TCPIPConnection.read.recv_loop_prefix c.mSocketfd len callback w.errorString full _ 0 ""
      [] w.log hfull ha, TCPIPConnection.read.loop_failed]
    simp [readTrace, JSONRPC_EXCEPT, ExceptionFactory.create, ExceptionCodes.number,
      ExceptionCodes.typeName]
  · intro hnc
    refine ⟨fun e he => ?_, fun e he => ?_⟩
    · exact TCPIPConnection.write.loop_not_canceled c.mSocketfd buff _ callback
        w.errorString hnc w.sendResults 0 [] w.log e (by simpa [TCPIPConnection.write] using he)
    · exact TCPIPConnection.read.recv_loop_not_canceled c.mSocketfd len callback
        w.errorString hnc w.recvResults 0 "" [] w.log e
        (by simpa [TCPIPConnection.read] using he)

/-- C32 at a `write` of ten bytes whose callback cancels on its second invocation, and at a
`read` whose first `recv` fails. -/
theorem TCPIPConnection.transfer_cancel_and_failure_witness :
    TCPIPConnection.write connectedConn chunkedSendsWorld "0123456789" 0 cancelSecond
      = (.error (.exn (Exception.mk (-3005) "write canceled by callback"
            "ActionCanceledException")), connectedConn,
          { chunkedSendsWorld with
            sendResults := [3, 9],
            log := [Event.send 3 "0123456789" 10, Event.progress 3 10,
              Event.send 3 "3456789" 7, Event.progress 7 10] })
    ∧ TCPIPConnection.read connectedConn
        { overflowWorld with recvResults := [RecvResult.failed, RecvResult.bytes "hello"] }
        0 neverCancel
      = (.error (.exn (Exception.mk (-3004) "network recv failed: Connection reset by peer"
            "TransportErrorException")), connectedConn,
          { overflowWorld with
            recvResults := [RecvResult.bytes "hello"],
            log := [Event.recv 3 4096] }) :=
  ⟨((TCPIPConnection.transfer_cancel_and_failure connectedConn chunkedSendsWorld
      "0123456789" 0 (fun hist _ _ => decide (hist.length < 1)) cancelSecond [3] 4 [3, 9]
      [] "" []).1 (by decide) rfl (by decide) rfl rfl).1,
    ((TCPIPConnection.transfer_cancel_and_failure connectedConn
      { overflowWorld with recvResults := [RecvResult.failed, RecvResult.bytes "hello"] }
      "" 0 (fun _ _ _ => true) neverCancel [] 0 [] [] "" [RecvResult.bytes "hello"]).2.2.2.1
      rfl (by simp) rfl).1⟩

/-! ## TCPIPConnection::read -/

/-- C33 (the code departs from the claim): `read(4096)` from a peer that delivers a chunk
of 4096 bytes and then five more bytes issues a second `recv`, for 4096 bytes, after the
count has reached 4096, and returns 4101 bytes: at the limit `len - total` is 0, which the
loop takes for no limit. -/
theorem TCPIPConnection.read_exceeds_limit :
    TCPIPConnection.read connectedConn overflowWorld 4096 none
      = (.ok (fullChunk ++ "hello"), connectedConn,
          { overflowWorld with
            recvResults := [],
            log := [Event.recv 3 4096, Event.recv 3 4096] })
    ∧ fullChunk.length = 4096
    ∧ (fullChunk ++ "hello").length = 4101 := by
  have hfull : fullChunk.length = 4096 := by
    show (List.replicate 4096 'x').length = 4096
    exact List.length_replicate _ _
  have hfullInt : (fullChunk.length : Int) = 4096 := by rw [hfull]; rfl
  have hhello : ¬ (("hello".length : Int) = 4096) := by decide
  refine ⟨?_, hfull, by rw [String.length_append, hfull]; rfl⟩
  simp only [TCPIPConnection.read, overflowWorld]
  rw [TCPIPConnection.read.loop_bytes]
  simp only [hfullInt, MAXBUFFSIZE, if_true]
  rw [TCPIPConnection.read.loop_bytes]
  simp only [hhello, MAXBUFFSIZE, if_false]
  simp [readTrace, TCPIPConnection.read.recvlen, MAXBUFFSIZE, connectedConn]

/-- C35: `read(0, callback)` with a callback that never cancels, from a peer that delivers
chunks of 4096 bytes and then a chunk of fewer bytes (possibly none), returns the chunks up
to and including the short one appended in arrival order, asks for 4096 bytes on every
`recv`, one for each of these chunks, and leaves what comes after the short chunk
unread; when all the chunks delivered have 4096 bytes, the loop asks for another chunk
after the last of them, however many they are. -/
theorem TCPIPConnection.read_unbounded (c : TCPIPConnection) (w : World)
    (callback : Callback) (full : List String) (short : String) (rest : List RecvResult)
    (hcb : Callback.neverCancels callback)
    (hfull : ∀ d ∈ full, (d.length : Int) = 4096) :
    (short.length < 4096 →
      w.recvResults = chunkResults full ++ RecvResult.bytes short :: rest →
      c.read w 0 callback
          = (.ok (chunkConcat (full ++ [short])), c,
              { w with
                recvResults := rest,
                log := w.log ++ readTrace c.mSocketfd 0 callback.isSome 0
                  (chunkResults (full ++ [short])) })
        ∧ (∀ size ∈ recvSizes (readTrace c.mSocketfd 0 callback.isSome 0
            (chunkResults (full ++ [short]))), size = 4096)
        ∧ (recvSizes (readTrace c.mSocketfd 0 callback.isSome 0
            (chunkResults (full ++ [short])))).length = full.length + 1)
    ∧ (w.recvResults = chunkResults full →
      c.read w 0 callback
        = (.error .blocked, c,
            { w with
              recvResults := [],
              log := w.log ++ readTrace c.mSocketfd 0 callback.isSome 0 (chunkResults full)
                ++ [Event.recv c.mSocketfd 4096] })) := by
  have hacc := Callback.accepts_of_neverCancels callback 0 hcb (chunkLengths full) 0 []
  have hsum : ∀ l : List String, (0 : Int) ≤ (chunkLengths l).sum := by
    intro l
    induction l with
    | nil => simp [chunkLengths]
    | cons x l ih =>
      simp only [chunkLengths, List.map_cons, List.sum_cons] at ih ⊢
      omega
  refine ⟨?_, ?_⟩
  · intro hshort hw
    have hs : (short.length : Int) ≠ MAXBUFFSIZE := by
      unfold MAXBUFFSIZE
      omega
    have hres : chunkResults (full ++ [short])
        = chunkResults full ++ [RecvResult.bytes short] := by
      simp [chunkResults]
    refine ⟨?_, readTrace_recvSizes_zero _ _ _ 0 (le_refl 0), ?_⟩
    · simp only [TCPIPConnection.read, hw]
      rw [TCPIPConnection.read.recv_loop_prefix c.mSocketfd 0 callback w.errorString full _ 0 ""
        [] w.log hfull hacc, TCPIPConnection.read.loop_bytes, hres, readTrace_append,
        ← List.append_assoc]
      cases hc : callback with
      | none => simp [hs, chunkConcat, List.foldl_append]
      | some f => simp [hs, hcb f hc, chunkConcat, List.foldl_append]
    · rw [(readTrace_counts c.mSocketfd 0 callback.isSome (full ++ [short]) 0).1]
      simp
  · intro hw
    have hw2 : w.recvResults = chunkResults full ++ [] := by rw [hw, List.append_nil]
    simp only [TCPIPConnection.read, hw2]
    rw [TCPIPConnection.read.recv_loop_prefix c.mSocketfd 0 callback w.errorString full [] 0 ""
      [] w.log hfull hacc, TCPIPConnection.read.loop_nil,
      TCPIPConnection.read.recvlen_zero (by have := hsum full; omega)]

/-- C35 at a peer that delivers the five bytes `hello` and then more. -/
theorem TCPIPConnection.read_unbounded_witness :
    Callback.neverCancels neverCancel
    ∧ TCPIPConnection.read connectedConn
        { overflowWorld with
          recvResults := [RecvResult.bytes "hello", RecvResult.bytes "more"] }
        0 neverCancel
      = (.ok "hello", connectedConn,
          { overflowWorld with
            recvResults := [RecvResult.bytes "more"],
            log := [Event.recv 3 4096, Event.progress 5 0] }) :=
  have hcb : Callback.neverCancels neverCancel := fun f hf _ _ _ => by cases hf; rfl
  ⟨hcb,
    ((TCPIPConnection.read_unbounded connectedConn
      { overflowWorld with
        recvResults := [RecvResult.bytes "hello", RecvResult.bytes "more"] }
      neverCancel [] "hello" [RecvResult.bytes "more"] hcb (by simp)).1 (by decide) rfl).1⟩

/-- C37: for a length that is 0 or at most that of the buffer, when each `send` accepts at
least one byte and at most the bytes requested and the callback never cancels, `write`
returns after consuming finitely many results of `send`, at most as many as the bytes to
send, each request starting at the first byte not yet accepted, and the bytes the socket
accepted, in order, are the first `tlen` bytes of the buffer, where `tlen` is the length
of the buffer for length 0 and the length otherwise. -/
theorem TCPIPConnection.write_delivers_prefix (c : TCPIPConnection) (w : World)
    (buff : String) (len : Int) (callback : Callback)
    (hlen : len = 0 ∨ len ≤ buff.length) (hcb : Callback.neverCancels callback)
    (hsends : TCPIPConnection.write.sendsSucceed (if len = 0 then buff.length else len) 0
      w.sendResults = true) :
    ∃ used rest, w.sendResults = used ++ rest
      ∧ c.write w buff len callback
          = (.ok (), c,
              { w with
                sendResults := rest,
                log := w.log ++ writeTrace c.mSocketfd buff
                  (if len = 0 then buff.length else len) callback.isSome 0 used })
      ∧ (∀ s ∈ used, 1 ≤ s)
      ∧ (used.length : Int) ≤ max (if len = 0 then (buff.length : Int) else len) 0
      ∧ used.sum = max (if len = 0 then (buff.length : Int) else len) 0
      ∧ TCPIPConnection.write.acceptedBytes buff (if len = 0 then buff.length else len) 0 used
          = buff.data.take (if len = 0 then (buff.length : Int) else len).toNat := by
  generalize htl : (if len = 0 then (buff.length : Int) else len) = tlen at hsends ⊢
  have htlen : tlen ≤ buff.length := by
    rw [← htl]
    split <;> omega
  obtain ⟨used, rest, hsplit, hacc, hres⟩ :=
    TCPIPConnection.write.loop_run c.mSocketfd buff tlen callback w.errorString htlen
      w.sendResults 0 [] w.log (le_refl 0) hsends
  have hbytes := TCPIPConnection.write.acceptedBytes_eq buff tlen htlen used 0 hacc
    (le_refl 0)
  rcases hres with ⟨hloop, hsum, _⟩ | ⟨f, u, s, hf, _, _, hfalse, _⟩
  · have hfacts : (∀ s ∈ used, 1 ≤ s) ∧ (used.length : Int) ≤ max tlen 0
        ∧ used.sum = max tlen 0 := by
      cases used with
      | nil =>
        simp only [List.sum_nil, add_zero, not_lt] at hsum
        simp
        omega
      | cons s u =>
        have hpos : 0 < tlen := by
          simp only [TCPIPConnection.write.accepted, Bool.and_eq_true, decide_eq_true_eq]
            at hacc
          exact hacc.1.1.1
        have hs := TCPIPConnection.write.accepted_sum tlen (s :: u) 0 hacc (by omega)
        refine ⟨hs.2.2.2, ?_, ?_⟩ <;> omega
    refine ⟨used, rest, hsplit, ?_, hfacts.1, hfacts.2.1, hfacts.2.2, ?_⟩
    · simp only [TCPIPConnection.write, htl, hloop]
    · rw [hbytes, hfacts.2.2]
      simp only [Int.toNat_zero, List.drop_zero]
      congr 1
      omega
  · rw [hcb f hf] at hfalse
    exact Bool.noConfusion hfalse

/-- C37 at a buffer of ten bytes and sends that accept 3, 4 and 3 bytes. -/
theorem TCPIPConnection.write_delivers_prefix_witness :
    Callback.neverCancels neverCancel
    ∧ TCPIPConnection.write.sendsSucceed 10 0 chunkedSendsWorld.sendResults = true
    ∧ TCPIPConnection.write.acceptedBytes "0123456789" 10 0 [3, 4, 3] = "0123456789".data
    ∧ ∃ used rest, chunkedSendsWorld.sendResults = used ++ rest
        ∧ TCPIPConnection.write connectedConn chunkedSendsWorld "0123456789" 0 neverCancel
          = (.ok (), connectedConn,
              { chunkedSendsWorld with
                sendResults := rest,
                log := chunkedSendsWorld.log ++ writeTrace connectedConn.mSocketfd
                  "0123456789" (if (0 : Int) = 0 then ("0123456789".length : Int) else 0)
                  neverCancel.isSome 0 used }) :=
  ⟨fun f hf _ _ _ => by cases hf; rfl, by decide, by decide,
    (TCPIPConnection.write_delivers_prefix connectedConn chunkedSendsWorld "0123456789" 0
      neverCancel (Or.inl rfl) (fun f hf _ _ _ => by cases hf; rfl) (by decide)).imp
      fun _ h => h.imp fun _ h2 => ⟨h2.1, h2.2.1⟩⟩

/-! ## String::escapeString, as written -/

/-- C34: `String::escapeString` is the eight replace-all passes in the listed order (double
quote, backslash, slash, backspace, form-feed, newline, carriage-return, tab), each on the
output of the one before; the backslash that the first pass writes before a double quote
is doubled by the second pass, so the input made of one double quote gives the three
characters backslash, backslash, double quote, and in general each character gives its
image with the double quote giving these three. -/
theorem String.escapeString_sequential (str : String) :
    String.escapeString str = String.escapeString_spec str
    ∧ (String.escapeString.passes.map Prod.fst
        = [dquote, backslash, '/', Char.ofNat 8, Char.ofNat 12, Char.ofNat 10, Char.ofNat 13,
            Char.ofNat 9])
    ∧ replace_all [dquote] dquote [backslash, dquote] = [backslash, dquote]
    ∧ replace_all [backslash, dquote] backslash [backslash, backslash]
        = [backslash, backslash, dquote]
    ∧ String.escapeString (String.mk [dquote]) = String.mk [backslash, backslash, dquote]
    ∧ (String.escapeString (String.mk [dquote])).length = 3
    ∧ String.escapeString str = String.mk (str.data.flatMap String.escapeString.image)
    ∧ String.escapeString.image dquote = [backslash, backslash, dquote] :=
  ⟨by simp only [String.escapeString, String.escapeString_spec, String.escapeString.passes,
      List.foldl_cons, List.foldl_nil],
    rfl, by decide, by decide, by decide, by decide, String.escapeString_eq_flatMap str,
    by decide⟩

/-! ## MethodCall: the shape of the parameters -/

/-- C36: after any sequence of `addParam`, `setParam`, `clear`, `getParam` and `setName`
calls on a constructed `MethodCall`, calls that throw included, the parameters are an
Array, and then `positionalParams()` is true, `namedParams()` false and `size()` the number
of elements, or an Object, and then `namedParams()` is true, `positionalParams()` false and
`size()` the number of members; and the only call whose behaviour is not defined in such a
state is `getParam` with an index outside the Array. -/
theorem MethodCall.shape_invariant (name : String) (counter : Int)
    (ops : List MethodCall.Op) (m : MethodCall)
    (hrun : (MethodCall.new name counter).1.run ops = some m
      ∨ (MethodCall.newDefault counter).1.run ops = some m) :
    ((∃ a, m.mParams = Value.array a ∧ m.positionalParams = true ∧ m.namedParams = false
        ∧ m.size = .ok (a.length : Int))
      ∨ (∃ o, m.mParams = Value.object o ∧ m.namedParams = true
        ∧ m.positionalParams = false ∧ m.size = .ok (o.length : Int)))
    ∧ (∀ op, m.apply op = none →
        ∃ index, op = MethodCall.Op.getParam index ∧ m.getParam index = .error .undefined
          ∧ ∃ a, m.mParams = Value.array a ∧ ¬ (0 ≤ index ∧ index < a.length)) := by
  have hshape : m.WellShaped := by
    rcases hrun with h | h
    · exact MethodCall.run_wellShaped ops (MethodCall.new name counter).1 m (Or.inl rfl) h
    · exact MethodCall.run_wellShaped ops (MethodCall.newDefault counter).1 m (Or.inl rfl) h
  rw [MethodCall.wellShaped_iff] at hshape
  rcases hshape with ⟨a, hm⟩ | ⟨o, hm⟩
  · refine ⟨Or.inl ⟨a, hm, ?_, ?_, ?_⟩, ?_⟩
    · simp [MethodCall.positionalParams, hm, Value.isType, Value.getType]
    · simp [MethodCall.namedParams, hm, Value.isType, Value.getType]
    · simp [MethodCall.size, hm, Value.isType, Value.getType, value_cast_Array_ptr]
    · intro op hop
      cases op with
      | addParam val => simp [MethodCall.apply, MethodCall.addParam, hm] at hop
      | addParamNamed name val =>
        by_cases hl : a.length ≠ 0
        · simp [MethodCall.apply, MethodCall.addParamNamed, hm, hl, JSONRPC_EXCEPT] at hop
        · simp only [MethodCall.apply, MethodCall.addParamNamed, hm, if_neg hl] at hop
          exact Option.noConfusion hop
      | setParam val => simp [MethodCall.apply] at hop
      | setParamNamed name val => simp [MethodCall.apply] at hop
      | clear => simp [MethodCall.apply] at hop
      | getParam index =>
        by_cases hi : 0 ≤ index ∧ index < a.length
        · simp [MethodCall.apply, MethodCall.getParam, hm, Value.isType, Value.getType,
            value_cast_Array_ptr, hi] at hop
        · refine ⟨index, rfl, ?_, a, hm, hi⟩
          simp [MethodCall.getParam, hm, Value.isType, Value.getType, value_cast_Array_ptr,
            hi]
      | getParamNamed name =>
        simp [MethodCall.apply, MethodCall.getParamNamed, hm, Value.isType, Value.getType]
          at hop
      | setName name => simp [MethodCall.apply] at hop
  · refine ⟨Or.inr ⟨o, hm, ?_, ?_, ?_⟩, ?_⟩
    · simp [MethodCall.namedParams, hm, Value.isType, Value.getType]
    · simp [MethodCall.positionalParams, hm, Value.isType, Value.getType]
    · simp [MethodCall.size, hm, Value.isType, Value.getType, value_cast_Object_ptr]
    · intro op hop
      cases op with
      | addParam val =>
        by_cases hl : o.length ≠ 0
        · simp [MethodCall.apply, MethodCall.addParam, hm, hl, JSONRPC_EXCEPT] at hop
        · simp only [MethodCall.apply, MethodCall.addParam, hm, if_neg hl] at hop
          exact Option.noConfusion hop
      | addParamNamed name val =>
        simp [MethodCall.apply, MethodCall.addParamNamed, hm] at hop
      | setParam val => simp [MethodCall.apply] at hop
      | setParamNamed name val => simp [MethodCall.apply] at hop
      | clear => simp [MethodCall.apply] at hop
      | getParam index =>
        simp [MethodCall.apply, MethodCall.getParam, hm, Value.isType, Value.getType] at hop
      | getParamNamed name =>
        simp [MethodCall.apply, MethodCall.getParamNamed, hm, Value.isType, Value.getType,
          value_cast_Object_ptr] at hop
      | setName name => simp [MethodCall.apply] at hop

/-- C36 at a sequence of six calls, one of which throws, on `MethodCall("system.echo")`. -/
theorem MethodCall.shape_invariant_witness :
    (MethodCall.new "system.echo" 0).1.run sampleOps = some sampleOpsResult
    ∧ sampleOpsResult.namedParams = true
    ∧ ((∃ a, sampleOpsResult.mParams = Value.array a
          ∧ sampleOpsResult.positionalParams = true ∧ sampleOpsResult.namedParams = false
          ∧ sampleOpsResult.size = .ok (a.length : Int))
        ∨ (∃ o, sampleOpsResult.mParams = Value.object o
          ∧ sampleOpsResult.namedParams = true ∧ sampleOpsResult.positionalParams = false
          ∧ sampleOpsResult.size = .ok (o.length : Int))) :=
  ⟨rfl, rfl,
    (MethodCall.shape_invariant "system.echo" 0 sampleOps sampleOpsResult (Or.inl rfl)).1⟩

/-! ## Requester::call: the cast of the decoded reply -/

/-- C38: a Value that `parse` returns is an Object, so the cast of the decoded reply to
Object in `Requester::call` succeeds whenever `parse` returns, the only failure of the
parse-and-cast expression is the `ParseErrorException` of `parse`, never a
`BadCastException`, the checks of `call` never fail with the message of the `BadCast`
handler, and a non-empty reply whose decoded root is not an object node is rejected with
the exception that `parse` throws. -/
theorem Requester.call_cast_never_fails (jsonParse : JsonParse) (ret : String)
    (meth : MethodCall) :
    (∀ v, parse jsonParse ret = .ok v →
      v.getType = .VTObject ∧ ∃ o, v = Value.object o ∧ value_cast_Object v = .ok o)
    ∧ (∀ f, (parse jsonParse ret >>= value_cast_Object) = .error f →
        f = .exn (Exception.mk (-32700) "Error parsing json input" "ParseErrorException"))
    ∧ (parse jsonParse ret >>= value_cast_Object) ≠ .error BadCast
    ∧ Requester.call.validate jsonParse ret meth
        ≠ .error (.exn (Exception.mk (-32700) "Server return value is not a JSON Object."
            "ParseErrorException"))
    ∧ (ret ≠ "" → (¬ ∃ o, jsonParse ret = Variant.object o) →
        Requester.call.validate jsonParse ret meth
          = .error (.exn (Exception.mk (-32700) "Error parsing json input"
              "ParseErrorException"))) := by
  have hcast : ∀ f, (parse jsonParse ret >>= value_cast_Object) = .error f →
      f = .exn (Exception.mk (-32700) "Error parsing json input" "ParseErrorException") := by
    intro f hf
    rcases parse_cases jsonParse ret with hp | ⟨o, hp⟩
    · rw [hp] at hf
      simp only [bind, Except.bind, Except.error.injEq] at hf
      exact hf.symm
    · rw [hp] at hf
      simp [bind, Except.bind, value_cast_Object] at hf
  refine ⟨?_, hcast, ?_, ?_, ?_⟩
  · intro v hv
    rcases parse_cases jsonParse ret with hp | ⟨o, hp⟩
    · rw [hp] at hv
      exact Except.noConfusion hv
    · rw [hp] at hv
      simp only [Except.ok.injEq] at hv
      subst hv
      exact ⟨rfl, o, rfl, rfl⟩
  · intro h
    have := hcast _ h
    simp [BadCast] at this
  · intro h
    by_cases h1 : ret = ""
    · subst h1
      simp [Requester.call.validate, JSONRPC_EXCEPT, ExceptionFactory.create,
        ExceptionCodes.number, ExceptionCodes.typeName] at h
    · rcases parse_cases jsonParse ret with hp | ⟨o, hp⟩
      · unfold Requester.call.validate at h
        simp [h1, hp, bind, Except.bind] at h
      · rw [Requester.call.validate_object jsonParse ret meth o h1 hp] at h
        simp only [JSONRPC_EXCEPT, ExceptionFactory.create, ExceptionCodes.number,
          ExceptionCodes.typeName] at h
        split at h
        · simp at h
        · split at h
          · simp at h
          · split at h
            · simp at h
            · split at h
              · exact Except.noConfusion h
              · split at h
                · exact Except.noConfusion h
                · simp at h
  · intro h1 hroot
    rcases parse_cases jsonParse ret with hp | ⟨o, hp⟩
    · unfold Requester.call.validate
      simp [h1, hp, bind, Except.bind]
    · exfalso
      apply hroot
      unfold parse at hp
      cases hn : jsonParse ret with
      | object ms => exact ⟨ms, rfl⟩
      | empty => rw [hn] at hp; simp [JSONRPC_EXCEPT] at hp
      | bool _ => rw [hn] at hp; simp [JSONRPC_EXCEPT] at hp
      | int _ => rw [hn] at hp; simp [JSONRPC_EXCEPT] at hp
      | double _ => rw [hn] at hp; simp [JSONRPC_EXCEPT] at hp
      | string _ => rw [hn] at hp; simp [JSONRPC_EXCEPT] at hp
      | array _ => rw [hn] at hp; simp [JSONRPC_EXCEPT] at hp
      | other => rw [hn] at hp; simp [JSONRPC_EXCEPT] at hp

/-- C38 at the reply `[1]`, whose root is an array. -/
theorem Requester.call_cast_never_fails_witness :
    Requester.call.validate sampleParse "[1]" sampleCall
      = .error (.exn (Exception.mk (-32700) "Error parsing json input"
          "ParseErrorException")) :=
  (Requester.call_cast_never_fails sampleParse "[1]" sampleCall).2.2.2.2 (by decide)
    (by
      rintro ⟨o, ho⟩
      have h : sampleParse "[1]" = Variant.array [Variant.int 1] := rfl
      rw [h] at ho
      exact Variant.noConfusion ho)

/-! ## MethodCall::getParam(name) -/

/-- C39: on a `MethodCall` whose parameters are the Object `o`, `getParam(name)` for a name
that `o` does not hold returns Null and leaves the parameters with the binding of `name`
to Null inserted, so `size()` is one more than before, and a following `jsonString()` of a
call with a name renders the parameters with the member `name` written with the value
null; for a name that `o` holds it returns the bound value and leaves the call as it
was. -/
theorem MethodCall.getParamNamed_inserts (m : MethodCall) (o : Object) (name : String)
    (hm : m.mParams = Value.object o) :
    (Object.hasKey o name = false →
      m.getParamNamed name
          = .ok (Value.null,
              { m with mParams := Value.object (Object.assign o name Value.null) })
      ∧ m.size = .ok (o.length : Int)
      ∧ MethodCall.size { m with mParams := Value.object (Object.assign o name Value.null) }
          = .ok ((o.length : Int) + 1)
      ∧ (name, Value.null) ∈ Object.assign o name Value.null
      ∧ (m.mName ≠ "" → ∀ notification,
          MethodCall.jsonString
              { m with mParams := Value.object (Object.assign o name Value.null) }
              notification
            = .ok (Object.jsonString
                ((if notification then [] else [("id", Value.number (Double.ofInt m.mId))])
                  ++ [("jsonrpc", Value.string "2.0"), ("method", Value.string m.mName),
                    ("params", Value.object (Object.assign o name Value.null))])))
      ∧ (Value.object (Object.assign o name Value.null)).jsonString
          = "\x7b" ++ ", ".intercalate
              ((Object.assign o name Value.null).map Object.doJsonString.member) ++ "\x7d"
      ∧ Object.doJsonString.member (name, Value.null)
          = "\"" ++ String.escapeString name ++ "\"" ++ ": " ++ "null")
    ∧ (∀ v, Object.find o name = some v → m.getParamNamed name = .ok (v, m)) := by
  refine ⟨?_, ?_⟩
  · intro hk
    have hfind : Object.find o name = none := (Object.hasKey_eq_false_iff o name).1 hk
    have hne : ∀ e ∈ o, e.1 ≠ name := by
      intro e he heq
      exact (Object.find_eq_none_iff o name).1 hfind e.2 (by rw [← heq]; exact he)
    have hlen : (Object.assign o name Value.null).length = o.length + 1 := by
      rw [(Object.perm_assign o name Value.null hne).length_eq, List.length_cons]
    have hsize : MethodCall.size
        { m with mParams := Value.object (Object.assign o name Value.null) }
        = .ok ((o.length : Int) + 1) := by
      simp [MethodCall.size, Value.isType, Value.getType, value_cast_Object_ptr, hlen]
    refine ⟨?_, ?_, hsize, ?_, ?_, ?_, rfl⟩
    · simp [MethodCall.getParamNamed, hm, Value.isType, Value.getType,
        value_cast_Object_ptr, Object.subscript, hfind]
    · simp [MethodCall.size, hm, Value.isType, Value.getType, value_cast_Object_ptr]
    · exact Object.mem_of_find _ _ _ (by rw [Object.find_assign]; simp)
    · intro hname notification
      have hmeth := MethodCall.jsonString.method_eq
        { m with mParams := Value.object (Object.assign o name Value.null) } notification
        ((o.length : Int) + 1) hname hsize
      have hpos : ((o.length : Int) + 1) ≠ 0 := by omega
      simp only [MethodCall.jsonString, hmeth, bind, Except.bind, pure, Except.pure,
        MethodCall.getId, if_pos hpos, List.append_assoc, List.cons_append, List.nil_append]
    · rw [Value.jsonString, Object.doJsonString.object_loop_eq_intercalate]
  · intro v hv
    have hsub := Object.subscript_of_find hv
    simp only [MethodCall.getParamNamed, hm, Value.isType, Value.getType,
      value_cast_Object_ptr, hsub]
    simp
    cases m
    simp only at hm
    rw [hm]

/-- C39 at a call with the named parameter `a`, asked for `b` and then for `a`. -/
theorem MethodCall.getParamNamed_inserts_witness :
    namedCall.getParamNamed "b"
      = .ok (Value.null,
          { namedCall with
            mParams := Value.object
              [("a", Value.number (Double.ofInt 1)), ("b", Value.null)] })
    ∧ namedCall.getParamNamed "a" = .ok (Value.number (Double.ofInt 1), namedCall) :=
  ⟨((MethodCall.getParamNamed_inserts namedCall [("a", Value.number (Double.ofInt 1))] "b"
      rfl).1 rfl).1,
    (MethodCall.getParamNamed_inserts namedCall [("a", Value.number (Double.ofInt 1))] "a"
      rfl).2 _ rfl⟩

/-! ## TCPIPConnection::connect, when it fails -/

/-- C40: when `connect` is called with the handle -1, `socket` gives a handle other than -1
and the `connect` call fails, `connect` throws `TransportErrorException` (-3004) and
leaves the handle set; a following `connect` then returns at once with no socket
operation, `write` and `read` leave the handle as it is, and `disconnect` closes it and
resets it to -1. -/
theorem TCPIPConnection.connect_failure_keeps_handle (c : TCPIPConnection) (w : World)
    (fd : Int) (socks conns : List Int) (hc : c.mSocketfd = -1)
    (hs : w.socketResults = fd :: socks) (hfd : fd ≠ -1)
    (hr : w.connectResults = (-1) :: conns) :
    c.connect w
      = (.error (.exn (Exception.mk (-3004)
            ("network connection failed: " ++ w.errorString) "TransportErrorException")),
          { mSocketfd := fd },
          { w with
            socketResults := socks, connectResults := conns,
            log := w.log ++ [Event.socket, Event.connect fd] })
    ∧ (∀ w2 : World,
        TCPIPConnection.connect { mSocketfd := fd } w2 = (.ok (), { mSocketfd := fd }, w2))
    ∧ (∀ (w2 : World) (buff : String) (len : Int) (callback : Callback),
        (TCPIPConnection.write { mSocketfd := fd } w2 buff len callback).2.1
          = { mSocketfd := fd }
        ∧ (TCPIPConnection.read { mSocketfd := fd } w2 len callback).2.1
          = { mSocketfd := fd })
    ∧ (∀ w2 : World,
        TCPIPConnection.disconnect { mSocketfd := fd } w2
          = ({ mSocketfd := -1 }, { w2 with log := w2.log ++ [Event.close fd] })) := by
  refine ⟨?_, ?_, ?_, fun _ => rfl⟩
  · simp [TCPIPConnection.connect, hc, hs, hfd, hr, JSONRPC_EXCEPT, ExceptionFactory.create,
      ExceptionCodes.number, ExceptionCodes.typeName]
  · intro w2
    simp [TCPIPConnection.connect, hfd]
  · intro w2 buff len callback
    exact ⟨rfl, rfl⟩

/-- C40 at a disconnected connection for which `socket` gives handle 3 and the `connect`
call is refused. -/
theorem TCPIPConnection.connect_failure_keeps_handle_witness :
    TCPIPConnection.connect sampleConn connectFailsWorld
      = (.error (.exn (Exception.mk (-3004) "network connection failed: Connection refused"
            "TransportErrorException")),
          connectedConn,
          { connectFailsWorld with
            socketResults := [], connectResults := [],
            log := [Event.socket, Event.connect 3] })
    ∧ TCPIPConnection.connect connectedConn connectFailsWorld
        = (.ok (), connectedConn, connectFailsWorld) :=
  ⟨(TCPIPConnection.connect_failure_keeps_handle sampleConn connectFailsWorld 3 [] [] rfl rfl
      (by decide) rfl).1,
    (TCPIPConnection.connect_failure_keeps_handle sampleConn connectFailsWorld 3 [] [] rfl rfl
      (by decide) rfl).2.1 connectFailsWorld⟩
end jsonrpc
